import Mathlib

/-! # vsg::Allocator

A shallow embedding of `src/vsg/core/Allocator.cpp`: the allocator facade
(`Allocator`), the per-category pool of blocks (`Allocator::MemoryBlocks`) and the
single block (`Allocator::MemoryBlock`).

Conventions of the embedding.

* An address (`void*`, `uint8_t*`) is a natural number; `nullptr` is `0`.
  `memory + offset` and `ptr - memory` are the pointer arithmetic of the source
  (the subtraction is only evaluated under the guard `ptr >= memory`).
* `size_t` values are natural numbers; no arithmetic of the source on them can
  wrap (`std::max` and comparisons only).
* The slot ledger `vsg::MemorySlots` is an external collaborator: its operations
  are a parameter `ops : MemorySlotsOps L` over an arbitrary ledger state `L`.
* `std::malloc` is a parameter `malloc : Nat → Nat`: the answer of the system
  allocator during the call, as a function of the requested size.
* Every operation returns, next to its result and the new state, the list of
  `Event`s it performed: the lines it wrote to `std::cout` and the calls it made
  to the ledger and to the system allocator, in program order.
* `Allocator::report` returns what it wrote to its stream as a list of `OutItem`s.

The function `ComputePipeline::Implementation::create` of
`src/vsg/vk/ComputePipeline.cpp` is embedded in a section of its own.
-/

namespace vsg

/-- One observable action of the allocator code. -/
inductive Event where
  /-- A line written to `std::cout`. -/
  | cout (line : String)
  /-- The call `memorySlots.reserve(size, alignment)` on the block at `memory`. -/
  | reserve (memory size alignment : Nat)
  /-- The call `memorySlots.release(offset, size)` on the block at `memory`. -/
  | release (memory offset size : Nat)
  /-- The call `std::malloc(size)`. -/
  | malloc (size : Nat)
  deriving DecidableEq, Repr

/-- Modelled from the spec: the bit of the tracking-flags bitmask that gates the
diagnostic lines (`MEMORY_TRACKING_REPORT_ACTIONS` of the header `Allocator.h`,
which is not among the sources). -/
def MEMORY_TRACKING_REPORT_ACTIONS : Nat := 1

/-- Modelled from the spec: the default tracking flags, "never by default"
(`MEMORY_TRACKING_DEFAULT` of the header `Allocator.h`, not among the sources). -/
def MEMORY_TRACKING_DEFAULT : Nat := 0

/-- The test `memoryTracking & MEMORY_TRACKING_REPORT_ACTIONS`. -/
def reportActions (memoryTracking : Nat) : Bool :=
  memoryTracking &&& MEMORY_TRACKING_REPORT_ACTIONS != 0

/-- The category of an allocation (`vsg::AllocatorType`), an index into
`allocatorMemoryBlocks`. -/
inductive AllocatorType where
  | ALLOCATOR_OBJECTS
  | ALLOCATOR_DATA
  | ALLOCATOR_NODES
  deriving DecidableEq, Repr

/-- The integer value of the enumerator. -/
def AllocatorType.toNat : AllocatorType → Nat
  | .ALLOCATOR_OBJECTS => 0
  | .ALLOCATOR_DATA => 1
  | .ALLOCATOR_NODES => 2

/-- The number of categories (`vsg::ALLOCATOR_LAST`). -/
def ALLOCATOR_LAST : Nat := 3

/-- The operations of the slot ledger `vsg::MemorySlots` used by the allocator, over
a ledger state `L`. A mutating member function returns the new ledger state next to
its result. -/
structure MemorySlotsOps (L : Type) where
  /-- The constructor `MemorySlots(availableMemorySize, memoryTracking)`. -/
  create : Nat → Nat → L
  /-- The call `reserve(size, alignment)`: `((allocated, offset), newState)`. -/
  reserve : L → Nat → Nat → (Bool × Nat) × L
  /-- The call `release(offset, size)`: `(released, newState)`. -/
  release : L → Nat → Nat → Bool × L
  /-- The call `totalReservedSize()`. -/
  totalReservedSize : L → Nat
  /-- The call `maximumAvailableSpace()`. -/
  maximumAvailableSpace : L → Nat
  /-- The call `totalMemorySize()`. -/
  totalMemorySize : L → Nat
  /-- The data member `memoryTracking`. -/
  memoryTracking : L → Nat

/-- The block `Allocator::MemoryBlock`: a raw buffer and the ledger scoped to it. -/
structure MemoryBlock (L : Type) where
  /-- The buffer `uint8_t* memory`, as returned by `std::malloc`. -/
  memory : Nat
  /-- The ledger `MemorySlots memorySlots`. -/
  memorySlots : L
  deriving DecidableEq, Repr

/-- The pool `Allocator::MemoryBlocks`. The back pointer `parent` is only read for
`parent->memoryTracking`, which the pool operations take as an argument. -/
structure MemoryBlocks (L : Type) where
  name : String
  blockSize : Nat
  /-- The vector `memoryBlocks`, in creation order. -/
  memoryBlocks : List (MemoryBlock L)
  deriving DecidableEq, Repr

/-- The allocator `vsg::Allocator`. -/
inductive Allocator (L : Type) where
  | mk (nestedAllocator : Option (Allocator L))
      (allocatorMemoryBlocks : List (Option (MemoryBlocks L)))
      (memoryTracking : Nat)
      (mutexLocked : Bool)

namespace Allocator

variable {L : Type}

/-- The member `nestedAllocator` (`none` is the null `unique_ptr`). -/
def nestedAllocator : Allocator L → Option (Allocator L)
  | mk n _ _ _ => n

/-- The member `allocatorMemoryBlocks` (an entry `none` is a null `unique_ptr`). -/
def allocatorMemoryBlocks : Allocator L → List (Option (MemoryBlocks L))
  | mk _ p _ _ => p

/-- The member `memoryTracking`. -/
def memoryTracking : Allocator L → Nat
  | mk _ _ t _ => t

/-- Whether the member `mutex` is currently held. -/
def mutexLocked : Allocator L → Bool
  | mk _ _ _ m => m

end Allocator

/-- The result of running a member function of `Allocator`. -/
inductive Outcome (α : Type) where
  /-- The call returned. -/
  | returned (x : α)
  /-- The call waits for a `std::mutex` that is already held and is never
  released: it does not return. -/
  | blocked
  /-- The call indexed `allocatorMemoryBlocks` past its end. -/
  | undefined
  /-- The recursion budget of the embedding ran out. -/
  | outOfFuel

variable {L : Type}

/-! ## Allocator::MemoryBlock -/

namespace MemoryBlock

/-- The constructor `MemoryBlock::MemoryBlock(blockSize, memoryTracking)`: the ledger
is built first (member initialiser), then the buffer is requested from `std::malloc`;
the result of `std::malloc` is stored unchecked. -/
def construct (ops : MemorySlotsOps L) (malloc : Nat → Nat) (blockSize memoryTracking : Nat) :
    MemoryBlock L × List Event :=
  let memorySlots := ops.create blockSize memoryTracking
  let memory := malloc blockSize
  (⟨memory, memorySlots⟩,
    Event.malloc blockSize ::
      (if reportActions (ops.memoryTracking memorySlots) then
        [Event.cout ("MemoryBlock(" ++ toString blockSize ++ ") allocatoed memory")]
      else []))

/-- The member function `MemoryBlock::allocate(size)`. -/
def allocate (ops : MemorySlotsOps L) (block : MemoryBlock L) (size : Nat) :
    Nat × MemoryBlock L × List Event :=
  match ops.reserve block.memorySlots size 4 with
  | ((allocated, offset), slots) =>
    if allocated then
      (block.memory + offset, ⟨block.memory, slots⟩, [Event.reserve block.memory size 4])
    else
      (0, ⟨block.memory, slots⟩, [Event.reserve block.memory size 4])

/-- The member function `MemoryBlock::deallocate(ptr, size)`. -/
def deallocate (ops : MemorySlotsOps L) (block : MemoryBlock L) (ptr size : Nat) :
    Bool × MemoryBlock L × List Event :=
  if ptr ≥ block.memory then
    let offset := ptr - block.memory
    if offset < ops.totalMemorySize block.memorySlots then
      match ops.release block.memorySlots offset size with
      | (released, slots) =>
        (true, ⟨block.memory, slots⟩,
          Event.release block.memory offset size ::
            (if !released then
              [Event.cout ("Allocator::MemoryBlock::deallocate(" ++ toString ptr ++
                ") problem - couldn't release")]
            else []))
    else (false, block, [])
  else (false, block, [])

end MemoryBlock

/-! ## Allocator::MemoryBlocks -/

namespace MemoryBlocks

/-- The loop `for (auto& block : memoryBlocks)` of `MemoryBlocks::allocate`: the
pointer of the first block whose `allocate` is non-null (`0` when the loop runs to
its end), and the blocks after the attempts. -/
def allocateLoop (ops : MemorySlotsOps L) :
    List (MemoryBlock L) → Nat → Nat × List (MemoryBlock L) × List Event
  | [], _ => (0, [], [])
  | block :: rest, size =>
    match block.allocate ops size with
    | (ptr, block1, t) =>
      if ptr != 0 then (ptr, block1 :: rest, t)
      else
        match allocateLoop ops rest size with
        | (p, rest1, t1) => (p, block1 :: rest1, t ++ t1)

/-- The member function `MemoryBlocks::allocate(size)`; `parentTracking` is
`parent->memoryTracking`. -/
def allocate (ops : MemorySlotsOps L) (malloc : Nat → Nat) (parentTracking : Nat)
    (pool : MemoryBlocks L) (size : Nat) : Nat × MemoryBlocks L × List Event :=
  match allocateLoop ops pool.memoryBlocks size with
  | (ptr, blocks, t) =>
    if ptr != 0 then (ptr, ⟨pool.name, pool.blockSize, blocks⟩, t)
    else
      let new_blockSize := max size pool.blockSize
      match MemoryBlock.construct ops malloc new_blockSize parentTracking with
      | (block, t1) =>
        match block.allocate ops size with
        | (ptr1, block1, t2) =>
          (ptr1, ⟨pool.name, pool.blockSize, blocks ++ [block1]⟩, t ++ t1 ++ t2)

/-- The loop `for (auto& block : memoryBlocks)` of `MemoryBlocks::deallocate`. -/
def deallocateLoop (ops : MemorySlotsOps L) :
    List (MemoryBlock L) → Nat → Nat → Bool × List (MemoryBlock L) × List Event
  | [], _, _ => (false, [], [])
  | block :: rest, ptr, size =>
    match block.deallocate ops ptr size with
    | (found, block1, t) =>
      if found then (true, block1 :: rest, t)
      else
        match deallocateLoop ops rest ptr size with
        | (r, rest1, t1) => (r, block1 :: rest1, t ++ t1)

/-- The member function `MemoryBlocks::deallocate(ptr, size)`; `parentTracking` is
`parent->memoryTracking`. -/
def deallocate (ops : MemorySlotsOps L) (parentTracking : Nat) (pool : MemoryBlocks L)
    (ptr size : Nat) : Bool × MemoryBlocks L × List Event :=
  match deallocateLoop ops pool.memoryBlocks ptr size with
  | (found, blocks, t) =>
    if found then (true, ⟨pool.name, pool.blockSize, blocks⟩, t)
    else
      (false, ⟨pool.name, pool.blockSize, blocks⟩,
        t ++ (if reportActions parentTracking then
          [Event.cout ("MemoryBlocks:deallocate() : couldn't locate point to deallocato " ++
            toString ptr)]
        else []))

end MemoryBlocks

/-! ## Allocator -/

namespace Allocator

/-- The constructor `Allocator::Allocator(in_nestedAllocator)`; `memoryTracking` is the
value the member has from its default initialiser. -/
def construct (in_nestedAllocator : Option (Allocator L)) (memoryTracking : Nat) :
    Allocator L × List Event :=
  (mk in_nestedAllocator
      [some ⟨"ALLOCATOR_OBJECTS", 4096 * 10, []⟩,
       some ⟨"ALLOCATOR_DATA", 2048 * 10, []⟩,
       some ⟨"ALLOCATOR_NODES", 512 * 10, []⟩]
      memoryTracking false,
    if reportActions memoryTracking then [Event.cout "Allocator()"] else [])

/-- The member function `Allocator::allocate(size, allocatorType)`. The recursion of
the source (the call `Allocator::allocate(size, allocatorType)` made when the pool
gave no pointer) is bounded by `fuel`; that call is made while the `scoped_lock` of
the caller still holds `mutex`. -/
def allocate (ops : MemorySlotsOps L) (malloc : Nat → Nat) :
    Nat → Allocator L → Nat → AllocatorType → Outcome (Nat × Allocator L × List Event)
  | 0, _, _, _ => Outcome.outOfFuel
  | fuel + 1, mk nested pools tracking locked, size, allocatorType =>
    if locked then Outcome.blocked
    else
      match pools[allocatorType.toNat]? with
      | none => Outcome.undefined
      | some memoryBlocks =>
        match (match memoryBlocks with
          | some pool =>
            match pool.allocate ops malloc tracking size with
            | (p, pool1, t) => (p, pools.set allocatorType.toNat (some pool1), t)
          | none => (0, pools, [])) with
        | (mem_ptr, pools1, t) =>
          if mem_ptr != 0 then
            Outcome.returned (mem_ptr, mk nested pools1 tracking false,
              t ++ (if reportActions tracking then
                [Event.cout ("Allocated from MemoryBlock mem_ptr = " ++ toString mem_ptr ++
                  ", size = " ++ toString size ++ ", allocatorType = " ++
                  toString allocatorType.toNat)]
              else []))
          else
            match allocate ops malloc fuel (mk nested pools1 tracking true) size allocatorType with
            | Outcome.returned (ptr, a1, t1) =>
              Outcome.returned (ptr,
                mk a1.nestedAllocator a1.allocatorMemoryBlocks a1.memoryTracking false,
                t ++ t1 ++ (if reportActions tracking then
                  [Event.cout ("Allocator::allocate(" ++ toString size ++ ", " ++
                    toString allocatorType.toNat ++ ") ptr = " ++ toString ptr)]
                else []))
            | Outcome.blocked => Outcome.blocked
            | Outcome.undefined => Outcome.undefined
            | Outcome.outOfFuel => Outcome.outOfFuel

/-- The loop `for (auto& memoryBlocks : allocatorMemoryBlocks)` of
`Allocator::deallocate`. -/
def deallocateLoop (ops : MemorySlotsOps L) (memoryTracking : Nat) :
    List (Option (MemoryBlocks L)) → Nat → Nat →
      Bool × List (Option (MemoryBlocks L)) × List Event
  | [], _, _ => (false, [], [])
  | none :: rest, ptr, size =>
    match deallocateLoop ops memoryTracking rest ptr size with
    | (r, rest1, t1) => (r, none :: rest1, t1)
  | some pool :: rest, ptr, size =>
    match pool.deallocate ops memoryTracking ptr size with
    | (found, pool1, t) =>
      if found then
        (true, some pool1 :: rest,
          t ++ (if reportActions memoryTracking then
            [Event.cout ("Deallocated from MemoryBlock " ++ toString ptr)]
          else []))
      else
        match deallocateLoop ops memoryTracking rest ptr size with
        | (r, rest1, t1) => (r, some pool1 :: rest1, t ++ t1)

/-- The member function `Allocator::deallocate(ptr, size)`. -/
def deallocate (ops : MemorySlotsOps L) :
    Allocator L → Nat → Nat → Outcome (Bool × Allocator L × List Event)
  | mk nested pools tracking locked, ptr, size =>
    if locked then Outcome.blocked
    else
      match deallocateLoop ops tracking pools ptr size with
      | (found, pools1, t) =>
        if found then Outcome.returned (true, mk nested pools1 tracking false, t)
        else
          match nested with
          | some b =>
            match deallocate ops b ptr size with
            | Outcome.returned (r, b1, t1) =>
              Outcome.returned (r, mk (some b1) pools1 tracking false, t ++ t1)
            | Outcome.blocked => Outcome.blocked
            | Outcome.undefined => Outcome.undefined
            | Outcome.outOfFuel => Outcome.outOfFuel
          | none => Outcome.returned (false, mk none pools1 tracking false, t)

end Allocator

/-! ## Allocator::report -/

/-- One insertion `out << x` into the stream given to `Allocator::report`. -/
inductive OutItem where
  /-- A string. -/
  | text (s : String)
  /-- A `size_t` value. -/
  | number (n : Nat)
  /-- The manipulator `std::endl`, which ends the line. -/
  | endl
  deriving DecidableEq, Repr

namespace Allocator

/-- The inner loop of `Allocator::report` over the blocks of a pool. The ledger is read
through a `const` reference, by `totalReservedSize()` and `maximumAvailableSpace()`. -/
def reportBlocks (ops : MemorySlotsOps L) : List (MemoryBlock L) → List OutItem
  | [] => []
  | memoryBlock :: rest =>
    [OutItem.text ", [", OutItem.number (ops.totalReservedSize memoryBlock.memorySlots),
      OutItem.text ", ", OutItem.number (ops.maximumAvailableSpace memoryBlock.memorySlots),
      OutItem.text "]"] ++ reportBlocks ops rest

/-- The outer loop of `Allocator::report` over `allocatorMemoryBlocks`. -/
def reportPools (ops : MemorySlotsOps L) : List (Option (MemoryBlocks L)) → List OutItem
  | [] => []
  | none :: rest => reportPools ops rest
  | some memoryBlocks :: rest =>
    [OutItem.text "    ", OutItem.text memoryBlocks.name] ++
      reportBlocks ops memoryBlocks.memoryBlocks ++ [OutItem.endl] ++ reportPools ops rest

/-- The member function `Allocator::report(out) const`: the value returned is what was
written to `out`. -/
def report (ops : MemorySlotsOps L) :
    Allocator L → Outcome (List OutItem × Allocator L × List Event)
  | mk nested pools tracking locked =>
    if locked then Outcome.blocked
    else
      Outcome.returned
        ([OutItem.text "Allocator::report() ", OutItem.number pools.length, OutItem.endl] ++
            reportPools ops pools,
          mk nested pools tracking false, [])

end Allocator

/-! ## ComputePipeline::Implementation::create

The embedding of `ComputePipeline::Implementation::create` of
`src/vsg/vk/ComputePipeline.cpp`. A pointer argument is an `Option` (`none` is the null
pointer). The classes `Device`, `PipelineLayout` and `ShaderStage` and the Vulkan entry
point `vkCreateComputePipelines` are not part of the file: the objects are records of
what `create` reads from them, the entry point is a parameter. -/

namespace ComputePipeline

/-- The `VkResult` value `VK_SUCCESS` of the Vulkan headers. -/
def VK_SUCCESS : Int := 0

/-- The `VkResult` value `VK_ERROR_INVALID_EXTERNAL_HANDLE` of the Vulkan headers. -/
def VK_ERROR_INVALID_EXTERNAL_HANDLE : Int := -1000072003

/-- The `VkStructureType` value `VK_STRUCTURE_TYPE_COMPUTE_PIPELINE_CREATE_INFO`. -/
def VK_STRUCTURE_TYPE_COMPUTE_PIPELINE_CREATE_INFO : Nat := 29

/-- The handle `VK_NULL_HANDLE`. -/
def VK_NULL_HANDLE : Nat := 0

/-- The Vulkan structure `VkSpecializationInfo`; `pMapEntries` is the array the pointer
and the count designate. -/
structure VkSpecializationInfo where
  mapEntryCount : Nat
  pMapEntries : List (Nat × Nat × Nat)
  dataSize : Nat
  pData : Nat
  deriving DecidableEq, Repr

/-- The Vulkan structure `VkPipelineShaderStageCreateInfo`. -/
structure VkPipelineShaderStageCreateInfo where
  sType : Nat
  pNext : Nat
  flags : Nat
  stage : Nat
  module : Nat
  pName : String
  pSpecializationInfo : Option VkSpecializationInfo
  deriving DecidableEq, Repr

/-- The Vulkan structure `VkComputePipelineCreateInfo`. -/
structure VkComputePipelineCreateInfo where
  sType : Nat
  pNext : Nat
  flags : Nat
  stage : VkPipelineShaderStageCreateInfo
  layout : Nat
  basePipelineHandle : Nat
  basePipelineIndex : Int
  deriving DecidableEq, Repr

/-- What `create` reads from a `vsg::Device`: its `VkDevice` handle. -/
structure Device where
  handle : Nat
  deriving DecidableEq, Repr

/-- What `create` reads from a `vsg::PipelineLayout`: its `VkPipelineLayout` handle. -/
structure PipelineLayout where
  handle : Nat
  deriving DecidableEq, Repr

/-- What `create` reads from the `vsg::Data` returned by `getSpecializationData()`. -/
structure Data where
  dataSize : Nat
  dataPointer : Nat
  deriving DecidableEq, Repr

/-- What `create` uses of a `vsg::ShaderStage`: the member function `apply(stageInfo)`,
`getSpecializationMapEntries()` and `getSpecializationData()` (`none` is null). -/
structure ShaderStage where
  apply : VkPipelineShaderStageCreateInfo → VkPipelineShaderStageCreateInfo
  getSpecializationMapEntries : List (Nat × Nat × Nat)
  getSpecializationData : Option Data

/-- The object `ComputePipeline::Implementation` built by its constructor. -/
structure Implementation where
  _pipeline : Nat
  _device : Device
  _pipelineLayout : PipelineLayout
  _shaderStage : ShaderStage
  _allocator : Option Nat

/-- The value `ComputePipeline::Implementation::Result`: an error with its message and
`VkResult` code, or the pipeline implementation. -/
inductive Result where
  | error (message : String) (result : Int)
  | value (ptr : Implementation)

/-- The `VkResult` code of an error result. -/
def Result.code? : Result → Option Int
  | Result.error _ result => some result
  | Result.value _ => none

/-- Whether the result holds a pipeline implementation. -/
def Result.isValue : Result → Bool
  | Result.error _ _ => false
  | Result.value _ => true

/-- The value-initialised `VkPipelineShaderStageCreateInfo stageInfo = {}`. -/
def emptyStageInfo : VkPipelineShaderStageCreateInfo :=
  ⟨0, 0, 0, 0, 0, "", none⟩

/-- The assignment `stageInfo.pNext = p`. -/
def VkPipelineShaderStageCreateInfo.setNext (info : VkPipelineShaderStageCreateInfo)
    (p : Nat) : VkPipelineShaderStageCreateInfo :=
  ⟨info.sType, p, info.flags, info.stage, info.module, info.pName, info.pSpecializationInfo⟩

/-- The assignment `stageInfo.pSpecializationInfo = &specializationInfo`. -/
def VkPipelineShaderStageCreateInfo.setSpecializationInfo
    (info : VkPipelineShaderStageCreateInfo) (specializationInfo : VkSpecializationInfo) :
    VkPipelineShaderStageCreateInfo :=
  ⟨info.sType, info.pNext, info.flags, info.stage, info.module, info.pName,
    some specializationInfo⟩

/-- The function `ComputePipeline::Implementation::create(device, pipelineLayout,
shaderStage, allocator)`. The parameter `vkCreateComputePipelines` gives, for the device
handle, the create info and the allocator, the `VkResult` and the pipeline handle the
entry point writes. Next to the result, the list of the create infos passed to the
entry point, one per call. -/
def create (vkCreateComputePipelines : Nat → VkComputePipelineCreateInfo → Option Nat → Int × Nat)
    (device : Option Device) (pipelineLayout : Option PipelineLayout)
    (shaderStage : Option ShaderStage) (allocator : Option Nat) :
    Result × List VkComputePipelineCreateInfo :=
  match device, pipelineLayout, shaderStage with
  | some dev, some layout, some stage =>
    let stageInfo0 := stage.apply (emptyStageInfo.setNext 0)
    let stageInfo :=
      match stage.getSpecializationMapEntries.isEmpty, stage.getSpecializationData with
      | false, some data =>
        stageInfo0.setSpecializationInfo
          ⟨stage.getSpecializationMapEntries.length, stage.getSpecializationMapEntries,
            data.dataSize, data.dataPointer⟩
      | _, _ => stageInfo0
    let pipelineInfo : VkComputePipelineCreateInfo :=
      ⟨VK_STRUCTURE_TYPE_COMPUTE_PIPELINE_CREATE_INFO, 0, 0, stageInfo, layout.handle,
        VK_NULL_HANDLE, 0⟩
    match vkCreateComputePipelines dev.handle pipelineInfo allocator with
    | (result, pipeline) =>
      if result = VK_SUCCESS then
        (Result.value ⟨pipeline, dev, layout, stage, allocator⟩, [pipelineInfo])
      else
        (Result.error "Error: vsg::Pipeline::createCompute(...) failed to create VkPipeline."
          result, [pipelineInfo])
  | _, _, _ =>
    (Result.error
      "Error: vsg::ComputePipeline::create(...) failed to create compute pipeline, undefined device, pipelinLayout or shaderStage."
      VK_ERROR_INVALID_EXTERNAL_HANDLE, [])

end ComputePipeline

/-! ## A ledger that follows the contract of the spec -/

/-- Modelled from the spec: the state of a slot ledger `vsg::MemorySlots` (its
implementation is not among the sources): the capacity it is bound to, the reserved
ranges `(offset, size)`, most recent first, and its tracking flags. -/
structure SimpleSlots where
  capacity : Nat
  reserved : List (Nat × Nat)
  tracking : Nat
  deriving DecidableEq, Repr

namespace SimpleSlots

/-- The first multiple of `alignment` that is not below `x`. -/
def alignUp (x alignment : Nat) : Nat :=
  ((x + alignment - 1) / alignment) * alignment

/-- Whether `size` bytes at `offset` lie within the capacity and meet no reserved
range. -/
def fits (s : SimpleSlots) (size offset : Nat) : Bool :=
  decide (offset < s.capacity) && decide (offset + size ≤ s.capacity) &&
    s.reserved.all (fun r => decide (offset + size ≤ r.1) || decide (r.1 + r.2 ≤ offset))

/-- The offsets tried by `reserve`: the start of the block, then the aligned end of
every reserved range. -/
def candidates (s : SimpleSlots) (alignment : Nat) : List Nat :=
  0 :: s.reserved.map (fun r => alignUp (r.1 + r.2) alignment)

/-- Modelled from the spec: `reserve(size, alignment) -> (ok, offset)` "finds a free
range of at least `size` bytes whose start offset satisfies `alignment`; marks it
reserved; returns `ok=false` if no such range exists". -/
def reserve (s : SimpleSlots) (size alignment : Nat) : (Bool × Nat) × SimpleSlots :=
  match (s.candidates alignment).find? (s.fits size) with
  | some offset => ((true, offset), ⟨s.capacity, (offset, size) :: s.reserved, s.tracking⟩)
  | none => ((false, 0), s)

/-- Modelled from the spec: `release(offset, size) -> ok` "marks the range free;
returns `false` if the range was not currently reserved as given". -/
def release (s : SimpleSlots) (offset size : Nat) : Bool × SimpleSlots :=
  if (offset, size) ∈ s.reserved then
    (true, ⟨s.capacity, s.reserved.erase (offset, size), s.tracking⟩)
  else (false, s)

/-- Modelled from the spec: `totalReservedSize()`. -/
def totalReservedSize (s : SimpleSlots) : Nat :=
  (s.reserved.map Prod.snd).sum

/-- The free bytes from `offset` up to the next reserved range or the end of the
block (`0` when `offset` is inside a reserved range or past the end). -/
def freeRun (s : SimpleSlots) (offset : Nat) : Nat :=
  if s.reserved.any (fun r => decide (r.1 ≤ offset) && decide (offset < r.1 + r.2)) then 0
  else
    (((s.reserved.map Prod.fst).filter (fun o => decide (offset ≤ o))).foldl min s.capacity)
      - offset

/-- Modelled from the spec: `maximumAvailableSpace()`, the "maximum contiguous free
space". -/
def maximumAvailableSpace (s : SimpleSlots) : Nat :=
  ((0 :: s.reserved.map (fun r => r.1 + r.2)).map s.freeRun).foldl max 0

/-- Modelled from the spec: the slot ledger as the collaborator the allocator
consumes. -/
def ops : MemorySlotsOps SimpleSlots where
  create := fun availableMemorySize memoryTracking => ⟨availableMemorySize, [], memoryTracking⟩
  reserve := reserve
  release := release
  totalReservedSize := totalReservedSize
  maximumAvailableSpace := maximumAvailableSpace
  totalMemorySize := fun s => s.capacity
  memoryTracking := fun s => s.tracking

end SimpleSlots

/-! ## Vocabulary of the statements -/

/-- Whether the event is a call of the ledger's `release`. -/
def Event.isRelease : Event → Bool
  | Event.release _ _ _ => true
  | _ => false

/-- Whether the event is a call of the ledger's `reserve`. -/
def Event.isReserve : Event → Bool
  | Event.reserve _ _ _ => true
  | _ => false

/-- Whether the event is a call of `std::malloc`. -/
def Event.isMalloc : Event → Bool
  | Event.malloc _ => true
  | _ => false

/-- Whether the event is a line written to `std::cout`. -/
def Event.isCout : Event → Bool
  | Event.cout _ => true
  | _ => false

/-- The address `ptr` lies in the address range of the block:
`base <= ptr` and `ptr - base < totalMemorySize()`. -/
def MemoryBlock.inRange (ops : MemorySlotsOps L) (block : MemoryBlock L) (ptr : Nat) : Prop :=
  block.memory ≤ ptr ∧ ptr - block.memory < ops.totalMemorySize block.memorySlots

instance (ops : MemorySlotsOps L) (block : MemoryBlock L) (ptr : Nat) :
    Decidable (block.inRange ops ptr) := by
  unfold MemoryBlock.inRange
  exact inferInstance

/-- Some block of the pool has `ptr` in its address range. -/
def MemoryBlocks.claims (ops : MemorySlotsOps L) (pool : MemoryBlocks L) (ptr : Nat) : Prop :=
  ∃ b ∈ pool.memoryBlocks, b.inRange ops ptr

instance (ops : MemorySlotsOps L) (pool : MemoryBlocks L) (ptr : Nat) :
    Decidable (pool.claims ops ptr) := by
  unfold MemoryBlocks.claims
  exact inferInstance

/-- Some block of some pool of the list has `ptr` in its address range. -/
def poolsClaim (ops : MemorySlotsOps L) (pools : List (Option (MemoryBlocks L))) (ptr : Nat) :
    Prop :=
  ∃ p ∈ pools, ∃ pool, p = some pool ∧ pool.claims ops ptr

instance (ops : MemorySlotsOps L) (pools : List (Option (MemoryBlocks L))) (ptr : Nat) :
    Decidable (poolsClaim ops pools ptr) :=
  decidable_of_iff
    (pools.any (fun p =>
      match p with
      | some pool => decide (pool.claims ops ptr)
      | none => false) = true)
    (by
      unfold poolsClaim
      rw [List.any_eq_true]
      constructor
      · rintro ⟨p, hp, h⟩
        cases p with
        | none => cases h
        | some pool => exact ⟨some pool, hp, pool, rfl, of_decide_eq_true h⟩
      · rintro ⟨p, hp, pool, rfl, h⟩
        exact ⟨some pool, hp, decide_eq_true h⟩)

/-- Apply a function to the value a call returned. -/
def Outcome.map {α β : Type} (f : α → β) : Outcome α → Outcome β
  | Outcome.returned x => Outcome.returned (f x)
  | Outcome.blocked => Outcome.blocked
  | Outcome.undefined => Outcome.undefined
  | Outcome.outOfFuel => Outcome.outOfFuel

/-- Whether the call returned. -/
def Outcome.isReturned {α : Type} : Outcome α → Bool
  | Outcome.returned _ => true
  | _ => false

/-- The pointer the pool of the category gives to `Allocator::allocate`, with the pools
and events after that attempt (`mem_ptr` stays null when the pool pointer is null). -/
def Allocator.poolAttempt (ops : MemorySlotsOps L) (malloc : Nat → Nat)
    (pools : List (Option (MemoryBlocks L))) (tracking size : Nat)
    (allocatorType : AllocatorType) (memoryBlocks : Option (MemoryBlocks L)) :
    Nat × List (Option (MemoryBlocks L)) × List Event :=
  match memoryBlocks with
  | some pool =>
    ((pool.allocate ops malloc tracking size).1,
      pools.set allocatorType.toNat (some (pool.allocate ops malloc tracking size).2.1),
      (pool.allocate ops malloc tracking size).2.2)
  | none => (0, pools, [])

/-- The blocks of all pools, in the order `Allocator::deallocate` visits them. -/
def allBlocks (pools : List (Option (MemoryBlocks L))) : List (MemoryBlock L) :=
  pools.flatMap (fun p =>
    match p with
    | some pool => pool.memoryBlocks
    | none => [])

/-- The address ranges `[memory, memory + totalMemorySize())` of two blocks do not
meet. -/
def MemoryBlock.apart (ops : MemorySlotsOps L) (b c : MemoryBlock L) : Prop :=
  b.memory + ops.totalMemorySize b.memorySlots ≤ c.memory ∨
    c.memory + ops.totalMemorySize c.memorySlots ≤ b.memory

instance (ops : MemorySlotsOps L) (b c : MemoryBlock L) : Decidable (b.apart ops c) := by
  unfold MemoryBlock.apart
  exact inferInstance

/-- Every block of every pool has a buffer (`memory` is not null) and the buffers of
any two blocks are disjoint, as `std::malloc` guarantees for live buffers. -/
def buffersDisjoint (ops : MemorySlotsOps L) (pools : List (Option (MemoryBlocks L))) : Prop :=
  (∀ b ∈ allBlocks pools, b.memory ≠ 0) ∧ (allBlocks pools).Pairwise (MemoryBlock.apart ops)

instance (ops : MemorySlotsOps L) (pools : List (Option (MemoryBlocks L))) :
    Decidable (buffersDisjoint ops pools) := by
  unfold buffersDisjoint
  exact inferInstance

/-- The sum of `totalReservedSize()` over the blocks of a pool. -/
def MemoryBlocks.reservedSize (ops : MemorySlotsOps L) (pool : MemoryBlocks L) : Nat :=
  (pool.memoryBlocks.map (fun b => ops.totalReservedSize b.memorySlots)).sum

/-- The sum of `totalReservedSize()` over the blocks of the pool of a category (`0` when
the allocator has no such pool). -/
def Allocator.poolReserved (ops : MemorySlotsOps L) (a : Allocator L)
    (allocatorType : AllocatorType) : Nat :=
  match a.allocatorMemoryBlocks[allocatorType.toNat]? with
  | some (some pool) => pool.reservedSize ops
  | _ => 0

/-- The byte ranges `[x.1, x.1 + x.2)` and `[y.1, y.1 + y.2)` have no byte in
common. -/
def rangesDisjoint (x y : Nat × Nat) : Prop :=
  x.2 = 0 ∨ y.2 = 0 ∨ x.1 + x.2 ≤ y.1 ∨ y.1 + y.2 ≤ x.1

instance (x y : Nat × Nat) : Decidable (rangesDisjoint x y) := by
  unfold rangesDisjoint
  exact inferInstance

/-- The contract of the slot ledger that the statements about live allocations assume,
for a reading `live` of a ledger state as its list of reserved ranges
`(offset, size)`: a fresh ledger has none; a granted `reserve` adds the range it
returns, which starts below the capacity and meets no range that is live; a refused
`reserve` adds nothing; a `release` of a live range removes it; the capacity never
changes. -/
structure LedgerContract (ops : MemorySlotsOps L) (live : L → List (Nat × Nat)) : Prop where
  fresh : ∀ n t : Nat, live (ops.create n t) = []
  granted : ∀ (s : L) (size : Nat), (ops.reserve s size 4).1.1 = true →
    live (ops.reserve s size 4).2 = ((ops.reserve s size 4).1.2, size) :: live s
  noOverlap : ∀ (s : L) (size : Nat), (ops.reserve s size 4).1.1 = true →
    ∀ r ∈ live s, rangesDisjoint ((ops.reserve s size 4).1.2, size) r
  offsetInRange : ∀ (s : L) (size : Nat), (ops.reserve s size 4).1.1 = true →
    (ops.reserve s size 4).1.2 < ops.totalMemorySize s
  refused : ∀ (s : L) (size : Nat), (ops.reserve s size 4).1.1 = false →
    live (ops.reserve s size 4).2 = live s
  released : ∀ (s : L) (offset size : Nat), (offset, size) ∈ live s →
    live (ops.release s offset size).2 = (live s).erase (offset, size)
  reserveCapacity : ∀ (s : L) (size : Nat),
    ops.totalMemorySize (ops.reserve s size 4).2 = ops.totalMemorySize s
  releaseCapacity : ∀ (s : L) (offset size : Nat),
    ops.totalMemorySize (ops.release s offset size).2 = ops.totalMemorySize s

/-- One call made on an allocator: `allocate(size, allocatorType)`, with the answers
`std::malloc` gives during the call, or `deallocate(ptr, size)`. -/
inductive Call where
  | allocate (size : Nat) (allocatorType : AllocatorType) (malloc : Nat → Nat)
  | deallocate (ptr size : Nat)

/-- Run a sequence of calls, keeping the list `live` of the allocations `(ptr, size)`
returned by `allocate` and not yet passed to `deallocate`. The run is `none` when it is
not one of the runs under consideration: a call does not return, a `deallocate` does
not pass a live pointer with its size, or the buffers `std::malloc` handed out are not
pairwise disjoint non-null buffers. -/
def runCalls (ops : MemorySlotsOps L) (fuel : Nat) :
    List Call → Allocator L × List (Nat × Nat) → Option (Allocator L × List (Nat × Nat))
  | [], st =>
    if buffersDisjoint ops st.1.allocatorMemoryBlocks then some st else none
  | Call.allocate size allocatorType malloc :: rest, st =>
    if buffersDisjoint ops st.1.allocatorMemoryBlocks then
      match st.1.allocate ops malloc fuel size allocatorType with
      | Outcome.returned x => runCalls ops fuel rest (x.2.1, (x.1, size) :: st.2)
      | _ => none
    else none
  | Call.deallocate ptr size :: rest, st =>
    if buffersDisjoint ops st.1.allocatorMemoryBlocks ∧ (ptr, size) ∈ st.2 then
      match st.1.deallocate ops ptr size with
      | Outcome.returned x => runCalls ops fuel rest (x.2.1, st.2.erase (ptr, size))
      | _ => none
    else none

/-- The live allocations `(ptr, size)` of a block, read off its ledger. -/
def MemoryBlock.liveRanges (live : L → List (Nat × Nat)) (b : MemoryBlock L) : List (Nat × Nat) :=
  (live b.memorySlots).map (fun r => (b.memory + r.1, r.2))

/-- The live allocations of all blocks of all pools, read off the ledgers. -/
def liveRangesOf (live : L → List (Nat × Nat)) (pools : List (Option (MemoryBlocks L))) :
    List (Nat × Nat) :=
  (allBlocks pools).flatMap (MemoryBlock.liveRanges live)

/-- The ledger of the block is consistent: its live ranges are pairwise disjoint and
start below the capacity. -/
def MemoryBlock.ledgerOk (ops : MemorySlotsOps L) (live : L → List (Nat × Nat))
    (b : MemoryBlock L) : Prop :=
  (live b.memorySlots).Pairwise rangesDisjoint ∧
    ∀ r ∈ live b.memorySlots, r.1 < ops.totalMemorySize b.memorySlots

/-- The list `l` of live allocations kept by `runCalls` agrees with the ledgers: it is
the list of the ranges the ledgers hold, up to order, and every ledger is consistent. -/
def liveInvariant (ops : MemorySlotsOps L) (live : L → List (Nat × Nat))
    (pools : List (Option (MemoryBlocks L))) (l : List (Nat × Nat)) : Prop :=
  List.Perm l (liveRangesOf live pools) ∧ ∀ b ∈ allBlocks pools, b.ledgerOk ops live

/-- The value a call returned, if it returned. -/
def Outcome.value? {α σ : Type} : Outcome (α × σ × List Event) → Option α
  | Outcome.returned x => some x.1
  | _ => none

/-- The state a call left, if it returned. -/
def Outcome.state? {α σ : Type} : Outcome (α × σ × List Event) → Option σ
  | Outcome.returned x => some x.2.1
  | _ => none

/-- The events of a call, if it returned. -/
def Outcome.events? {α σ : Type} : Outcome (α × σ × List Event) → Option (List Event)
  | Outcome.returned x => some x.2.2
  | _ => none

/-- The events that are calls of the ledger or of `std::malloc` (everything but the
lines written to `std::cout`). -/
def externalCalls (t : List Event) : List Event :=
  t.filter (fun e => !e.isCout)

/-- The answers of the ledger do not depend on its tracking flags: `same` relates two
ledger states that are equal up to their tracking flags; ledgers created for the same
size are related, and on related states `reserve`, `release` and `totalMemorySize()`
give equal answers and leave related states. -/
structure TrackingIndependent (ops : MemorySlotsOps L) (same : L → L → Prop) : Prop where
  refl : ∀ s : L, same s s
  create : ∀ n t1 t2 : Nat, same (ops.create n t1) (ops.create n t2)
  reserve : ∀ (s1 s2 : L) (size alignment : Nat), same s1 s2 →
    (ops.reserve s1 size alignment).1 = (ops.reserve s2 size alignment).1 ∧
      same (ops.reserve s1 size alignment).2 (ops.reserve s2 size alignment).2
  release : ∀ (s1 s2 : L) (offset size : Nat), same s1 s2 →
    (ops.release s1 offset size).1 = (ops.release s2 offset size).1 ∧
      same (ops.release s1 offset size).2 (ops.release s2 offset size).2
  totalMemorySize : ∀ s1 s2 : L, same s1 s2 →
    ops.totalMemorySize s1 = ops.totalMemorySize s2

/-- Two blocks are equal up to the tracking flags of their ledgers. -/
def MemoryBlock.sameButTracking (same : L → L → Prop) (b1 b2 : MemoryBlock L) : Prop :=
  b1.memory = b2.memory ∧ same b1.memorySlots b2.memorySlots

/-- Two pools are equal up to the tracking flags of their ledgers. -/
def MemoryBlocks.sameButTracking (same : L → L → Prop) (p1 p2 : MemoryBlocks L) : Prop :=
  p1.name = p2.name ∧ p1.blockSize = p2.blockSize ∧
    List.Forall₂ (MemoryBlock.sameButTracking same) p1.memoryBlocks p2.memoryBlocks

/-- Two entries of `allocatorMemoryBlocks` are both null, or pools equal up to the
tracking flags of their ledgers. -/
def poolEntrySame (same : L → L → Prop) :
    Option (MemoryBlocks L) → Option (MemoryBlocks L) → Prop
  | none, none => True
  | some p1, some p2 => p1.sameButTracking same p2
  | _, _ => False

/-- Two allocators are equal up to their tracking flags, the tracking flags of their
ledgers and those of their nested allocators. -/
inductive Allocator.SameButTracking (same : L → L → Prop) : Allocator L → Allocator L → Prop
  | leaf (pools1 pools2 : List (Option (MemoryBlocks L))) (t1 t2 : Nat) (locked : Bool)
      (hpools : List.Forall₂ (poolEntrySame same) pools1 pools2) :
      Allocator.SameButTracking same (Allocator.mk none pools1 t1 locked)
        (Allocator.mk none pools2 t2 locked)
  | wrap (b1 b2 : Allocator L) (pools1 pools2 : List (Option (MemoryBlocks L)))
      (t1 t2 : Nat) (locked : Bool) (hnested : Allocator.SameButTracking same b1 b2)
      (hpools : List.Forall₂ (poolEntrySame same) pools1 pools2) :
      Allocator.SameButTracking same (Allocator.mk (some b1) pools1 t1 locked)
        (Allocator.mk (some b2) pools2 t2 locked)

/-- Two outcomes agree up to tracking flags: both calls returned, with the same value,
states equal up to tracking flags and the same calls of the ledger and of `std::malloc`;
or neither returned, for the same reason. -/
def outcomesAgree {α : Type} (same : L → L → Prop) :
    Outcome (α × Allocator L × List Event) → Outcome (α × Allocator L × List Event) → Prop
  | Outcome.returned x, Outcome.returned y =>
    x.1 = y.1 ∧ Allocator.SameButTracking same x.2.1 y.2.1 ∧
      externalCalls x.2.2 = externalCalls y.2.2
  | Outcome.blocked, Outcome.blocked => True
  | Outcome.undefined, Outcome.undefined => True
  | Outcome.outOfFuel, Outcome.outOfFuel => True
  | _, _ => False

/-- What a call returned: the pointer of an `allocate`, the boolean of a
`deallocate`. -/
inductive CallResult where
  | pointer (p : Nat)
  | status (ok : Bool)
  deriving DecidableEq, Repr

/-- Run a sequence of calls on an allocator, collecting what the calls return. -/
def execCalls (ops : MemorySlotsOps L) (fuel : Nat) :
    List Call → Allocator L → Outcome (List CallResult × Allocator L × List Event)
  | [], a => Outcome.returned ([], a, [])
  | Call.allocate size allocatorType malloc :: rest, a =>
    match a.allocate ops malloc fuel size allocatorType with
    | Outcome.returned x =>
      (execCalls ops fuel rest x.2.1).map
        (fun y => (CallResult.pointer x.1 :: y.1, y.2.1, x.2.2 ++ y.2.2))
    | Outcome.blocked => Outcome.blocked
    | Outcome.undefined => Outcome.undefined
    | Outcome.outOfFuel => Outcome.outOfFuel
  | Call.deallocate ptr size :: rest, a =>
    match a.deallocate ops ptr size with
    | Outcome.returned x =>
      (execCalls ops fuel rest x.2.1).map
        (fun y => (CallResult.status x.1 :: y.1, y.2.1, x.2.2 ++ y.2.2))
    | Outcome.blocked => Outcome.blocked
    | Outcome.undefined => Outcome.undefined
    | Outcome.outOfFuel => Outcome.outOfFuel

/-- Two states of the ledger `SimpleSlots` are equal up to their tracking flags. -/
def SimpleSlots.sameButTracking (s1 s2 : SimpleSlots) : Prop :=
  s1.capacity = s2.capacity ∧ s1.reserved = s2.reserved

/-! ## Concrete states used to instantiate the statements -/

/-- The default-constructed allocator: no nested allocator, default tracking flags. -/
def defaultAllocator : Allocator SimpleSlots :=
  (Allocator.construct none MEMORY_TRACKING_DEFAULT).1

/-- The default-constructed allocator after 100 bytes were allocated under OBJECTS, the
system allocator having placed the block of 40960 bytes at address 1048576. -/
def scenarioLive : Allocator SimpleSlots :=
  Allocator.mk none
    [some ⟨"ALLOCATOR_OBJECTS", 40960, [⟨1048576, ⟨40960, [(0, 100)], 0⟩⟩]⟩,
     some ⟨"ALLOCATOR_DATA", 20480, []⟩,
     some ⟨"ALLOCATOR_NODES", 5120, []⟩]
    0 false

/-- The state of `scenarioLive` after the 100 bytes were released. -/
def scenarioFreed : Allocator SimpleSlots :=
  Allocator.mk none
    [some ⟨"ALLOCATOR_OBJECTS", 40960, [⟨1048576, ⟨40960, [], 0⟩⟩]⟩,
     some ⟨"ALLOCATOR_DATA", 20480, []⟩,
     some ⟨"ALLOCATOR_NODES", 5120, []⟩]
    0 false

/-- A pool with default block size 128 whose only block, at address 65536, is full. -/
def fullPool128 : MemoryBlocks SimpleSlots :=
  ⟨"ALLOCATOR_NODES", 128, [⟨65536, ⟨128, [(0, 128)], 0⟩⟩]⟩

/-- A pool of two blocks of 128 bytes: the first is full, the second has room. -/
def twoBlockPool : MemoryBlocks SimpleSlots :=
  ⟨"ALLOCATOR_NODES", 128, [⟨65536, ⟨128, [(0, 128)], 0⟩⟩, ⟨70000, ⟨128, [(0, 16)], 0⟩⟩]⟩

/-- An allocator without nested allocator whose OBJECTS pool owns one block of 128
bytes at address 65536, with 16 bytes reserved at offset 0. -/
def innerAllocator : Allocator SimpleSlots :=
  Allocator.mk none
    [some ⟨"ALLOCATOR_OBJECTS", 128, [⟨65536, ⟨128, [(0, 16)], 0⟩⟩]⟩,
     some ⟨"ALLOCATOR_DATA", 128, []⟩,
     some ⟨"ALLOCATOR_NODES", 128, []⟩]
    0 false

/-- An allocator that owns `innerAllocator` as its nested allocator and whose DATA
pool owns one block of 128 bytes at address 70000, with 32 bytes reserved. -/
def outerAllocator : Allocator SimpleSlots :=
  Allocator.mk (some innerAllocator)
    [some ⟨"ALLOCATOR_OBJECTS", 128, []⟩,
     some ⟨"ALLOCATOR_DATA", 128, [⟨70000, ⟨128, [(0, 32)], 0⟩⟩]⟩,
     some ⟨"ALLOCATOR_NODES", 128, []⟩]
    0 false

/-- Three calls on the default-constructed allocator: 100 bytes under OBJECTS, 50 bytes
under OBJECTS, release of the first; the system allocator places the block at
1048576. -/
def sampleCalls : List Call :=
  [Call.allocate 100 AllocatorType.ALLOCATOR_OBJECTS (fun _ => 1048576),
   Call.allocate 50 AllocatorType.ALLOCATOR_OBJECTS (fun _ => 2097152),
   Call.deallocate 1048576 100,
   Call.allocate 20 AllocatorType.ALLOCATOR_OBJECTS (fun _ => 2097152),
   Call.allocate 200 AllocatorType.ALLOCATOR_OBJECTS (fun _ => 2097152)]

/-- The state of `scenarioLive` after 50 bytes were allocated under DATA, the system
allocator having placed the block of 20480 bytes at address 2097152. -/
def scenarioTwoCategories : Allocator SimpleSlots :=
  Allocator.mk none
    [some ⟨"ALLOCATOR_OBJECTS", 40960, [⟨1048576, ⟨40960, [(0, 100)], 0⟩⟩]⟩,
     some ⟨"ALLOCATOR_DATA", 20480, [⟨2097152, ⟨20480, [(0, 50)], 0⟩⟩]⟩,
     some ⟨"ALLOCATOR_NODES", 5120, []⟩]
    0 false

/-! # Properties -/

/-! ## Allocator::MemoryBlock::deallocate -/

theorem MemoryBlock.deallocate_inRange (ops : MemorySlotsOps L) (block : MemoryBlock L)
    (ptr size : Nat) (h : block.inRange ops ptr) :
    block.deallocate ops ptr size =
      (true, ⟨block.memory, (ops.release block.memorySlots (ptr - block.memory) size).2⟩,
        Event.release block.memory (ptr - block.memory) size ::
          (if !(ops.release block.memorySlots (ptr - block.memory) size).1 then
            [Event.cout ("Allocator::MemoryBlock::deallocate(" ++ toString ptr ++
              ") problem - couldn't release")]
          else [])) := by
  obtain ⟨h1, h2⟩ := h
  simp [MemoryBlock.deallocate, h1, h2]

theorem MemoryBlock.deallocate_not_inRange (ops : MemorySlotsOps L) (block : MemoryBlock L)
    (ptr size : Nat) (h : ¬ block.inRange ops ptr) :
    block.deallocate ops ptr size = (false, block, []) := by
  unfold MemoryBlock.inRange at h
  unfold MemoryBlock.deallocate
  by_cases h1 : ptr ≥ block.memory
  · have h2 : ¬ ptr - block.memory < ops.totalMemorySize block.memorySlots :=
      fun h2 => h ⟨h1, h2⟩
    simp [h1, h2]
  · simp [h1]

/-- C4. `MemoryBlock::deallocate(ptr, size)` returns `true` if and only if
`base <= ptr` and `ptr - base < totalMemorySize()`. The result is the same for every
other size and for every other ledger with the same `totalMemorySize` (whatever its
`release` answers). When the result is `true` the ledger's `release(ptr - base, size)`
is called exactly once and the block keeps the ledger state it leaves; when the result
is `false` no event happens (no call of `release`) and the block is unchanged. -/
theorem MemoryBlock.deallocate_lenient (ops : MemorySlotsOps L) (block : MemoryBlock L)
    (ptr size : Nat) :
    ((block.deallocate ops ptr size).1 = true ↔
      (block.memory ≤ ptr ∧ ptr - block.memory < ops.totalMemorySize block.memorySlots)) ∧
    (∀ size1 : Nat, (block.deallocate ops ptr size1).1 = (block.deallocate ops ptr size).1) ∧
    (∀ ops1 : MemorySlotsOps L, ops1.totalMemorySize = ops.totalMemorySize →
      (block.deallocate ops1 ptr size).1 = (block.deallocate ops ptr size).1) ∧
    ((block.deallocate ops ptr size).1 = true →
      (block.deallocate ops ptr size).2.2.filter Event.isRelease =
          [Event.release block.memory (ptr - block.memory) size] ∧
        (block.deallocate ops ptr size).2.1 =
          ⟨block.memory, (ops.release block.memorySlots (ptr - block.memory) size).2⟩) ∧
    ((block.deallocate ops ptr size).1 = false →
      (block.deallocate ops ptr size).2.2 = [] ∧
        (block.deallocate ops ptr size).2.1 = block) := by
  by_cases h : block.inRange ops ptr
  · have hr : ∀ (o : MemorySlotsOps L) (sz : Nat), o.totalMemorySize = ops.totalMemorySize →
        (block.deallocate o ptr sz).1 = true := by
      intro o sz ho
      have h1 : block.inRange o ptr := by
        unfold MemoryBlock.inRange at h ⊢
        rw [ho]; exact h
      rw [MemoryBlock.deallocate_inRange o block ptr sz h1]
    refine ⟨⟨fun _ => h, fun _ => hr ops size rfl⟩, ?_, ?_, ?_, ?_⟩
    · intro size1
      rw [hr ops size1 rfl, hr ops size rfl]
    · intro ops1 h1
      rw [hr ops1 size h1, hr ops size rfl]
    · intro _
      rw [MemoryBlock.deallocate_inRange ops block ptr size h]
      refine ⟨?_, rfl⟩
      by_cases hrel : (ops.release block.memorySlots (ptr - block.memory) size).1 = true <;>
        simp [hrel, Event.isRelease]
    · intro hf
      rw [hr ops size rfl] at hf
      exact absurd hf (by decide)
  · have hr : ∀ (o : MemorySlotsOps L) (sz : Nat), o.totalMemorySize = ops.totalMemorySize →
        block.deallocate o ptr sz = (false, block, []) := by
      intro o sz ho
      apply MemoryBlock.deallocate_not_inRange
      unfold MemoryBlock.inRange at h ⊢
      rw [ho]; exact h
    refine ⟨⟨?_, fun h1 => absurd h1 h⟩, ?_, ?_, ?_, ?_⟩
    · intro h1
      rw [hr ops size rfl] at h1
      exact absurd h1 (by simp)
    · intro size1
      rw [hr ops size1 rfl, hr ops size rfl]
    · intro ops1 h1
      rw [hr ops1 size h1, hr ops size rfl]
    · intro h1
      rw [hr ops size rfl] at h1
      exact absurd h1 (by simp)
    · intro _
      rw [hr ops size rfl]
      exact ⟨rfl, rfl⟩

/-! ## Allocator::MemoryBlock::allocate and Allocator::MemoryBlocks::allocate -/

theorem MemoryBlock.block_allocate_eq (ops : MemorySlotsOps L) (block : MemoryBlock L) (size : Nat) :
    block.allocate ops size =
      (if (ops.reserve block.memorySlots size 4).1.1 then
          block.memory + (ops.reserve block.memorySlots size 4).1.2
        else 0,
        ⟨block.memory, (ops.reserve block.memorySlots size 4).2⟩,
        [Event.reserve block.memory size 4]) := by
  unfold MemoryBlock.allocate
  rcases hr : ops.reserve block.memorySlots size 4 with ⟨⟨allocated, offset⟩, slots⟩
  cases allocated <;> simp

theorem MemoryBlock.allocate_memory (ops : MemorySlotsOps L) (block : MemoryBlock L)
    (size : Nat) : (block.allocate ops size).2.1.memory = block.memory := by
  rw [MemoryBlock.block_allocate_eq]

theorem MemoryBlock.allocate_events (ops : MemorySlotsOps L) (block : MemoryBlock L)
    (size : Nat) : (block.allocate ops size).2.2 = [Event.reserve block.memory size 4] := by
  rw [MemoryBlock.block_allocate_eq]

theorem MemoryBlocks.pool_allocateLoop_cons (ops : MemorySlotsOps L) (block : MemoryBlock L)
    (rest : List (MemoryBlock L)) (size : Nat) :
    MemoryBlocks.allocateLoop ops (block :: rest) size =
      if (block.allocate ops size).1 ≠ 0 then
        ((block.allocate ops size).1, (block.allocate ops size).2.1 :: rest,
          [Event.reserve block.memory size 4])
      else
        ((MemoryBlocks.allocateLoop ops rest size).1,
          (block.allocate ops size).2.1 :: (MemoryBlocks.allocateLoop ops rest size).2.1,
          Event.reserve block.memory size 4 :: (MemoryBlocks.allocateLoop ops rest size).2.2) := by
  have hev := MemoryBlock.allocate_events ops block size
  rw [MemoryBlocks.allocateLoop]
  rcases hb : block.allocate ops size with ⟨ptr, block1, t⟩
  rw [hb] at hev
  simp only at hev
  subst hev
  by_cases hp : ptr = 0 <;> simp [hp]

/-- When every block refuses, the loop of `MemoryBlocks::allocate` gives no pointer,
after one `reserve` on every block in order. -/
theorem MemoryBlocks.allocateLoop_all_fail (ops : MemorySlotsOps L) (size : Nat) :
    ∀ blocks : List (MemoryBlock L), (∀ b ∈ blocks, (b.allocate ops size).1 = 0) →
      MemoryBlocks.allocateLoop ops blocks size =
        (0, blocks.map (fun b => (b.allocate ops size).2.1),
          blocks.map (fun b => Event.reserve b.memory size 4))
  | [], _ => rfl
  | block :: rest, h => by
    have h0 : (block.allocate ops size).1 = 0 := h block (List.mem_cons_self _ _)
    have ih := MemoryBlocks.allocateLoop_all_fail ops size rest
      (fun b hb => h b (List.mem_cons_of_mem _ hb))
    rw [MemoryBlocks.pool_allocateLoop_cons, ih]
    simp [h0]

/-- The loop of `MemoryBlocks::allocate` stops at the first block that gives a
pointer: the blocks before it were each asked once, the blocks after it are not
touched. -/
theorem MemoryBlocks.allocateLoop_first_hit (ops : MemorySlotsOps L) (size : Nat)
    (block : MemoryBlock L) (post : List (MemoryBlock L))
    (hhit : (block.allocate ops size).1 ≠ 0) :
    ∀ pre : List (MemoryBlock L), (∀ b ∈ pre, (b.allocate ops size).1 = 0) →
      MemoryBlocks.allocateLoop ops (pre ++ block :: post) size =
        ((block.allocate ops size).1,
          pre.map (fun b => (b.allocate ops size).2.1) ++ (block.allocate ops size).2.1 :: post,
          pre.map (fun b => Event.reserve b.memory size 4) ++
            [Event.reserve block.memory size 4])
  | [], _ => by
    rw [List.nil_append, MemoryBlocks.pool_allocateLoop_cons]
    simp [hhit]
  | b :: pre, h => by
    have h0 : (b.allocate ops size).1 = 0 := h b (List.mem_cons_self _ _)
    have ih := MemoryBlocks.allocateLoop_first_hit ops size block post hhit pre
      (fun x hx => h x (List.mem_cons_of_mem _ hx))
    rw [List.cons_append, MemoryBlocks.pool_allocateLoop_cons, ih]
    simp [h0]

theorem MemoryBlocks.pool_allocate_eq (ops : MemorySlotsOps L) (malloc : Nat → Nat)
    (parentTracking : Nat) (pool : MemoryBlocks L) (size : Nat) :
    pool.allocate ops malloc parentTracking size =
      if (MemoryBlocks.allocateLoop ops pool.memoryBlocks size).1 ≠ 0 then
        ((MemoryBlocks.allocateLoop ops pool.memoryBlocks size).1,
          ⟨pool.name, pool.blockSize, (MemoryBlocks.allocateLoop ops pool.memoryBlocks size).2.1⟩,
          (MemoryBlocks.allocateLoop ops pool.memoryBlocks size).2.2)
      else
        (((MemoryBlock.construct ops malloc (max size pool.blockSize) parentTracking).1.allocate
            ops size).1,
          ⟨pool.name, pool.blockSize,
            (MemoryBlocks.allocateLoop ops pool.memoryBlocks size).2.1 ++
              [((MemoryBlock.construct ops malloc (max size pool.blockSize)
                  parentTracking).1.allocate ops size).2.1]⟩,
          (MemoryBlocks.allocateLoop ops pool.memoryBlocks size).2.2 ++
            (MemoryBlock.construct ops malloc (max size pool.blockSize) parentTracking).2 ++
            ((MemoryBlock.construct ops malloc (max size pool.blockSize)
                parentTracking).1.allocate ops size).2.2) := by
  unfold MemoryBlocks.allocate
  rcases hl : MemoryBlocks.allocateLoop ops pool.memoryBlocks size with ⟨ptr, blocks, t⟩
  by_cases hp : ptr = 0 <;> simp [hp]

/-- C6. Growth. If `allocate(size)` of every existing block of the pool gives null
(also when the pool has no block), `MemoryBlocks::allocate(size)` leaves the existing
blocks in place, appends exactly one block as the last one, built for
`max(size, blockSize)` bytes (one `std::malloc` of that size, a ledger created for that
size), and, when the buffer was obtained and the fresh ledger grants
`reserve(size, 4)` at an offset within that capacity, returns the non-null pointer
`buffer + offset`, which lies inside the new block. -/
theorem MemoryBlocks.allocate_growth (ops : MemorySlotsOps L) (malloc : Nat → Nat)
    (parentTracking : Nat) (pool : MemoryBlocks L) (size : Nat)
    (hfail : ∀ b ∈ pool.memoryBlocks, (b.allocate ops size).1 = 0) :
    (pool.allocate ops malloc parentTracking size).2.1.memoryBlocks =
        pool.memoryBlocks.map (fun b => (b.allocate ops size).2.1) ++
          [⟨malloc (max size pool.blockSize),
            (ops.reserve (ops.create (max size pool.blockSize) parentTracking) size 4).2⟩] ∧
    (pool.allocate ops malloc parentTracking size).2.1.memoryBlocks.length =
        pool.memoryBlocks.length + 1 ∧
    (pool.allocate ops malloc parentTracking size).2.2.filter Event.isMalloc =
        [Event.malloc (max size pool.blockSize)] ∧
    (∀ offset : Nat, malloc (max size pool.blockSize) ≠ 0 →
      (ops.reserve (ops.create (max size pool.blockSize) parentTracking) size 4).1 =
          (true, offset) →
      offset < max size pool.blockSize → offset + size ≤ max size pool.blockSize →
      (pool.allocate ops malloc parentTracking size).1 =
          malloc (max size pool.blockSize) + offset ∧
        (pool.allocate ops malloc parentTracking size).1 ≠ 0 ∧
        malloc (max size pool.blockSize) ≤ (pool.allocate ops malloc parentTracking size).1 ∧
        (pool.allocate ops malloc parentTracking size).1 <
          malloc (max size pool.blockSize) + max size pool.blockSize ∧
        (pool.allocate ops malloc parentTracking size).1 + size ≤
          malloc (max size pool.blockSize) + max size pool.blockSize) := by
  have hloop := MemoryBlocks.allocateLoop_all_fail ops size pool.memoryBlocks hfail
  have hres : pool.allocate ops malloc parentTracking size =
      (if (ops.reserve (ops.create (max size pool.blockSize) parentTracking) size 4).1.1 then
          malloc (max size pool.blockSize) +
            (ops.reserve (ops.create (max size pool.blockSize) parentTracking) size 4).1.2
        else 0,
        ⟨pool.name, pool.blockSize,
          pool.memoryBlocks.map (fun b => (b.allocate ops size).2.1) ++
            [⟨malloc (max size pool.blockSize),
              (ops.reserve (ops.create (max size pool.blockSize) parentTracking) size 4).2⟩]⟩,
        pool.memoryBlocks.map (fun b => Event.reserve b.memory size 4) ++
          (MemoryBlock.construct ops malloc (max size pool.blockSize) parentTracking).2 ++
          [Event.reserve (malloc (max size pool.blockSize)) size 4]) := by
    rw [MemoryBlocks.pool_allocate_eq, hloop, MemoryBlock.block_allocate_eq]
    simp [MemoryBlock.construct]
  rw [hres]
  refine ⟨rfl, by simp, ?_, ?_⟩
  · simp only [MemoryBlock.construct, List.filter_append, List.filter_map]
    have h1 : List.filter (Event.isMalloc ∘ fun b : MemoryBlock L => Event.reserve b.memory size 4)
        pool.memoryBlocks = [] := by
      rw [List.filter_eq_nil_iff]
      intro b _
      simp [Event.isMalloc]
    rw [h1]
    by_cases ht : reportActions
        (ops.memoryTracking (ops.create (max size pool.blockSize) parentTracking)) = true <;>
      simp [ht, Event.isMalloc]
  · intro offset hbuf hgrant hlt hle
    simp only [hgrant]
    refine ⟨by simp, ?_, ?_, ?_, ?_⟩ <;> simp <;> omega

/-- C6, on a pool of block size 128 whose only block is full: a request of 4096 bytes
appends a second block of 4096 bytes and is served at its start. -/
theorem MemoryBlocks.allocate_growth_witness :
    (∀ b ∈ fullPool128.memoryBlocks, (b.allocate SimpleSlots.ops 4096).1 = 0) ∧
    (fullPool128.allocate SimpleSlots.ops (fun _ => 1048576) 0 4096).2.1.memoryBlocks.length
      = 2 ∧
    (fullPool128.allocate SimpleSlots.ops (fun _ => 1048576) 0 4096).2.2.filter Event.isMalloc
      = [Event.malloc 4096] ∧
    (fullPool128.allocate SimpleSlots.ops (fun _ => 1048576) 0 4096).1 = 1048576 := by
  have hfail : ∀ b ∈ fullPool128.memoryBlocks, (b.allocate SimpleSlots.ops 4096).1 = 0 := by
    decide
  have h := MemoryBlocks.allocate_growth SimpleSlots.ops (fun _ => 1048576) 0 fullPool128 4096
    hfail
  refine ⟨hfail, h.2.1, h.2.2.1, ?_⟩
  exact (h.2.2.2 0 (by decide) (by decide) (by decide) (by decide)).1

/-- C7. First fit by creation order. If some block of the pool gives a non-null
pointer for `allocate(size)`, then the block list splits at the earliest such block,
and `MemoryBlocks::allocate(size)` returns that block's pointer; the blocks before it
were each asked once (and refused), the blocks after it are unchanged and received no
`reserve`; the number of blocks is unchanged and `std::malloc` is not called. -/
theorem MemoryBlocks.allocate_first_fit (ops : MemorySlotsOps L) (malloc : Nat → Nat)
    (parentTracking : Nat) (pool : MemoryBlocks L) (size : Nat)
    (hsome : ∃ b ∈ pool.memoryBlocks, (b.allocate ops size).1 ≠ 0) :
    ∃ (pre : List (MemoryBlock L)) (block : MemoryBlock L) (post : List (MemoryBlock L)),
      pool.memoryBlocks = pre ++ block :: post ∧
      (∀ b ∈ pre, (b.allocate ops size).1 = 0) ∧
      (block.allocate ops size).1 ≠ 0 ∧
      (pool.allocate ops malloc parentTracking size).1 = (block.allocate ops size).1 ∧
      (pool.allocate ops malloc parentTracking size).2.1.memoryBlocks =
        pre.map (fun b => (b.allocate ops size).2.1) ++ (block.allocate ops size).2.1 :: post ∧
      (pool.allocate ops malloc parentTracking size).2.2 =
        pre.map (fun b => Event.reserve b.memory size 4) ++
          [Event.reserve block.memory size 4] ∧
      (pool.allocate ops malloc parentTracking size).2.1.memoryBlocks.length =
        pool.memoryBlocks.length ∧
      (pool.allocate ops malloc parentTracking size).2.2.filter Event.isMalloc = [] := by
  have hsplit : ∀ blocks : List (MemoryBlock L),
      (∃ b ∈ blocks, (b.allocate ops size).1 ≠ 0) →
      ∃ (pre : List (MemoryBlock L)) (block : MemoryBlock L) (post : List (MemoryBlock L)),
        blocks = pre ++ block :: post ∧ (∀ b ∈ pre, (b.allocate ops size).1 = 0) ∧
          (block.allocate ops size).1 ≠ 0 := by
    intro blocks
    induction blocks with
    | nil => rintro ⟨b, hb, _⟩; cases hb
    | cons x rest ih =>
      rintro ⟨b, hb, hne⟩
      by_cases hx : (x.allocate ops size).1 = 0
      · have hb1 : b ∈ rest := by
          rcases List.mem_cons.mp hb with h | h
          · subst h; exact absurd hx hne
          · exact h
        obtain ⟨pre, block, post, h1, h2, h3⟩ := ih ⟨b, hb1, hne⟩
        refine ⟨x :: pre, block, post, by rw [h1]; rfl, ?_, h3⟩
        intro y hy
        rcases List.mem_cons.mp hy with h | h
        · subst h; exact hx
        · exact h2 y h
      · exact ⟨[], x, rest, rfl, fun y hy => absurd hy (List.not_mem_nil y), hx⟩
  obtain ⟨pre, block, post, h1, h2, h3⟩ := hsplit pool.memoryBlocks hsome
  have hloop := MemoryBlocks.allocateLoop_first_hit ops size block post h3 pre h2
  rw [← h1] at hloop
  refine ⟨pre, block, post, h1, h2, h3, ?_⟩
  rw [MemoryBlocks.pool_allocate_eq, hloop, if_pos h3]
  refine ⟨rfl, rfl, rfl, ?_, ?_⟩
  · rw [h1]; simp
  · rw [List.filter_eq_nil_iff]
    intro e he
    rcases List.mem_append.mp he with h | h
    · obtain ⟨b, _, rfl⟩ := List.mem_map.mp h
      simp [Event.isMalloc]
    · rw [List.mem_singleton.mp h]
      simp [Event.isMalloc]

/-- C7, on a pool whose first block is full and whose second block has room: 16 bytes
are served by the second block at offset 16, after one refused `reserve` on the first
block, and no block is added. -/
theorem MemoryBlocks.allocate_first_fit_witness :
    (∃ b ∈ twoBlockPool.memoryBlocks, (b.allocate SimpleSlots.ops 16).1 ≠ 0) ∧
    ∃ (pre : List (MemoryBlock SimpleSlots)) (block : MemoryBlock SimpleSlots)
      (post : List (MemoryBlock SimpleSlots)),
      twoBlockPool.memoryBlocks = pre ++ block :: post ∧
      (∀ b ∈ pre, (b.allocate SimpleSlots.ops 16).1 = 0) ∧
      (block.allocate SimpleSlots.ops 16).1 ≠ 0 ∧
      (twoBlockPool.allocate SimpleSlots.ops (fun _ => 0) 0 16).1 =
        (block.allocate SimpleSlots.ops 16).1 ∧
      (twoBlockPool.allocate SimpleSlots.ops (fun _ => 0) 0 16).2.1.memoryBlocks =
        pre.map (fun b => (b.allocate SimpleSlots.ops 16).2.1) ++
          (block.allocate SimpleSlots.ops 16).2.1 :: post ∧
      (twoBlockPool.allocate SimpleSlots.ops (fun _ => 0) 0 16).2.2 =
        pre.map (fun b => Event.reserve b.memory 16 4) ++ [Event.reserve block.memory 16 4] ∧
      (twoBlockPool.allocate SimpleSlots.ops (fun _ => 0) 0 16).2.1.memoryBlocks.length =
        twoBlockPool.memoryBlocks.length ∧
      (twoBlockPool.allocate SimpleSlots.ops (fun _ => 0) 0 16).2.2.filter Event.isMalloc = [] :=
  have hsome : ∃ b ∈ twoBlockPool.memoryBlocks, (b.allocate SimpleSlots.ops 16).1 ≠ 0 :=
    ⟨⟨70000, ⟨128, [(0, 16)], 0⟩⟩, by decide, by decide⟩
  ⟨hsome, MemoryBlocks.allocate_first_fit SimpleSlots.ops (fun _ => 0) 0 twoBlockPool 16 hsome⟩

/-! ## Allocator::MemoryBlocks::deallocate -/

theorem MemoryBlocks.pool_deallocateLoop_cons (ops : MemorySlotsOps L) (block : MemoryBlock L)
    (rest : List (MemoryBlock L)) (ptr size : Nat) :
    MemoryBlocks.deallocateLoop ops (block :: rest) ptr size =
      if block.inRange ops ptr then
        (true, (block.deallocate ops ptr size).2.1 :: rest, (block.deallocate ops ptr size).2.2)
      else
        ((MemoryBlocks.deallocateLoop ops rest ptr size).1,
          block :: (MemoryBlocks.deallocateLoop ops rest ptr size).2.1,
          (MemoryBlocks.deallocateLoop ops rest ptr size).2.2) := by
  rw [MemoryBlocks.deallocateLoop]
  by_cases h : block.inRange ops ptr
  · rw [if_pos h, MemoryBlock.deallocate_inRange ops block ptr size h]
    simp
  · rw [if_neg h, MemoryBlock.deallocate_not_inRange ops block ptr size h]
    simp

/-- When no block has `ptr` in its range, the loop of `MemoryBlocks::deallocate` finds
nothing, changes nothing and performs no event. -/
theorem MemoryBlocks.pool_deallocateLoop_none (ops : MemorySlotsOps L) (ptr size : Nat) :
    ∀ blocks : List (MemoryBlock L), (∀ b ∈ blocks, ¬ b.inRange ops ptr) →
      MemoryBlocks.deallocateLoop ops blocks ptr size = (false, blocks, [])
  | [], _ => rfl
  | block :: rest, h => by
    have ih := MemoryBlocks.pool_deallocateLoop_none ops ptr size rest
      (fun b hb => h b (List.mem_cons_of_mem _ hb))
    rw [MemoryBlocks.pool_deallocateLoop_cons, if_neg (h block (List.mem_cons_self _ _)), ih]

/-- The loop of `MemoryBlocks::deallocate` stops at the first block that has `ptr` in
its range; only that block is changed. -/
theorem MemoryBlocks.pool_deallocateLoop_first (ops : MemorySlotsOps L) (ptr size : Nat)
    (block : MemoryBlock L) (post : List (MemoryBlock L)) (hin : block.inRange ops ptr) :
    ∀ pre : List (MemoryBlock L), (∀ b ∈ pre, ¬ b.inRange ops ptr) →
      MemoryBlocks.deallocateLoop ops (pre ++ block :: post) ptr size =
        (true, pre ++ (block.deallocate ops ptr size).2.1 :: post,
          (block.deallocate ops ptr size).2.2)
  | [], _ => by
    rw [List.nil_append, MemoryBlocks.pool_deallocateLoop_cons, if_pos hin]
    rfl
  | b :: pre, h => by
    have ih := MemoryBlocks.pool_deallocateLoop_first ops ptr size block post hin pre
      (fun x hx => h x (List.mem_cons_of_mem _ hx))
    rw [List.cons_append, MemoryBlocks.pool_deallocateLoop_cons,
      if_neg (h b (List.mem_cons_self _ _)), ih]
    rfl

/-- The loop of `MemoryBlocks::deallocate` succeeds exactly when some block has `ptr`
in its range. -/
theorem MemoryBlocks.pool_deallocateLoop_true_iff (ops : MemorySlotsOps L) (ptr size : Nat) :
    ∀ blocks : List (MemoryBlock L),
      (MemoryBlocks.deallocateLoop ops blocks ptr size).1 = true ↔
        ∃ b ∈ blocks, b.inRange ops ptr
  | [] => by simp [MemoryBlocks.deallocateLoop]
  | block :: rest => by
    have ih := MemoryBlocks.pool_deallocateLoop_true_iff ops ptr size rest
    rw [MemoryBlocks.pool_deallocateLoop_cons]
    by_cases h : block.inRange ops ptr
    · simp [h]
    · simp [h, ih]

theorem MemoryBlocks.pool_deallocate_eq (ops : MemorySlotsOps L) (parentTracking : Nat)
    (pool : MemoryBlocks L) (ptr size : Nat) :
    pool.deallocate ops parentTracking ptr size =
      if pool.claims ops ptr then
        (true, ⟨pool.name, pool.blockSize,
            (MemoryBlocks.deallocateLoop ops pool.memoryBlocks ptr size).2.1⟩,
          (MemoryBlocks.deallocateLoop ops pool.memoryBlocks ptr size).2.2)
      else
        (false, pool,
          if reportActions parentTracking then
            [Event.cout ("MemoryBlocks:deallocate() : couldn't locate point to deallocato " ++
              toString ptr)]
          else []) := by
  unfold MemoryBlocks.deallocate
  by_cases h : pool.claims ops ptr
  · have h1 := (MemoryBlocks.pool_deallocateLoop_true_iff ops ptr size pool.memoryBlocks).mpr h
    rw [if_pos h]
    rcases hl : MemoryBlocks.deallocateLoop ops pool.memoryBlocks ptr size with ⟨found, blocks, t⟩
    rw [hl] at h1
    simp only at h1
    simp [h1]
  · have h1 := MemoryBlocks.pool_deallocateLoop_none ops ptr size pool.memoryBlocks
      (fun b hb hin => h ⟨b, hb, hin⟩)
    rw [if_neg h, h1]
    simp

/-! ## Allocator::deallocate -/

theorem Allocator.deallocateLoop_cons_some (ops : MemorySlotsOps L) (memoryTracking : Nat)
    (pool : MemoryBlocks L) (rest : List (Option (MemoryBlocks L))) (ptr size : Nat) :
    Allocator.deallocateLoop ops memoryTracking (some pool :: rest) ptr size =
      if pool.claims ops ptr then
        (true, some (pool.deallocate ops memoryTracking ptr size).2.1 :: rest,
          (pool.deallocate ops memoryTracking ptr size).2.2 ++
            (if reportActions memoryTracking then
              [Event.cout ("Deallocated from MemoryBlock " ++ toString ptr)]
            else []))
      else
        ((Allocator.deallocateLoop ops memoryTracking rest ptr size).1,
          some pool :: (Allocator.deallocateLoop ops memoryTracking rest ptr size).2.1,
          (pool.deallocate ops memoryTracking ptr size).2.2 ++
            (Allocator.deallocateLoop ops memoryTracking rest ptr size).2.2) := by
  rw [Allocator.deallocateLoop]
  by_cases h : pool.claims ops ptr
  · rw [if_pos h, MemoryBlocks.pool_deallocate_eq, if_pos h]
    simp
  · rw [if_neg h, MemoryBlocks.pool_deallocate_eq, if_neg h]
    simp

theorem Allocator.deallocateLoop_cons_none (ops : MemorySlotsOps L) (memoryTracking : Nat)
    (rest : List (Option (MemoryBlocks L))) (ptr size : Nat) :
    Allocator.deallocateLoop ops memoryTracking (none :: rest) ptr size =
      ((Allocator.deallocateLoop ops memoryTracking rest ptr size).1,
        none :: (Allocator.deallocateLoop ops memoryTracking rest ptr size).2.1,
        (Allocator.deallocateLoop ops memoryTracking rest ptr size).2.2) := by
  rw [Allocator.deallocateLoop]

/-- When no block of any pool has `ptr` in its range, the loop of
`Allocator::deallocate` finds nothing and leaves every pool as it was; all it does is
write diagnostic lines. -/
theorem Allocator.deallocateLoop_none (ops : MemorySlotsOps L) (memoryTracking : Nat)
    (ptr size : Nat) :
    ∀ pools : List (Option (MemoryBlocks L)), ¬ poolsClaim ops pools ptr →
      (Allocator.deallocateLoop ops memoryTracking pools ptr size).1 = false ∧
      (Allocator.deallocateLoop ops memoryTracking pools ptr size).2.1 = pools ∧
      (∀ e ∈ (Allocator.deallocateLoop ops memoryTracking pools ptr size).2.2,
        e.isCout = true) ∧
      (reportActions memoryTracking = false →
        (Allocator.deallocateLoop ops memoryTracking pools ptr size).2.2 = [])
  | [], _ => by simp [Allocator.deallocateLoop]
  | none :: rest, h => by
    have ih := Allocator.deallocateLoop_none ops memoryTracking ptr size rest
      (fun ⟨p, hp, hc⟩ => h ⟨p, List.mem_cons_of_mem _ hp, hc⟩)
    rw [Allocator.deallocateLoop_cons_none]
    exact ⟨ih.1, by rw [ih.2.1], ih.2.2.1, ih.2.2.2⟩
  | some pool :: rest, h => by
    have ih := Allocator.deallocateLoop_none ops memoryTracking ptr size rest
      (fun ⟨p, hp, hc⟩ => h ⟨p, List.mem_cons_of_mem _ hp, hc⟩)
    have hpool : ¬ pool.claims ops ptr :=
      fun hc => h ⟨some pool, List.mem_cons_self _ _, pool, rfl, hc⟩
    rw [Allocator.deallocateLoop_cons_some, if_neg hpool, MemoryBlocks.pool_deallocate_eq,
      if_neg hpool]
    refine ⟨ih.1, by simp only; rw [ih.2.1], ?_, ?_⟩
    · intro e he
      rcases List.mem_append.mp he with h1 | h1
      · by_cases ht : reportActions memoryTracking = true
        · simp only [ht, if_true, List.mem_singleton] at h1
          rw [h1]; rfl
        · simp [ht] at h1
      · exact ih.2.2.1 e h1
    · intro ht
      simp only [ht]
      simpa using ih.2.2.2 ht

/-- The loop of `Allocator::deallocate` succeeds exactly when some block of some pool
has `ptr` in its range. -/
theorem Allocator.deallocateLoop_true_iff (ops : MemorySlotsOps L) (memoryTracking : Nat)
    (ptr size : Nat) :
    ∀ pools : List (Option (MemoryBlocks L)),
      (Allocator.deallocateLoop ops memoryTracking pools ptr size).1 = true ↔
        poolsClaim ops pools ptr
  | [] => by simp [Allocator.deallocateLoop, poolsClaim]
  | none :: rest => by
    have ih := Allocator.deallocateLoop_true_iff ops memoryTracking ptr size rest
    rw [Allocator.deallocateLoop_cons_none]
    simp only [ih]
    constructor
    · rintro ⟨p, hp, hc⟩
      exact ⟨p, List.mem_cons_of_mem _ hp, hc⟩
    · rintro ⟨p, hp, pool, hpe, hc⟩
      rcases List.mem_cons.mp hp with h1 | h1
      · subst h1; cases hpe
      · exact ⟨p, h1, pool, hpe, hc⟩
  | some pool :: rest => by
    have ih := Allocator.deallocateLoop_true_iff ops memoryTracking ptr size rest
    rw [Allocator.deallocateLoop_cons_some]
    by_cases h : pool.claims ops ptr
    · rw [if_pos h]
      exact ⟨fun _ => ⟨some pool, List.mem_cons_self _ _, pool, rfl, h⟩, fun _ => rfl⟩
    · rw [if_neg h]
      simp only [ih]
      constructor
      · rintro ⟨p, hp, hc⟩
        exact ⟨p, List.mem_cons_of_mem _ hp, hc⟩
      · rintro ⟨p, hp, pool1, hpe, hc⟩
        rcases List.mem_cons.mp hp with h1 | h1
        · subst h1
          cases hpe
          exact absurd hc h
        · exact ⟨p, h1, pool1, hpe, hc⟩

theorem Allocator.deallocate_eq (ops : MemorySlotsOps L) (nested : Option (Allocator L))
    (pools : List (Option (MemoryBlocks L))) (tracking : Nat) (ptr size : Nat) :
    Allocator.deallocate ops (Allocator.mk nested pools tracking false) ptr size =
      if poolsClaim ops pools ptr then
        Outcome.returned (true,
          Allocator.mk nested (Allocator.deallocateLoop ops tracking pools ptr size).2.1
            tracking false,
          (Allocator.deallocateLoop ops tracking pools ptr size).2.2)
      else
        match nested with
        | some b =>
          (Allocator.deallocate ops b ptr size).map (fun x =>
            (x.1, Allocator.mk (some x.2.1) pools tracking false,
              (Allocator.deallocateLoop ops tracking pools ptr size).2.2 ++ x.2.2))
        | none =>
          Outcome.returned (false, Allocator.mk none pools tracking false,
            (Allocator.deallocateLoop ops tracking pools ptr size).2.2) := by
  rw [Allocator.deallocate]
  by_cases h : poolsClaim ops pools ptr
  · have h1 := (Allocator.deallocateLoop_true_iff ops tracking ptr size pools).mpr h
    rw [if_pos h]
    rcases hl : Allocator.deallocateLoop ops tracking pools ptr size with ⟨found, pools1, t⟩
    rw [hl] at h1
    simp only at h1
    simp [h1]
  · have h1 := Allocator.deallocateLoop_none ops tracking ptr size pools h
    rw [if_neg h]
    rcases hl : Allocator.deallocateLoop ops tracking pools ptr size with ⟨found, pools1, t⟩
    rw [hl] at h1
    simp only at h1
    obtain ⟨hf, hp, _, _⟩ := h1
    subst hf hp
    cases nested with
    | none => simp
    | some b =>
      simp only [Bool.false_eq_true, if_false]
      cases hb : Allocator.deallocate ops b ptr size with
      | returned x => rcases x with ⟨r, b1, t1⟩; simp [Outcome.map]
      | blocked => simp [Outcome.map]
      | undefined => simp [Outcome.map]
      | outOfFuel => simp [Outcome.map]

theorem poolsClaim_iff (ops : MemorySlotsOps L) (pools : List (Option (MemoryBlocks L)))
    (ptr : Nat) :
    poolsClaim ops pools ptr ↔
      ∃ pool, some pool ∈ pools ∧ ∃ b ∈ pool.memoryBlocks, b.inRange ops ptr := by
  unfold poolsClaim MemoryBlocks.claims
  constructor
  · rintro ⟨p, hp, pool, rfl, h⟩
    exact ⟨pool, hp, h⟩
  · rintro ⟨pool, hp, h⟩
    exact ⟨some pool, hp, pool, rfl, h⟩

/-- C9. Nested delegation on deallocate, for an allocator `a` whose mutex is free.
When no block of any pool of `a` has `ptr` in its range: if `a` owns a nested
allocator `b`, the outcome of `a.deallocate(ptr, size)` is the outcome of
`b.deallocate(ptr, size)` (same boolean; `b` is run once, its events come after those
of the pools of `a`, and `a` keeps the state `b` is left in), and if `a` has no nested
allocator the result is `false`. When some block of some pool of `a` has `ptr` in its
range, the result is `true`, the nested allocator is left as it was and the events are
those of the loop over the pools of `a` alone. -/
theorem Allocator.deallocate_nested_delegation (ops : MemorySlotsOps L) (a : Allocator L)
    (ptr size : Nat) (hfree : a.mutexLocked = false) :
    ((∀ pool, some pool ∈ a.allocatorMemoryBlocks →
        ∀ b ∈ pool.memoryBlocks, ¬ b.inRange ops ptr) →
      (∀ b : Allocator L, a.nestedAllocator = some b →
        a.deallocate ops ptr size =
          (b.deallocate ops ptr size).map (fun x =>
            (x.1, Allocator.mk (some x.2.1) a.allocatorMemoryBlocks a.memoryTracking false,
              (Allocator.deallocateLoop ops a.memoryTracking a.allocatorMemoryBlocks
                ptr size).2.2 ++ x.2.2))) ∧
      (a.nestedAllocator = none →
        a.deallocate ops ptr size =
          Outcome.returned (false, a,
            (Allocator.deallocateLoop ops a.memoryTracking a.allocatorMemoryBlocks
              ptr size).2.2))) ∧
    ((∃ pool, some pool ∈ a.allocatorMemoryBlocks ∧
        ∃ b ∈ pool.memoryBlocks, b.inRange ops ptr) →
      a.deallocate ops ptr size =
        Outcome.returned (true,
          Allocator.mk a.nestedAllocator
            (Allocator.deallocateLoop ops a.memoryTracking a.allocatorMemoryBlocks
              ptr size).2.1
            a.memoryTracking false,
          (Allocator.deallocateLoop ops a.memoryTracking a.allocatorMemoryBlocks
            ptr size).2.2)) := by
  cases a with
  | mk nested pools tracking locked =>
    simp only [Allocator.mutexLocked] at hfree
    subst hfree
    simp only [Allocator.allocatorMemoryBlocks, Allocator.memoryTracking,
      Allocator.nestedAllocator]
    constructor
    · intro hno
      have hnc : ¬ poolsClaim ops pools ptr := by
        rw [poolsClaim_iff]
        rintro ⟨pool, hp, b, hb, hin⟩
        exact hno pool hp b hb hin
      constructor
      · intro b hb
        subst hb
        rw [Allocator.deallocate_eq, if_neg hnc]
      · intro hb
        subst hb
        rw [Allocator.deallocate_eq, if_neg hnc]
    · intro hyes
      rw [Allocator.deallocate_eq, if_pos ((poolsClaim_iff ops pools ptr).mpr hyes)]

/-- C9, on `outerAllocator`: address 65536 is in no block of the outer allocator and is
handed to the nested allocator, whose boolean (`true`) is returned; address 70000 is
claimed by the outer DATA pool and the nested allocator is left as it was. -/
theorem Allocator.deallocate_nested_delegation_witness :
    outerAllocator.mutexLocked = false ∧
    outerAllocator.deallocate SimpleSlots.ops 65536 16 =
      (innerAllocator.deallocate SimpleSlots.ops 65536 16).map (fun x =>
        (x.1, Allocator.mk (some x.2.1) outerAllocator.allocatorMemoryBlocks
            outerAllocator.memoryTracking false,
          (Allocator.deallocateLoop SimpleSlots.ops outerAllocator.memoryTracking
            outerAllocator.allocatorMemoryBlocks 65536 16).2.2 ++ x.2.2)) ∧
    (innerAllocator.deallocate SimpleSlots.ops 65536 16).map (fun x => x.1) =
      Outcome.returned true ∧
    outerAllocator.deallocate SimpleSlots.ops 70000 32 =
      Outcome.returned (true,
        Allocator.mk outerAllocator.nestedAllocator
          (Allocator.deallocateLoop SimpleSlots.ops outerAllocator.memoryTracking
            outerAllocator.allocatorMemoryBlocks 70000 32).2.1
          outerAllocator.memoryTracking false,
        (Allocator.deallocateLoop SimpleSlots.ops outerAllocator.memoryTracking
          outerAllocator.allocatorMemoryBlocks 70000 32).2.2) := by
  have h1 := Allocator.deallocate_nested_delegation SimpleSlots.ops outerAllocator 65536 16 rfl
  have h2 := Allocator.deallocate_nested_delegation SimpleSlots.ops outerAllocator 70000 32 rfl
  refine ⟨rfl, ?_, rfl, ?_⟩
  · refine (h1.1 ?_).1 innerAllocator rfl
    intro pool hp b hb
    simp only [outerAllocator, Allocator.allocatorMemoryBlocks, List.mem_cons, Option.some.injEq,
      List.mem_singleton, List.not_mem_nil, or_false] at hp
    rcases hp with rfl | rfl | rfl
    · simp at hb
    · simp only [List.mem_singleton] at hb
      subst hb
      decide
    · simp at hb
  · exact h2.2 ⟨⟨"ALLOCATOR_DATA", 128, [⟨70000, ⟨128, [(0, 32)], 0⟩⟩]⟩,
      by simp [outerAllocator, Allocator.allocatorMemoryBlocks],
      ⟨70000, ⟨128, [(0, 32)], 0⟩⟩, by simp, by decide⟩

/-- C10. Foreign pointer. For an allocator whose mutex is free and that has no nested
allocator, if `ptr` lies in the address range of no block of any of its pools, then
`deallocate(ptr, size)` returns `false` and leaves the allocator exactly as it was
(every pool, every block list, every ledger state); its only events are diagnostic
lines (no call of the ledger), and there is none when the tracking bit is off. -/
theorem Allocator.deallocate_foreign (ops : MemorySlotsOps L) (a : Allocator L)
    (ptr size : Nat) (hfree : a.mutexLocked = false) (hnone : a.nestedAllocator = none)
    (hforeign : ∀ pool, some pool ∈ a.allocatorMemoryBlocks →
      ∀ b ∈ pool.memoryBlocks, ¬ b.inRange ops ptr) :
    ∃ t : List Event, a.deallocate ops ptr size = Outcome.returned (false, a, t) ∧
      (∀ e ∈ t, e.isCout = true) ∧ (reportActions a.memoryTracking = false → t = []) := by
  cases a with
  | mk nested pools tracking locked =>
    simp only [Allocator.mutexLocked] at hfree
    simp only [Allocator.nestedAllocator] at hnone
    simp only [Allocator.allocatorMemoryBlocks] at hforeign
    subst hfree hnone
    have hnc : ¬ poolsClaim ops pools ptr := by
      rw [poolsClaim_iff]
      rintro ⟨pool, hp, b, hb, hin⟩
      exact hforeign pool hp b hb hin
    have hl := Allocator.deallocateLoop_none ops tracking ptr size pools hnc
    refine ⟨(Allocator.deallocateLoop ops tracking pools ptr size).2.2, ?_, hl.2.2.1, hl.2.2.2⟩
    rw [Allocator.deallocate_eq, if_neg hnc]

/-- C10, on `innerAllocator` (one block at 65536 of 128 bytes): address 4096 belongs to
no block; `deallocate(4096, 16)` returns `false`, writes nothing and changes nothing. -/
theorem Allocator.deallocate_foreign_witness :
    innerAllocator.mutexLocked = false ∧ innerAllocator.nestedAllocator = none ∧
    innerAllocator.deallocate SimpleSlots.ops 4096 16 =
      Outcome.returned (false, innerAllocator, []) := by
  have hforeign : ∀ pool, some pool ∈ innerAllocator.allocatorMemoryBlocks →
      ∀ b ∈ pool.memoryBlocks, ¬ b.inRange SimpleSlots.ops 4096 := by
    intro pool hp b hb
    simp only [innerAllocator, Allocator.allocatorMemoryBlocks, List.mem_cons,
      Option.some.injEq, List.mem_singleton, List.not_mem_nil, or_false] at hp
    rcases hp with rfl | rfl | rfl
    · simp only [List.mem_singleton] at hb
      subst hb
      decide
    · simp at hb
    · simp at hb
  obtain ⟨t, h1, _, h3⟩ :=
    Allocator.deallocate_foreign SimpleSlots.ops innerAllocator 4096 16 rfl rfl hforeign
  rw [h3 rfl] at h1
  exact ⟨rfl, rfl, h1⟩

/-! ## Allocator::allocate -/

/-- A call of `Allocator::allocate` made while the mutex is held does not return. -/
theorem Allocator.allocate_locked (ops : MemorySlotsOps L) (malloc : Nat → Nat)
    (nested : Option (Allocator L)) (pools : List (Option (MemoryBlocks L)))
    (tracking size : Nat) (allocatorType : AllocatorType) :
    ∀ fuel : Nat,
      Allocator.allocate ops malloc fuel (Allocator.mk nested pools tracking true) size
          allocatorType =
        if fuel = 0 then Outcome.outOfFuel else Outcome.blocked
  | 0 => by simp [Allocator.allocate]
  | fuel + 1 => by simp [Allocator.allocate]

/-- `Allocator::allocate` on a free mutex, by the pointer of the pool: a non-null pool
pointer is returned; a null one leads to the call of `Allocator::allocate` itself,
made with the mutex held, which does not return. -/
theorem Allocator.allocate_unlocked (ops : MemorySlotsOps L) (malloc : Nat → Nat)
    (nested : Option (Allocator L)) (pools : List (Option (MemoryBlocks L)))
    (tracking size : Nat) (allocatorType : AllocatorType) (fuel : Nat)
    (memoryBlocks : Option (MemoryBlocks L))
    (hidx : pools[allocatorType.toNat]? = some memoryBlocks) :
    Allocator.allocate ops malloc (fuel + 1) (Allocator.mk nested pools tracking false) size
        allocatorType =
      if (Allocator.poolAttempt ops malloc pools tracking size allocatorType memoryBlocks).1 ≠ 0
      then
        Outcome.returned
          ((Allocator.poolAttempt ops malloc pools tracking size allocatorType memoryBlocks).1,
            Allocator.mk nested
              (Allocator.poolAttempt ops malloc pools tracking size allocatorType
                memoryBlocks).2.1 tracking false,
            (Allocator.poolAttempt ops malloc pools tracking size allocatorType
                memoryBlocks).2.2 ++
              (if reportActions tracking then
                [Event.cout ("Allocated from MemoryBlock mem_ptr = " ++
                  toString (Allocator.poolAttempt ops malloc pools tracking size allocatorType
                    memoryBlocks).1 ++
                  ", size = " ++ toString size ++ ", allocatorType = " ++
                  toString allocatorType.toNat)]
              else []))
      else if fuel = 0 then Outcome.outOfFuel else Outcome.blocked := by
  rw [Allocator.allocate]
  simp only [Bool.false_eq_true, if_false, hidx]
  cases memoryBlocks with
  | none =>
    simp only [Allocator.poolAttempt, Allocator.allocate_locked]
    cases fuel <;> simp
  | some pool =>
    simp only [Allocator.poolAttempt]
    rcases hp : pool.allocate ops malloc tracking size with ⟨ptr, pool1, t⟩
    by_cases h0 : ptr = 0
    · subst h0
      simp only [Allocator.allocate_locked]
      cases fuel <;> simp
    · simp [h0]

/-- When the pool of the category gives no pointer (the pool pointer is null, or
`MemoryBlocks::allocate` returned null), `Allocator::allocate` calls itself while its
`scoped_lock` holds the mutex, and never returns, whatever the recursion budget. -/
theorem Allocator.allocate_null_pool_blocks (ops : MemorySlotsOps L) (malloc : Nat → Nat)
    (nested : Option (Allocator L)) (pools : List (Option (MemoryBlocks L)))
    (tracking size : Nat) (allocatorType : AllocatorType)
    (memoryBlocks : Option (MemoryBlocks L))
    (hidx : pools[allocatorType.toNat]? = some memoryBlocks)
    (hnull : (Allocator.poolAttempt ops malloc pools tracking size allocatorType
      memoryBlocks).1 = 0) :
    (∀ fuel : Nat,
      (Allocator.allocate ops malloc fuel (Allocator.mk nested pools tracking false) size
        allocatorType).isReturned = false) ∧
    (∀ fuel : Nat,
      Allocator.allocate ops malloc (fuel + 2) (Allocator.mk nested pools tracking false) size
        allocatorType = Outcome.blocked) := by
  constructor
  · intro fuel
    cases fuel with
    | zero => simp [Allocator.allocate, Outcome.isReturned]
    | succ n =>
      rw [Allocator.allocate_unlocked ops malloc nested pools tracking size allocatorType n
        memoryBlocks hidx]
      simp only [hnull]
      cases n <;> simp [Outcome.isReturned]
  · intro fuel
    rw [Allocator.allocate_unlocked ops malloc nested pools tracking size allocatorType
      (fuel + 1) memoryBlocks hidx]
    simp [hnull]

/-- C5 (the code at the failing input). On the default-constructed allocator, a request
of 100 bytes under OBJECTS for which `std::malloc` refuses the buffer of the first
block: the pool returns null, and `Allocator::allocate` then calls itself with the
mutex held, so the call never returns, for any recursion budget; no system allocation
is made for the request. -/
theorem Allocator.allocate_reenters_itself :
    (MemoryBlocks.allocate SimpleSlots.ops (fun _ => 0) MEMORY_TRACKING_DEFAULT
      ⟨"ALLOCATOR_OBJECTS", 4096 * 10, []⟩ 100).1 = 0 ∧
    (∀ fuel : Nat,
      (Allocator.allocate SimpleSlots.ops (fun _ => 0) fuel defaultAllocator 100
        AllocatorType.ALLOCATOR_OBJECTS).isReturned = false) ∧
    (∀ fuel : Nat,
      Allocator.allocate SimpleSlots.ops (fun _ => 0) (fuel + 2) defaultAllocator 100
        AllocatorType.ALLOCATOR_OBJECTS = Outcome.blocked) := by
  have hnull : (MemoryBlocks.allocate SimpleSlots.ops (fun _ => 0) MEMORY_TRACKING_DEFAULT
      ⟨"ALLOCATOR_OBJECTS", 4096 * 10, []⟩ 100).1 = 0 := by decide
  exact ⟨hnull,
    Allocator.allocate_null_pool_blocks SimpleSlots.ops (fun _ => 0) none _ _ 100
      AllocatorType.ALLOCATOR_OBJECTS (some ⟨"ALLOCATOR_OBJECTS", 4096 * 10, []⟩) rfl hnull⟩

/-! ## Capacity exhaustion -/

theorem MemoryBlock.deallocate_keeps_inRange (ops : MemorySlotsOps L)
    (hcap : ∀ (s : L) (offset size : Nat),
      ops.totalMemorySize (ops.release s offset size).2 = ops.totalMemorySize s)
    (block : MemoryBlock L) (ptr size : Nat) (h : block.inRange ops ptr) :
    (block.deallocate ops ptr size).2.1.inRange ops ptr := by
  rw [MemoryBlock.deallocate_inRange ops block ptr size h]
  unfold MemoryBlock.inRange at h ⊢
  simp only [hcap]
  exact h

theorem MemoryBlocks.deallocate_keeps_claims (ops : MemorySlotsOps L)
    (hcap : ∀ (s : L) (offset size : Nat),
      ops.totalMemorySize (ops.release s offset size).2 = ops.totalMemorySize s)
    (parentTracking : Nat) (pool : MemoryBlocks L) (ptr size : Nat)
    (h : pool.claims ops ptr) :
    (pool.deallocate ops parentTracking ptr size).2.1.claims ops ptr := by
  rw [MemoryBlocks.pool_deallocate_eq, if_pos h]
  unfold MemoryBlocks.claims at h ⊢
  simp only
  generalize pool.memoryBlocks = blocks at h
  induction blocks with
  | nil => obtain ⟨b, hb, _⟩ := h; cases hb
  | cons x rest ih =>
    rw [MemoryBlocks.pool_deallocateLoop_cons]
    by_cases hx : x.inRange ops ptr
    · rw [if_pos hx]
      exact ⟨_, List.mem_cons_self _ _, MemoryBlock.deallocate_keeps_inRange ops hcap x ptr size hx⟩
    · rw [if_neg hx]
      obtain ⟨b, hb, hin⟩ := h
      have hb1 : b ∈ rest := by
        rcases List.mem_cons.mp hb with h1 | h1
        · subst h1; exact absurd hin hx
        · exact h1
      obtain ⟨c, hc, hcin⟩ := ih ⟨b, hb1, hin⟩
      exact ⟨c, List.mem_cons_of_mem _ hc, hcin⟩

theorem Allocator.deallocateLoop_keeps_claim (ops : MemorySlotsOps L)
    (hcap : ∀ (s : L) (offset size : Nat),
      ops.totalMemorySize (ops.release s offset size).2 = ops.totalMemorySize s)
    (memoryTracking ptr size : Nat) :
    ∀ pools : List (Option (MemoryBlocks L)), poolsClaim ops pools ptr →
      poolsClaim ops (Allocator.deallocateLoop ops memoryTracking pools ptr size).2.1 ptr
  | [], h => by obtain ⟨p, hp, _⟩ := h; cases hp
  | none :: rest, h => by
    rw [Allocator.deallocateLoop_cons_none]
    have hrest : poolsClaim ops rest ptr := by
      obtain ⟨p, hp, pool, hpe, hc⟩ := h
      rcases List.mem_cons.mp hp with h1 | h1
      · subst h1; cases hpe
      · exact ⟨p, h1, pool, hpe, hc⟩
    obtain ⟨p, hp, hc⟩ :=
      Allocator.deallocateLoop_keeps_claim ops hcap memoryTracking ptr size rest hrest
    exact ⟨p, List.mem_cons_of_mem _ hp, hc⟩
  | some pool :: rest, h => by
    rw [Allocator.deallocateLoop_cons_some]
    by_cases hpool : pool.claims ops ptr
    · rw [if_pos hpool]
      exact ⟨_, List.mem_cons_self _ _, _, rfl,
        MemoryBlocks.deallocate_keeps_claims ops hcap memoryTracking pool ptr size hpool⟩
    · rw [if_neg hpool]
      have hrest : poolsClaim ops rest ptr := by
        obtain ⟨p, hp, pool1, hpe, hc⟩ := h
        rcases List.mem_cons.mp hp with h1 | h1
        · subst h1; cases hpe; exact absurd hc hpool
        · exact ⟨p, h1, pool1, hpe, hc⟩
      obtain ⟨p, hp, hc⟩ :=
        Allocator.deallocateLoop_keeps_claim ops hcap memoryTracking ptr size rest hrest
      exact ⟨p, List.mem_cons_of_mem _ hp, hc⟩

/-- A `deallocate(ptr, size)` that returned `true` returns `true` when repeated on the
state it left, for a ledger whose `release` keeps `totalMemorySize()`. -/
theorem Allocator.deallocate_again (ops : MemorySlotsOps L)
    (hcap : ∀ (s : L) (offset size : Nat),
      ops.totalMemorySize (ops.release s offset size).2 = ops.totalMemorySize s)
    (ptr size : Nat) :
    ∀ (a a1 : Allocator L) (t1 : List Event),
      a.deallocate ops ptr size = Outcome.returned (true, a1, t1) →
      ∃ (a2 : Allocator L) (t2 : List Event),
        a1.deallocate ops ptr size = Outcome.returned (true, a2, t2)
  | Allocator.mk nested pools tracking locked, a1, t1, h => by
    cases locked with
    | true => simp [Allocator.deallocate] at h
    | false =>
      rw [Allocator.deallocate_eq] at h
      by_cases hc : poolsClaim ops pools ptr
      · rw [if_pos hc] at h
        simp only [Outcome.returned.injEq, Prod.mk.injEq, true_and] at h
        obtain ⟨h1, _⟩ := h
        subst h1
        rw [Allocator.deallocate_eq,
          if_pos (Allocator.deallocateLoop_keeps_claim ops hcap tracking ptr size pools hc)]
        exact ⟨_, _, rfl⟩
      · rw [if_neg hc] at h
        cases nested with
        | none => simp at h
        | some b =>
          simp only at h
          cases hb : Allocator.deallocate ops b ptr size with
          | returned x =>
            rcases x with ⟨r, b1, tb⟩
            rw [hb] at h
            simp only [Outcome.map, Outcome.returned.injEq, Prod.mk.injEq] at h
            obtain ⟨hr, h1, _⟩ := h
            subst hr h1
            obtain ⟨b2, t2, hb2⟩ := Allocator.deallocate_again ops hcap ptr size b b1 tb hb
            rw [Allocator.deallocate_eq, if_neg hc]
            simp only [hb2, Outcome.map]
            exact ⟨_, _, rfl⟩
          | blocked => rw [hb] at h; simp [Outcome.map] at h
          | undefined => rw [hb] at h; simp [Outcome.map] at h
          | outOfFuel => rw [hb] at h; simp [Outcome.map] at h

theorem SimpleSlots.release_capacity (s : SimpleSlots) (offset size : Nat) :
    SimpleSlots.ops.totalMemorySize (SimpleSlots.ops.release s offset size).2 =
      SimpleSlots.ops.totalMemorySize s := by
  simp only [SimpleSlots.ops, SimpleSlots.release]
  split <;> rfl

/-! ## The block that serves an allocation -/

/-- A list with a block whose `allocate` gives a pointer splits at the first such
block. -/
theorem MemoryBlocks.first_hit_split (ops : MemorySlotsOps L) (size : Nat) :
    ∀ blocks : List (MemoryBlock L), (∃ b ∈ blocks, (b.allocate ops size).1 ≠ 0) →
      ∃ (pre : List (MemoryBlock L)) (block : MemoryBlock L) (post : List (MemoryBlock L)),
        blocks = pre ++ block :: post ∧ (∀ b ∈ pre, (b.allocate ops size).1 = 0) ∧
          (block.allocate ops size).1 ≠ 0
  | [], h => by obtain ⟨b, hb, _⟩ := h; cases hb
  | x :: rest, h => by
    by_cases hx : (x.allocate ops size).1 = 0
    · obtain ⟨b, hb, hne⟩ := h
      have hb1 : b ∈ rest := by
        rcases List.mem_cons.mp hb with h1 | h1
        · subst h1; exact absurd hx hne
        · exact h1
      obtain ⟨pre, block, post, h1, h2, h3⟩ :=
        MemoryBlocks.first_hit_split ops size rest ⟨b, hb1, hne⟩
      refine ⟨x :: pre, block, post, by rw [h1]; rfl, ?_, h3⟩
      intro y hy
      rcases List.mem_cons.mp hy with h4 | h4
      · subst h4; exact hx
      · exact h2 y h4
    · exact ⟨[], x, rest, rfl, fun y hy => absurd hy (List.not_mem_nil y), hx⟩

/-- A non-null pointer of `MemoryBlock::allocate` is `memory + offset` for a granted
`reserve`. -/
theorem MemoryBlock.allocate_ne_zero (ops : MemorySlotsOps L) (block : MemoryBlock L)
    (size : Nat) (h : (block.allocate ops size).1 ≠ 0) :
    (ops.reserve block.memorySlots size 4).1.1 = true ∧
      (block.allocate ops size).1 = block.memory + (ops.reserve block.memorySlots size 4).1.2 := by
  rw [MemoryBlock.block_allocate_eq] at h ⊢
  by_cases hg : (ops.reserve block.memorySlots size 4).1.1 = true
  · simp [hg]
  · simp [hg] at h

/-- A null pointer of `MemoryBlock::allocate` on a block with a buffer means that
`reserve` was refused. -/
theorem MemoryBlock.allocate_eq_zero (ops : MemorySlotsOps L) (block : MemoryBlock L)
    (size : Nat) (hmem : block.memory ≠ 0) (h : (block.allocate ops size).1 = 0) :
    (ops.reserve block.memorySlots size 4).1.1 = false := by
  rw [MemoryBlock.block_allocate_eq] at h
  by_cases hg : (ops.reserve block.memorySlots size 4).1.1 = true
  · simp only [hg, if_true] at h
    omega
  · simpa using hg

/-- The shape of a pool after `MemoryBlocks::allocate` gave a non-null pointer: the
blocks `pre` before the serving block were asked and gave null, the serving block at
`base` went from ledger state `s` to the state after a granted `reserve`, and it is
either an existing block or the block just created. -/
theorem MemoryBlocks.allocate_serving (ops : MemorySlotsOps L) (malloc : Nat → Nat)
    (parentTracking : Nat) (pool : MemoryBlocks L) (size : Nat)
    (h : (pool.allocate ops malloc parentTracking size).1 ≠ 0) :
    ∃ (pre post : List (MemoryBlock L)) (base : Nat) (s : L),
      (∀ b ∈ pre, (b.allocate ops size).1 = 0) ∧
      (ops.reserve s size 4).1.1 = true ∧
      (pool.allocate ops malloc parentTracking size).1 = base + (ops.reserve s size 4).1.2 ∧
      (pool.allocate ops malloc parentTracking size).2.1.memoryBlocks =
        pre.map (fun b => (b.allocate ops size).2.1) ++
          ⟨base, (ops.reserve s size 4).2⟩ :: post ∧
      (pool.memoryBlocks = pre ++ ⟨base, s⟩ :: post ∨
        (pool.memoryBlocks = pre ∧ post = [] ∧
          s = ops.create (max size pool.blockSize) parentTracking ∧
          base = malloc (max size pool.blockSize))) := by
  by_cases hsome : ∃ b ∈ pool.memoryBlocks, (b.allocate ops size).1 ≠ 0
  · obtain ⟨pre, block, post, h1, h2, h3⟩ :=
      MemoryBlocks.first_hit_split ops size pool.memoryBlocks hsome
    have hloop := MemoryBlocks.allocateLoop_first_hit ops size block post h3 pre h2
    rw [← h1] at hloop
    obtain ⟨hg, hp⟩ := MemoryBlock.allocate_ne_zero ops block size h3
    refine ⟨pre, post, block.memory, block.memorySlots, h2, hg, ?_, ?_, Or.inl h1⟩
    · rw [MemoryBlocks.pool_allocate_eq, hloop, if_pos h3]
      exact hp
    · rw [MemoryBlocks.pool_allocate_eq, hloop, if_pos h3]
      simp only
      rw [MemoryBlock.block_allocate_eq]
  · have hfail : ∀ b ∈ pool.memoryBlocks, (b.allocate ops size).1 = 0 := by
      intro b hb
      by_contra hne
      exact hsome ⟨b, hb, hne⟩
    have hloop := MemoryBlocks.allocateLoop_all_fail ops size pool.memoryBlocks hfail
    rw [MemoryBlocks.pool_allocate_eq, hloop] at h
    simp only [ne_eq, not_true_eq_false, if_false] at h
    obtain ⟨hg, hp⟩ := MemoryBlock.allocate_ne_zero ops _ size h
    refine ⟨pool.memoryBlocks, [], malloc (max size pool.blockSize),
      ops.create (max size pool.blockSize) parentTracking, hfail, hg, ?_, ?_,
      Or.inr ⟨rfl, rfl, rfl, rfl⟩⟩
    · rw [MemoryBlocks.pool_allocate_eq, hloop]
      simp only [ne_eq, not_true_eq_false, if_false]
      exact hp
    · rw [MemoryBlocks.pool_allocate_eq, hloop]
      simp only [ne_eq, not_true_eq_false, if_false]
      rw [MemoryBlock.block_allocate_eq]
      rfl

/-! ## Round trip -/

/-- What a returned `Allocator::allocate` did: the mutex was free, the category has a
pool, the pointer is the non-null pointer of that pool, and only that pool changed. -/
theorem Allocator.allocate_returned (ops : MemorySlotsOps L) (malloc : Nat → Nat) (fuel : Nat)
    (a a1 : Allocator L) (size p : Nat) (allocatorType : AllocatorType) (t1 : List Event)
    (h : a.allocate ops malloc fuel size allocatorType = Outcome.returned (p, a1, t1)) :
    a.mutexLocked = false ∧
    ∃ pool : MemoryBlocks L,
      a.allocatorMemoryBlocks[allocatorType.toNat]? = some (some pool) ∧
      p = (pool.allocate ops malloc a.memoryTracking size).1 ∧ p ≠ 0 ∧
      a1 = Allocator.mk a.nestedAllocator
        (a.allocatorMemoryBlocks.set allocatorType.toNat
          (some (pool.allocate ops malloc a.memoryTracking size).2.1))
        a.memoryTracking false := by
  cases fuel with
  | zero => simp [Allocator.allocate] at h
  | succ n =>
    cases a with
    | mk nested pools tracking locked =>
      cases locked with
      | true => simp [Allocator.allocate] at h
      | false =>
        cases hidx : pools[allocatorType.toNat]? with
        | none => simp [Allocator.allocate, hidx] at h
        | some memoryBlocks =>
          rw [Allocator.allocate_unlocked ops malloc nested pools tracking size allocatorType n
            memoryBlocks hidx] at h
          by_cases h0 : (Allocator.poolAttempt ops malloc pools tracking size allocatorType
              memoryBlocks).1 = 0
          · rw [if_neg (by simpa using h0)] at h
            cases n <;> simp at h
          · rw [if_pos h0] at h
            cases memoryBlocks with
            | none => simp [Allocator.poolAttempt] at h0
            | some pool =>
              simp only [Allocator.poolAttempt] at h h0
              simp only [Outcome.returned.injEq, Prod.mk.injEq] at h
              obtain ⟨hp, ha, _⟩ := h
              refine ⟨rfl, pool, ?_, ?_, ?_, ?_⟩
              · simp only [Allocator.allocatorMemoryBlocks]
                exact hidx
              · exact hp.symm
              · rw [← hp]; exact h0
              · exact ha.symm

/-- A list splits at an index that holds an element. -/
theorem list_split_at {α : Type} (l : List α) (i : Nat) (x : α) (h : l[i]? = some x) :
    ∃ pre post : List α, l = pre ++ x :: post ∧ pre.length = i ∧
      ∀ y : α, l.set i y = pre ++ y :: post := by
  obtain ⟨hi, hx⟩ := List.getElem?_eq_some.mp h
  refine ⟨l.take i, l.drop (i + 1), ?_, ?_, ?_⟩
  · rw [← hx, List.getElem_cons_drop, List.take_append_drop]
  · simp [List.length_take]; omega
  · intro y
    rw [List.set_eq_take_append_cons_drop, if_pos hi]

theorem allBlocks_append (pre post : List (Option (MemoryBlocks L))) :
    allBlocks (pre ++ post) = allBlocks pre ++ allBlocks post := by
  simp [allBlocks, List.flatMap_append]

theorem allBlocks_cons_some (pool : MemoryBlocks L) (post : List (Option (MemoryBlocks L))) :
    allBlocks (some pool :: post) = pool.memoryBlocks ++ allBlocks post := by
  simp [allBlocks, List.flatMap_cons]

/-- Two blocks with disjoint address ranges do not both have `ptr` in range. -/
theorem MemoryBlock.apart_not_inRange (ops : MemorySlotsOps L) (b c : MemoryBlock L)
    (ptr : Nat) (hapart : b.apart ops c) (hc : c.inRange ops ptr) : ¬ b.inRange ops ptr := by
  unfold MemoryBlock.apart at hapart
  unfold MemoryBlock.inRange at hc ⊢
  omega

theorem poolsClaim_of_allBlocks (ops : MemorySlotsOps L)
    (pools : List (Option (MemoryBlocks L))) (ptr : Nat)
    (h : ∀ b ∈ allBlocks pools, ¬ b.inRange ops ptr) : ¬ poolsClaim ops pools ptr := by
  rintro ⟨p, hp, pool, rfl, b, hb, hin⟩
  refine h b ?_ hin
  unfold allBlocks
  rw [List.mem_flatMap]
  exact ⟨some pool, hp, hb⟩

/-- The loop of `Allocator::deallocate` passes over pools that do not claim `ptr`
without changing them. -/
theorem Allocator.deallocateLoop_append (ops : MemorySlotsOps L) (memoryTracking : Nat)
    (ptr size : Nat) (rest : List (Option (MemoryBlocks L))) :
    ∀ pre : List (Option (MemoryBlocks L)), ¬ poolsClaim ops pre ptr →
      (Allocator.deallocateLoop ops memoryTracking (pre ++ rest) ptr size).1 =
          (Allocator.deallocateLoop ops memoryTracking rest ptr size).1 ∧
        (Allocator.deallocateLoop ops memoryTracking (pre ++ rest) ptr size).2.1 =
          pre ++ (Allocator.deallocateLoop ops memoryTracking rest ptr size).2.1
  | [], _ => ⟨rfl, rfl⟩
  | none :: pre, h => by
    have ih := Allocator.deallocateLoop_append ops memoryTracking ptr size rest pre
      (fun ⟨p, hp, hc⟩ => h ⟨p, List.mem_cons_of_mem _ hp, hc⟩)
    rw [List.cons_append, Allocator.deallocateLoop_cons_none]
    exact ⟨ih.1, by simp only; rw [ih.2]; rfl⟩
  | some pool :: pre, h => by
    have ih := Allocator.deallocateLoop_append ops memoryTracking ptr size rest pre
      (fun ⟨p, hp, hc⟩ => h ⟨p, List.mem_cons_of_mem _ hp, hc⟩)
    have hpool : ¬ pool.claims ops ptr :=
      fun hc => h ⟨some pool, List.mem_cons_self _ _, pool, rfl, hc⟩
    rw [List.cons_append, Allocator.deallocateLoop_cons_some, if_neg hpool]
    exact ⟨ih.1, by simp only; rw [ih.2]; rfl⟩

theorem MemoryBlocks.reservedSize_refused (ops : MemorySlotsOps L)
    (hrefused : ∀ (s : L) (size : Nat), (ops.reserve s size 4).1.1 = false →
      ops.totalReservedSize (ops.reserve s size 4).2 = ops.totalReservedSize s)
    (size : Nat) :
    ∀ pre : List (MemoryBlock L), (∀ b ∈ pre, b.memory ≠ 0) →
      (∀ b ∈ pre, (b.allocate ops size).1 = 0) →
      ((pre.map (fun b => (b.allocate ops size).2.1)).map
          (fun b => ops.totalReservedSize b.memorySlots)).sum =
        (pre.map (fun b => ops.totalReservedSize b.memorySlots)).sum
  | [], _, _ => rfl
  | b :: pre, hmem, hfail => by
    have ih := MemoryBlocks.reservedSize_refused ops hrefused size pre
      (fun x hx => hmem x (List.mem_cons_of_mem _ hx))
      (fun x hx => hfail x (List.mem_cons_of_mem _ hx))
    have hb := MemoryBlock.allocate_eq_zero ops b size (hmem b (List.mem_cons_self _ _))
      (hfail b (List.mem_cons_self _ _))
    simp only [List.map_cons, List.sum_cons, ih]
    rw [MemoryBlock.block_allocate_eq]
    simp only [hrefused b.memorySlots size hb]

/-- C2. Round trip. Let the ledger satisfy: a `release` of the range a granted
`reserve` just returned restores `totalReservedSize()` (release undoes the matching
reserve), a refused `reserve` does not change `totalReservedSize()`, a granted offset
is below `totalMemorySize()`, and a fresh ledger has nothing reserved. If
`Allocator::allocate(size, C)` returns a pointer `p` (in the code every returned pointer
comes from the pool of `C`) and, in the state it leaves, every block has a buffer and
the buffers are pairwise disjoint, then `Allocator::deallocate(p, size)` called next
returns `true`, and the sum of `totalReservedSize()` over the blocks of the pool of `C`
is what it was before the allocation. -/
theorem Allocator.allocate_deallocate_round_trip (ops : MemorySlotsOps L) (malloc : Nat → Nat)
    (hundo : ∀ (s : L) (size : Nat), (ops.reserve s size 4).1.1 = true →
      ops.totalReservedSize
          (ops.release (ops.reserve s size 4).2 (ops.reserve s size 4).1.2 size).2 =
        ops.totalReservedSize s)
    (hrefused : ∀ (s : L) (size : Nat), (ops.reserve s size 4).1.1 = false →
      ops.totalReservedSize (ops.reserve s size 4).2 = ops.totalReservedSize s)
    (hrange : ∀ (s : L) (size : Nat), (ops.reserve s size 4).1.1 = true →
      (ops.reserve s size 4).1.2 < ops.totalMemorySize (ops.reserve s size 4).2)
    (hfresh : ∀ n t : Nat, ops.totalReservedSize (ops.create n t) = 0)
    (fuel : Nat) (a a1 : Allocator L) (size p : Nat) (allocatorType : AllocatorType)
    (t1 : List Event)
    (halloc : a.allocate ops malloc fuel size allocatorType = Outcome.returned (p, a1, t1))
    (hbuf : buffersDisjoint ops a1.allocatorMemoryBlocks) :
    ∃ (a2 : Allocator L) (t2 : List Event),
      a1.deallocate ops p size = Outcome.returned (true, a2, t2) ∧
      a2.poolReserved ops allocatorType = a.poolReserved ops allocatorType := by
  obtain ⟨hfree, pool, hidx, hp, hp0, ha1⟩ :=
    Allocator.allocate_returned ops malloc fuel a a1 size p allocatorType t1 halloc
  cases a with
  | mk nested pools tracking locked =>
    simp only [Allocator.mutexLocked] at hfree
    subst hfree
    simp only [Allocator.allocatorMemoryBlocks, Allocator.memoryTracking,
      Allocator.nestedAllocator] at hidx hp ha1
    obtain ⟨poolsPre, poolsPost, hpools, hlen, hset⟩ :=
      list_split_at pools allocatorType.toNat (some pool) hidx
    rw [hset] at ha1
    subst ha1
    simp only [Allocator.allocatorMemoryBlocks] at hbuf
    rw [hp] at hp0
    obtain ⟨pre, post, base, s, hpre, hg, hptr, hblocks1, hshape⟩ :=
      MemoryBlocks.allocate_serving ops malloc tracking pool size hp0
    -- the blocks of the state after the allocation
    have hall : allBlocks (poolsPre ++
        some (pool.allocate ops malloc tracking size).2.1 :: poolsPost) =
        allBlocks poolsPre ++ ((pre.map (fun b => (b.allocate ops size).2.1) ++
          ⟨base, (ops.reserve s size 4).2⟩ :: post) ++ allBlocks poolsPost) := by
      rw [allBlocks_append, allBlocks_cons_some, hblocks1]
    obtain ⟨hmem, hpw⟩ := hbuf
    rw [hall] at hmem hpw
    -- the serving block has `p` in range
    have hserv : MemoryBlock.inRange ops ⟨base, (ops.reserve s size 4).2⟩ p := by
      have := hrange s size hg
      unfold MemoryBlock.inRange
      simp only
      rw [hp, hptr]
      constructor
      · omega
      · rw [Nat.add_sub_cancel_left]; exact this
    have hoff : p - base = (ops.reserve s size 4).1.2 := by
      rw [hp, hptr, Nat.add_sub_cancel_left]
    -- no earlier block has `p` in range
    rw [List.pairwise_append] at hpw
    obtain ⟨_, hpw2, hcross⟩ := hpw
    have hpoolsPre : ¬ poolsClaim ops poolsPre p := by
      apply poolsClaim_of_allBlocks
      intro b hb
      refine MemoryBlock.apart_not_inRange ops b _ p (hcross b hb _ ?_) hserv
      simp
    rw [List.pairwise_append] at hpw2
    obtain ⟨hpw3, _, _⟩ := hpw2
    rw [List.pairwise_append] at hpw3
    obtain ⟨_, _, hcross3⟩ := hpw3
    have hpre1 : ∀ b ∈ pre.map (fun b => (b.allocate ops size).2.1), ¬ b.inRange ops p := by
      intro b hb
      exact MemoryBlock.apart_not_inRange ops b _ p
        (hcross3 b hb _ (List.mem_cons_self _ _)) hserv
    have hpremem : ∀ b ∈ pre, b.memory ≠ 0 := by
      intro b hb
      have h1 := hmem (b.allocate ops size).2.1
        (by
          simp only [List.mem_append, List.mem_map, List.mem_cons]
          exact Or.inr (Or.inl (Or.inl ⟨b, hb, rfl⟩)))
      rwa [MemoryBlock.allocate_memory] at h1
    -- the pool after the release
    have hclaims : (pool.allocate ops malloc tracking size).2.1.claims ops p := by
      unfold MemoryBlocks.claims
      rw [hblocks1]
      exact ⟨_, by simp, hserv⟩
    have hloop := Allocator.deallocateLoop_append ops tracking p size
      (some (pool.allocate ops malloc tracking size).2.1 :: poolsPost) poolsPre hpoolsPre
    rw [Allocator.deallocateLoop_cons_some, if_pos hclaims] at hloop
    simp only at hloop
    have hclaim1 : poolsClaim ops
        (poolsPre ++ some (pool.allocate ops malloc tracking size).2.1 :: poolsPost) p := by
      rw [← Allocator.deallocateLoop_true_iff ops tracking p size]
      exact hloop.1
    refine ⟨_, _, by rw [Allocator.deallocate_eq, if_pos hclaim1], ?_⟩
    rw [hloop.2]
    simp only [Allocator.poolReserved, Allocator.allocatorMemoryBlocks]
    rw [hpools]
    have hget : ∀ (x : Option (MemoryBlocks L)),
        (poolsPre ++ x :: poolsPost)[allocatorType.toNat]? = some x := by
      intro x
      rw [← hlen, List.getElem?_append_right (Nat.le_refl _), Nat.sub_self]
      simp
    rw [hget, hget]
    simp only [MemoryBlocks.reservedSize]
    rw [MemoryBlocks.pool_deallocate_eq, if_pos hclaims]
    simp only
    rw [hblocks1, MemoryBlocks.pool_deallocateLoop_first ops p size _ post hserv _ hpre1,
      MemoryBlock.deallocate_inRange ops _ p size hserv]
    simp only [List.map_append, List.map_cons, List.sum_append, List.sum_cons]
    rw [MemoryBlocks.reservedSize_refused ops hrefused size pre hpremem hpre, hoff,
      hundo s size hg]
    rcases hshape with h1 | ⟨h1, h2, h3, _⟩
    · rw [h1]
      simp only [List.map_append, List.map_cons, List.sum_append, List.sum_cons]
    · rw [h1, h2, h3, hfresh]
      simp

/-! ## The ledger `SimpleSlots` meets the contract -/

theorem SimpleSlots.reserve_granted (s : SimpleSlots) (size alignment : Nat)
    (h : (s.reserve size alignment).1.1 = true) :
    s.fits size (s.reserve size alignment).1.2 = true ∧
      (s.reserve size alignment).2 =
        ⟨s.capacity, ((s.reserve size alignment).1.2, size) :: s.reserved, s.tracking⟩ := by
  unfold SimpleSlots.reserve at h ⊢
  cases hf : (s.candidates alignment).find? (s.fits size) with
  | none => rw [hf] at h; simp at h
  | some offset => exact ⟨List.find?_some hf, rfl⟩

theorem SimpleSlots.reserve_refused (s : SimpleSlots) (size alignment : Nat)
    (h : (s.reserve size alignment).1.1 = false) : (s.reserve size alignment).2 = s := by
  unfold SimpleSlots.reserve at h ⊢
  cases hf : (s.candidates alignment).find? (s.fits size) with
  | none => rfl
  | some offset => rw [hf] at h; simp at h

theorem SimpleSlots.reserve_capacity (s : SimpleSlots) (size alignment : Nat) :
    (s.reserve size alignment).2.capacity = s.capacity := by
  unfold SimpleSlots.reserve
  cases (s.candidates alignment).find? (s.fits size) <;> rfl

theorem SimpleSlots.fits_iff (s : SimpleSlots) (size offset : Nat) :
    s.fits size offset = true ↔
      offset < s.capacity ∧ offset + size ≤ s.capacity ∧
        ∀ r ∈ s.reserved, offset + size ≤ r.1 ∨ r.1 + r.2 ≤ offset := by
  simp [SimpleSlots.fits, and_assoc]

/-- The ledger `SimpleSlots` satisfies the contract, its reserved ranges being its
field `reserved`. -/
theorem SimpleSlots.contract : LedgerContract SimpleSlots.ops SimpleSlots.reserved where
  fresh := fun _ _ => rfl
  granted := fun s size h => by
    have h1 := (SimpleSlots.reserve_granted s size 4 h).2
    show (s.reserve size 4).2.reserved = _
    rw [h1]
    rfl
  noOverlap := fun s size h r hr => by
    have h1 := ((SimpleSlots.fits_iff s size _).mp (SimpleSlots.reserve_granted s size 4 h).1).2.2
      r hr
    unfold rangesDisjoint
    rcases h1 with h2 | h2
    · exact Or.inr (Or.inr (Or.inl h2))
    · exact Or.inr (Or.inr (Or.inr h2))
  offsetInRange := fun s size h =>
    ((SimpleSlots.fits_iff s size _).mp (SimpleSlots.reserve_granted s size 4 h).1).1
  refused := fun s size h => by
    show (s.reserve size 4).2.reserved = _
    rw [SimpleSlots.reserve_refused s size 4 h]
  released := fun s offset size h => by
    show (s.release offset size).2.reserved = _
    unfold SimpleSlots.release
    rw [if_pos h]
  reserveCapacity := fun s size => SimpleSlots.reserve_capacity s size 4
  releaseCapacity := SimpleSlots.release_capacity

theorem SimpleSlots.release_undoes_reserve (s : SimpleSlots) (size : Nat)
    (h : (SimpleSlots.ops.reserve s size 4).1.1 = true) :
    SimpleSlots.ops.totalReservedSize
        (SimpleSlots.ops.release (SimpleSlots.ops.reserve s size 4).2
          (SimpleSlots.ops.reserve s size 4).1.2 size).2 =
      SimpleSlots.ops.totalReservedSize s := by
  have h1 := (SimpleSlots.reserve_granted s size 4 h).2
  show ((s.reserve size 4).2.release (s.reserve size 4).1.2 size).2.totalReservedSize =
    s.totalReservedSize
  rw [h1]
  simp [SimpleSlots.release, SimpleSlots.totalReservedSize]

theorem SimpleSlots.refused_keeps_reserved (s : SimpleSlots) (size : Nat)
    (h : (SimpleSlots.ops.reserve s size 4).1.1 = false) :
    SimpleSlots.ops.totalReservedSize (SimpleSlots.ops.reserve s size 4).2 =
      SimpleSlots.ops.totalReservedSize s := by
  show (s.reserve size 4).2.totalReservedSize = s.totalReservedSize
  rw [SimpleSlots.reserve_refused s size 4 h]

theorem SimpleSlots.granted_in_range (s : SimpleSlots) (size : Nat)
    (h : (SimpleSlots.ops.reserve s size 4).1.1 = true) :
    (SimpleSlots.ops.reserve s size 4).1.2 <
      SimpleSlots.ops.totalMemorySize (SimpleSlots.ops.reserve s size 4).2 := by
  show (s.reserve size 4).1.2 < (s.reserve size 4).2.capacity
  rw [SimpleSlots.reserve_capacity]
  exact ((SimpleSlots.fits_iff s size _).mp (SimpleSlots.reserve_granted s size 4 h).1).1

/-- C2, on the scenario: 100 bytes under OBJECTS on the default-constructed allocator,
then released; the release returns `true` and the OBJECTS pool has again 0 bytes
reserved. -/
theorem Allocator.allocate_deallocate_round_trip_witness :
    Allocator.allocate SimpleSlots.ops (fun _ => 1048576) 1 defaultAllocator 100
        AllocatorType.ALLOCATOR_OBJECTS =
      Outcome.returned (1048576, scenarioLive, [Event.malloc 40960, Event.reserve 1048576 100 4]) ∧
    buffersDisjoint SimpleSlots.ops scenarioLive.allocatorMemoryBlocks ∧
    defaultAllocator.poolReserved SimpleSlots.ops AllocatorType.ALLOCATOR_OBJECTS = 0 ∧
    scenarioLive.poolReserved SimpleSlots.ops AllocatorType.ALLOCATOR_OBJECTS = 100 ∧
    ∃ (a2 : Allocator SimpleSlots) (t2 : List Event),
      scenarioLive.deallocate SimpleSlots.ops 1048576 100 = Outcome.returned (true, a2, t2) ∧
      a2.poolReserved SimpleSlots.ops AllocatorType.ALLOCATOR_OBJECTS =
        defaultAllocator.poolReserved SimpleSlots.ops AllocatorType.ALLOCATOR_OBJECTS :=
  have hbuf : buffersDisjoint SimpleSlots.ops scenarioLive.allocatorMemoryBlocks := by decide
  ⟨rfl, hbuf, rfl, rfl,
    Allocator.allocate_deallocate_round_trip SimpleSlots.ops (fun _ => 1048576)
      SimpleSlots.release_undoes_reserve SimpleSlots.refused_keeps_reserved
      SimpleSlots.granted_in_range (fun _ _ => rfl) 1 defaultAllocator scenarioLive 100 1048576
      AllocatorType.ALLOCATOR_OBJECTS _ rfl hbuf⟩

/-! ## Live allocations of one block never overlap -/

theorem rangesDisjoint_symm {x y : Nat × Nat} (h : rangesDisjoint x y) : rangesDisjoint y x := by
  unfold rangesDisjoint at h ⊢
  omega

theorem rangesDisjoint_shift (base : Nat) {x y : Nat × Nat} (h : rangesDisjoint x y) :
    rangesDisjoint (base + x.1, x.2) (base + y.1, y.2) := by
  unfold rangesDisjoint at h ⊢
  simp only
  omega

/-- The shape of the pools after a returned `Allocator::allocate`: one pool changed, and
in it the blocks `pre` before the serving block were refused a `reserve` and the
serving block was granted one; the serving block is an existing block or the block
just created, with a fresh ledger. -/
theorem Allocator.allocate_shape (ops : MemorySlotsOps L) (malloc : Nat → Nat) (fuel : Nat)
    (a a1 : Allocator L) (size p : Nat) (allocatorType : AllocatorType) (t1 : List Event)
    (h : a.allocate ops malloc fuel size allocatorType = Outcome.returned (p, a1, t1)) :
    ∃ (poolsPre poolsPost : List (Option (MemoryBlocks L))) (pool pool1 : MemoryBlocks L)
      (pre post : List (MemoryBlock L)) (base : Nat) (s : L),
      a.allocatorMemoryBlocks = poolsPre ++ some pool :: poolsPost ∧
      a1.allocatorMemoryBlocks = poolsPre ++ some pool1 :: poolsPost ∧
      pool1.memoryBlocks = pre.map (fun b => (b.allocate ops size).2.1) ++
        ⟨base, (ops.reserve s size 4).2⟩ :: post ∧
      (∀ b ∈ pre, (b.allocate ops size).1 = 0) ∧
      (ops.reserve s size 4).1.1 = true ∧
      p = base + (ops.reserve s size 4).1.2 ∧
      (pool.memoryBlocks = pre ++ ⟨base, s⟩ :: post ∨
        (pool.memoryBlocks = pre ∧ post = [] ∧ ∃ n t : Nat, s = ops.create n t)) := by
  obtain ⟨_, pool, hidx, hp, hp0, ha1⟩ :=
    Allocator.allocate_returned ops malloc fuel a a1 size p allocatorType t1 h
  obtain ⟨poolsPre, poolsPost, hpools, _, hset⟩ :=
    list_split_at a.allocatorMemoryBlocks allocatorType.toNat (some pool) hidx
  rw [hp] at hp0
  obtain ⟨pre, post, base, s, hpre, hg, hptr, hblocks1, hshape⟩ :=
    MemoryBlocks.allocate_serving ops malloc a.memoryTracking pool size hp0
  refine ⟨poolsPre, poolsPost, pool, (pool.allocate ops malloc a.memoryTracking size).2.1,
    pre, post, base, s, hpools, ?_, hblocks1, hpre, hg, by rw [hp, hptr], ?_⟩
  · rw [ha1, hset]
    rfl
  · rcases hshape with h1 | ⟨h1, h2, h3, _⟩
    · exact Or.inl h1
    · exact Or.inr ⟨h1, h2, _, _, h3⟩

theorem MemoryBlock.ledgerOk_reserve (ops : MemorySlotsOps L) (live : L → List (Nat × Nat))
    (hG : LedgerContract ops live) (base : Nat) (s : L) (size : Nat)
    (h : MemoryBlock.ledgerOk ops live ⟨base, s⟩) :
    MemoryBlock.ledgerOk ops live ⟨base, (ops.reserve s size 4).2⟩ := by
  unfold MemoryBlock.ledgerOk at h ⊢
  simp only at h ⊢
  rw [hG.reserveCapacity]
  by_cases hg : (ops.reserve s size 4).1.1 = true
  · rw [hG.granted s size hg]
    refine ⟨List.pairwise_cons.mpr ⟨hG.noOverlap s size hg, h.1⟩, ?_⟩
    intro r hr
    rcases List.mem_cons.mp hr with h1 | h1
    · rw [h1]; exact hG.offsetInRange s size hg
    · exact h.2 r h1
  · rw [hG.refused s size (by simpa using hg)]
    exact h

theorem MemoryBlock.liveRanges_refused (ops : MemorySlotsOps L) (live : L → List (Nat × Nat))
    (hG : LedgerContract ops live) (b : MemoryBlock L) (size : Nat) (hmem : b.memory ≠ 0)
    (h : (b.allocate ops size).1 = 0) :
    MemoryBlock.liveRanges live (b.allocate ops size).2.1 = MemoryBlock.liveRanges live b := by
  have hr := MemoryBlock.allocate_eq_zero ops b size hmem h
  rw [MemoryBlock.block_allocate_eq]
  unfold MemoryBlock.liveRanges
  simp only
  rw [hG.refused b.memorySlots size hr]

theorem liveRanges_flatMap_refused (ops : MemorySlotsOps L) (live : L → List (Nat × Nat))
    (hG : LedgerContract ops live) (size : Nat) :
    ∀ pre : List (MemoryBlock L), (∀ b ∈ pre, b.memory ≠ 0) →
      (∀ b ∈ pre, (b.allocate ops size).1 = 0) →
      (pre.map (fun b => (b.allocate ops size).2.1)).flatMap (MemoryBlock.liveRanges live) =
        pre.flatMap (MemoryBlock.liveRanges live)
  | [], _, _ => rfl
  | b :: pre, hmem, hfail => by
    have ih := liveRanges_flatMap_refused ops live hG size pre
      (fun x hx => hmem x (List.mem_cons_of_mem _ hx))
      (fun x hx => hfail x (List.mem_cons_of_mem _ hx))
    simp only [List.map_cons, List.flatMap_cons, ih]
    rw [MemoryBlock.liveRanges_refused ops live hG b size (hmem b (List.mem_cons_self _ _))
      (hfail b (List.mem_cons_self _ _))]

theorem perm_cons_insert {α : Type} (x : α) (l X Y : List α) (h : List.Perm l (X ++ Y)) :
    List.Perm (x :: l) (X ++ x :: Y) :=
  (List.Perm.cons x h).trans List.perm_middle.symm

/-- A returned `Allocator::allocate` keeps the agreement between the list of live
allocations and the ledgers, with the new allocation added to the list. -/
theorem liveInvariant_allocate (ops : MemorySlotsOps L) (live : L → List (Nat × Nat))
    (hG : LedgerContract ops live) (malloc : Nat → Nat) (fuel : Nat)
    (a a1 : Allocator L) (size p : Nat) (allocatorType : AllocatorType) (t1 : List Event)
    (l : List (Nat × Nat))
    (h : a.allocate ops malloc fuel size allocatorType = Outcome.returned (p, a1, t1))
    (hmem : ∀ b ∈ allBlocks a.allocatorMemoryBlocks, b.memory ≠ 0)
    (hinv : liveInvariant ops live a.allocatorMemoryBlocks l) :
    liveInvariant ops live a1.allocatorMemoryBlocks ((p, size) :: l) := by
  obtain ⟨poolsPre, poolsPost, pool, pool1, pre, post, base, s, hpools, hpools1, hblocks1,
    hpre, hg, hp, hshape⟩ := Allocator.allocate_shape ops malloc fuel a a1 size p allocatorType t1 h
  obtain ⟨hperm, hok⟩ := hinv
  rw [hpools] at hmem hperm hok
  rw [hpools1]
  simp only [liveRangesOf, allBlocks_append, allBlocks_cons_some, List.flatMap_append,
    List.mem_append] at hmem hperm hok
  have hserv : MemoryBlock.liveRanges live ⟨base, (ops.reserve s size 4).2⟩ =
      (p, size) :: MemoryBlock.liveRanges live ⟨base, s⟩ := by
    unfold MemoryBlock.liveRanges
    simp only
    rw [hG.granted s size hg, hp]
    rfl
  have hpremem : ∀ b ∈ pre, b.memory ≠ 0 := by
    intro b hb
    refine hmem b (Or.inr (Or.inl ?_))
    rcases hshape with h1 | ⟨h1, _, _⟩
    · rw [h1]; exact List.mem_append_left _ hb
    · rw [h1]; exact hb
  have hpreok : ∀ b ∈ pre, b.ledgerOk ops live := by
    intro b hb
    refine hok b (Or.inr (Or.inl ?_))
    rcases hshape with h1 | ⟨h1, _, _⟩
    · rw [h1]; exact List.mem_append_left _ hb
    · rw [h1]; exact hb
  have hsok : MemoryBlock.ledgerOk ops live ⟨base, s⟩ := by
    rcases hshape with h1 | ⟨_, _, n, t, h3⟩
    · refine hok _ (Or.inr (Or.inl ?_))
      rw [h1]
      exact List.mem_append_right _ (List.mem_cons_self _ _)
    · unfold MemoryBlock.ledgerOk
      simp only
      rw [h3, hG.fresh]
      exact ⟨List.Pairwise.nil, fun r hr => absurd hr (List.not_mem_nil r)⟩
  constructor
  · simp only [liveRangesOf, allBlocks_append, allBlocks_cons_some, List.flatMap_append,
      hblocks1, List.flatMap_cons, hserv,
      liveRanges_flatMap_refused ops live hG size pre hpremem hpre]
    rcases hshape with h1 | ⟨h1, h2, n, t, h3⟩
    · rw [h1] at hperm
      simp only [List.flatMap_append, List.flatMap_cons] at hperm
      simp only [List.append_assoc, List.cons_append] at hperm ⊢
      rw [← List.append_assoc]
      rw [← List.append_assoc] at hperm
      exact perm_cons_insert _ _ _ _ hperm
    · rw [h1] at hperm
      have hnil : MemoryBlock.liveRanges live ⟨base, s⟩ = [] := by
        unfold MemoryBlock.liveRanges
        simp only
        rw [h3, hG.fresh]
        rfl
      rw [h2, hnil]
      simp only [List.flatMap_nil, List.append_nil, List.append_assoc, List.cons_append,
        List.nil_append] at hperm ⊢
      rw [← List.append_assoc]
      rw [← List.append_assoc] at hperm
      exact perm_cons_insert _ _ _ _ hperm
  · intro b hb
    simp only [allBlocks_append, allBlocks_cons_some, hblocks1, List.mem_append, List.mem_map,
      List.mem_cons] at hb
    rcases hb with hb | ((⟨b0, hb0, rfl⟩ | rfl | hb) | hb)
    · exact hok b (Or.inl hb)
    · rw [MemoryBlock.block_allocate_eq]
      exact MemoryBlock.ledgerOk_reserve ops live hG b0.memory b0.memorySlots size (hpreok b0 hb0)
    · exact MemoryBlock.ledgerOk_reserve ops live hG base s size hsok
    · rcases hshape with h1 | ⟨_, h2, _⟩
      · refine hok b (Or.inr (Or.inl ?_))
        rw [h1]
        exact List.mem_append_right _ (List.mem_cons_of_mem _ hb)
      · rw [h2] at hb
        cases hb
    · exact hok b (Or.inr (Or.inr hb))

/-- `Allocator::deallocate` when the first block that has `ptr` in range is known: it
returns `true` and only the ledger of that block changes, by `release`. -/
theorem Allocator.deallocate_at (ops : MemorySlotsOps L) (nested : Option (Allocator L))
    (tracking : Nat) (poolsPre poolsPost : List (Option (MemoryBlocks L)))
    (pool : MemoryBlocks L) (pre post : List (MemoryBlock L)) (b0 : MemoryBlock L)
    (ptr size : Nat) (hblocks : pool.memoryBlocks = pre ++ b0 :: post)
    (hin : b0.inRange ops ptr)
    (hA : ∀ b ∈ allBlocks poolsPre, ¬ b.inRange ops ptr)
    (hpre : ∀ b ∈ pre, ¬ b.inRange ops ptr) :
    ∃ t : List Event,
      Allocator.deallocate ops
          (Allocator.mk nested (poolsPre ++ some pool :: poolsPost) tracking false) ptr size =
        Outcome.returned (true,
          Allocator.mk nested
            (poolsPre ++
              some ⟨pool.name, pool.blockSize,
                pre ++ ⟨b0.memory, (ops.release b0.memorySlots (ptr - b0.memory) size).2⟩ ::
                  post⟩ :: poolsPost)
            tracking false, t) := by
  have hpoolsPre : ¬ poolsClaim ops poolsPre ptr := poolsClaim_of_allBlocks ops poolsPre ptr hA
  have hclaims : pool.claims ops ptr := by
    unfold MemoryBlocks.claims
    rw [hblocks]
    exact ⟨b0, by simp, hin⟩
  have hloop := Allocator.deallocateLoop_append ops tracking ptr size
    (some pool :: poolsPost) poolsPre hpoolsPre
  rw [Allocator.deallocateLoop_cons_some, if_pos hclaims] at hloop
  simp only at hloop
  have hclaim1 : poolsClaim ops (poolsPre ++ some pool :: poolsPost) ptr := by
    rw [← Allocator.deallocateLoop_true_iff ops tracking ptr size]
    exact hloop.1
  refine ⟨(Allocator.deallocateLoop ops tracking (poolsPre ++ some pool :: poolsPost)
    ptr size).2.2, ?_⟩
  rw [Allocator.deallocate_eq, if_pos hclaim1, hloop.2, MemoryBlocks.pool_deallocate_eq,
    if_pos hclaims]
  simp only
  rw [hblocks, MemoryBlocks.pool_deallocateLoop_first ops ptr size b0 post hin pre hpre,
    MemoryBlock.deallocate_inRange ops b0 ptr size hin]

theorem beq_pair_eq (x y : Nat × Nat) :
    @BEq.beq (Nat × Nat) instBEqProd x y = @BEq.beq (Nat × Nat) instBEqOfDecidableEq x y := by
  show (x.1 == y.1 && x.2 == y.2) = decide (x = y)
  rcases x with ⟨a, b⟩
  rcases y with ⟨c, d⟩
  by_cases h1 : a = c <;> by_cases h2 : b = d <;> simp [h1, h2]

/-- Removing the first occurrence of a pair does not depend on which of the two
equality tests on pairs is used. -/
theorem erase_pair_eq (l : List (Nat × Nat)) (x : Nat × Nat) :
    @List.erase (Nat × Nat) instBEqProd l x = @List.erase (Nat × Nat) instBEqOfDecidableEq l x := by
  induction l with
  | nil => rfl
  | cons y l ih => simp only [List.erase, beq_pair_eq, ih]

theorem perm_erase_middle {α : Type} [DecidableEq α] (x : α) (X M Y : List α) (h : x ∈ M) :
    List.Perm ((X ++ (M ++ Y)).erase x) (X ++ (M.erase x ++ Y)) := by
  have h1 : List.Perm ((X ++ (M ++ Y)).erase x) ((M ++ (X ++ Y)).erase x) :=
    List.Perm.erase x (List.perm_append_comm_assoc X M Y)
  rw [List.erase_append_left _ h] at h1
  exact h1.trans (List.perm_append_comm_assoc (M.erase x) X Y)

theorem MemoryBlock.liveRanges_release (ops : MemorySlotsOps L) (live : L → List (Nat × Nat))
    (hG : LedgerContract ops live) (b0 : MemoryBlock L) (r0 : Nat × Nat)
    (hr0 : r0 ∈ live b0.memorySlots) :
    MemoryBlock.liveRanges live
        ⟨b0.memory, (ops.release b0.memorySlots (b0.memory + r0.1 - b0.memory) r0.2).2⟩ =
      (MemoryBlock.liveRanges live b0).erase (b0.memory + r0.1, r0.2) := by
  unfold MemoryBlock.liveRanges
  simp only
  rw [Nat.add_sub_cancel_left, hG.released b0.memorySlots r0.1 r0.2 hr0]
  simp only [erase_pair_eq]
  have hinj : Function.Injective (fun r : Nat × Nat => (b0.memory + r.1, r.2)) := by
    intro x y hxy
    simp only [Prod.mk.injEq] at hxy
    exact Prod.ext (by omega) hxy.2
  exact List.map_erase hinj (live b0.memorySlots)

/-- A returned `Allocator::deallocate` of a live allocation keeps the agreement between
the list of live allocations and the ledgers, with the allocation removed from the
list. -/
theorem liveInvariant_deallocate (ops : MemorySlotsOps L) (live : L → List (Nat × Nat))
    (hG : LedgerContract ops live) (a a1 : Allocator L) (p size : Nat) (r : Bool)
    (t1 : List Event) (l : List (Nat × Nat))
    (h : a.deallocate ops p size = Outcome.returned (r, a1, t1))
    (hbuf : buffersDisjoint ops a.allocatorMemoryBlocks)
    (hinv : liveInvariant ops live a.allocatorMemoryBlocks l)
    (hlive : (p, size) ∈ l) :
    liveInvariant ops live a1.allocatorMemoryBlocks (l.erase (p, size)) := by
  rw [erase_pair_eq]
  obtain ⟨hperm, hok⟩ := hinv
  -- the block and the range behind the live allocation
  have hmem := (hperm.mem_iff).mp hlive
  unfold liveRangesOf at hmem
  obtain ⟨b0, hb0, hmem0⟩ := List.mem_flatMap.mp hmem
  unfold MemoryBlock.liveRanges at hmem0
  obtain ⟨r0, hr0, hr0eq⟩ := List.mem_map.mp hmem0
  simp only [Prod.mk.injEq] at hr0eq
  obtain ⟨hp, hsize⟩ := hr0eq
  unfold allBlocks at hb0
  obtain ⟨po, hpo, hb0po⟩ := List.mem_flatMap.mp hb0
  cases po with
  | none => cases hb0po
  | some pool =>
    simp only at hb0po
    obtain ⟨poolsPre, poolsPost, hpools⟩ := List.append_of_mem hpo
    obtain ⟨pre, post, hblocks⟩ := List.append_of_mem hb0po
    have hb0ok := hok b0 hb0
    have hin : b0.inRange ops p := by
      unfold MemoryBlock.inRange
      rw [← hp]
      refine ⟨by omega, ?_⟩
      rw [Nat.add_sub_cancel_left]
      exact hb0ok.2 r0 hr0
    -- no earlier block has `p` in range
    obtain ⟨_, hpw⟩ := hbuf
    rw [hpools, allBlocks_append, allBlocks_cons_some, hblocks] at hpw
    rw [List.pairwise_append] at hpw
    obtain ⟨_, hpw2, hcross⟩ := hpw
    have hA : ∀ b ∈ allBlocks poolsPre, ¬ b.inRange ops p := by
      intro b hb
      refine MemoryBlock.apart_not_inRange ops b b0 p (hcross b hb b0 ?_) hin
      simp
    rw [List.pairwise_append] at hpw2
    obtain ⟨hpw3, _, _⟩ := hpw2
    rw [List.pairwise_append] at hpw3
    obtain ⟨_, _, hcross3⟩ := hpw3
    have hpre : ∀ b ∈ pre, ¬ b.inRange ops p := by
      intro b hb
      exact MemoryBlock.apart_not_inRange ops b b0 p
        (hcross3 b hb b0 (List.mem_cons_self _ _)) hin
    cases a with
    | mk nested pools tracking locked =>
      cases locked with
      | true => simp [Allocator.deallocate] at h
      | false =>
        simp only [Allocator.allocatorMemoryBlocks] at hpools hperm hok
        subst hpools
        obtain ⟨t, hd⟩ := Allocator.deallocate_at ops nested tracking poolsPre poolsPost pool
          pre post b0 p size hblocks hin hA hpre
        rw [hd] at h
        simp only [Outcome.returned.injEq, Prod.mk.injEq] at h
        obtain ⟨_, ha1, _⟩ := h
        subst ha1
        simp only [Allocator.allocatorMemoryBlocks]
        have hrel : MemoryBlock.liveRanges live
            ⟨b0.memory, (ops.release b0.memorySlots (p - b0.memory) size).2⟩ =
            (MemoryBlock.liveRanges live b0).erase (p, size) := by
          rw [← hp, ← hsize]
          exact MemoryBlock.liveRanges_release ops live hG b0 r0 hr0
        constructor
        · simp only [liveRangesOf, allBlocks_append, allBlocks_cons_some, hblocks,
            List.flatMap_append, List.flatMap_cons, hrel, erase_pair_eq] at hperm ⊢
          simp only [List.append_assoc] at hperm ⊢
          have h1 := List.Perm.erase (p, size) hperm
          rw [← List.append_assoc] at h1 ⊢
          exact h1.trans (perm_erase_middle (p, size) _ _ _ hmem0)
        · intro b hb
          simp only [allBlocks_append, allBlocks_cons_some, List.mem_append,
            List.mem_cons] at hb
          have hsub : ∀ c, c ∈ allBlocks poolsPre ∨
              (c ∈ pre ∨ c = b0 ∨ c ∈ post) ∨ c ∈ allBlocks poolsPost →
              c ∈ allBlocks (poolsPre ++ some pool :: poolsPost) := by
            intro c hc
            simp only [allBlocks_append, allBlocks_cons_some, hblocks, List.mem_append,
              List.mem_cons]
            exact hc
          rcases hb with hb | ((hb | rfl | hb) | hb)
          · exact hok b (hsub b (Or.inl hb))
          · exact hok b (hsub b (Or.inr (Or.inl (Or.inl hb))))
          · unfold MemoryBlock.ledgerOk
            simp only
            have hr0' : (p - b0.memory, size) ∈ live b0.memorySlots := by
              rw [← hp, ← hsize, Nat.add_sub_cancel_left]
              exact hr0
            rw [hG.released b0.memorySlots _ _ hr0', hG.releaseCapacity]
            exact ⟨List.Pairwise.sublist (List.erase_sublist _ _) hb0ok.1,
              fun x hx => hb0ok.2 x (List.mem_of_mem_erase hx)⟩
          · exact hok b (hsub b (Or.inr (Or.inl (Or.inr (Or.inr hb)))))
          · exact hok b (hsub b (Or.inr (Or.inr hb)))

/-- A run keeps the agreement between the list of live allocations and the ledgers, and
ends in a state whose buffers are pairwise disjoint. -/
theorem runCalls_invariant (ops : MemorySlotsOps L) (live : L → List (Nat × Nat))
    (hG : LedgerContract ops live) (fuel : Nat) :
    ∀ (calls : List Call) (st st1 : Allocator L × List (Nat × Nat)),
      liveInvariant ops live st.1.allocatorMemoryBlocks st.2 →
      runCalls ops fuel calls st = some st1 →
      liveInvariant ops live st1.1.allocatorMemoryBlocks st1.2 ∧
        buffersDisjoint ops st1.1.allocatorMemoryBlocks
  | [], st, st1, hinv, hrun => by
    rw [runCalls] at hrun
    by_cases hbuf : buffersDisjoint ops st.1.allocatorMemoryBlocks
    · rw [if_pos hbuf] at hrun
      cases hrun
      exact ⟨hinv, hbuf⟩
    · rw [if_neg hbuf] at hrun
      cases hrun
  | Call.allocate size allocatorType malloc :: rest, st, st1, hinv, hrun => by
    rw [runCalls] at hrun
    by_cases hbuf : buffersDisjoint ops st.1.allocatorMemoryBlocks
    · rw [if_pos hbuf] at hrun
      cases hcall : st.1.allocate ops malloc fuel size allocatorType with
      | returned x =>
        rw [hcall] at hrun
        simp only at hrun
        rcases x with ⟨p, a1, t1⟩
        exact runCalls_invariant ops live hG fuel rest (a1, (p, size) :: st.2) st1
          (liveInvariant_allocate ops live hG malloc fuel st.1 a1 size p allocatorType t1 st.2
            hcall hbuf.1 hinv) hrun
      | blocked => rw [hcall] at hrun; cases hrun
      | undefined => rw [hcall] at hrun; cases hrun
      | outOfFuel => rw [hcall] at hrun; cases hrun
    · rw [if_neg hbuf] at hrun
      cases hrun
  | Call.deallocate ptr size :: rest, st, st1, hinv, hrun => by
    rw [runCalls] at hrun
    by_cases hpre : buffersDisjoint ops st.1.allocatorMemoryBlocks ∧ (ptr, size) ∈ st.2
    · rw [if_pos hpre] at hrun
      cases hcall : st.1.deallocate ops ptr size with
      | returned x =>
        rw [hcall] at hrun
        simp only at hrun
        rcases x with ⟨r, a1, t1⟩
        exact runCalls_invariant ops live hG fuel rest (a1, st.2.erase (ptr, size)) st1
          (liveInvariant_deallocate ops live hG st.1 a1 ptr size r t1 st.2 hcall hpre.1 hinv
            hpre.2) hrun
      | blocked => rw [hcall] at hrun; cases hrun
      | undefined => rw [hcall] at hrun; cases hrun
      | outOfFuel => rw [hcall] at hrun; cases hrun
    · rw [if_neg hpre] at hrun
      cases hrun

/-- Among blocks with pairwise disjoint address ranges, an address is in the range of
one block at most. -/
theorem same_block_of_inRange (ops : MemorySlotsOps L) (q : Nat) :
    ∀ blocks : List (MemoryBlock L), blocks.Pairwise (MemoryBlock.apart ops) →
      ∀ b ∈ blocks, ∀ c ∈ blocks, b.inRange ops q → c.inRange ops q → b = c
  | [], _, b, hb, _, _, _, _ => absurd hb (List.not_mem_nil b)
  | x :: rest, hpw, b, hb, c, hc, hbq, hcq => by
    obtain ⟨hx, hrest⟩ := List.pairwise_cons.mp hpw
    rcases List.mem_cons.mp hb with h1 | h1 <;> rcases List.mem_cons.mp hc with h2 | h2
    · rw [h1, h2]
    · subst h1
      exact absurd hbq (MemoryBlock.apart_not_inRange ops b c q (hx c h2) hcq)
    · subst h2
      exact absurd hcq (MemoryBlock.apart_not_inRange ops c b q (hx b h1) hbq)
    · exact same_block_of_inRange ops q rest hrest b h1 c h2 hbq hcq

/-- A live range of a block whose ledger is consistent starts in the address range of
the block. -/
theorem MemoryBlock.liveRanges_inRange (ops : MemorySlotsOps L) (live : L → List (Nat × Nat))
    (b : MemoryBlock L) (hok : b.ledgerOk ops live) (x : Nat × Nat)
    (hx : x ∈ MemoryBlock.liveRanges live b) : b.inRange ops x.1 := by
  unfold MemoryBlock.liveRanges at hx
  obtain ⟨r0, hr0, rfl⟩ := List.mem_map.mp hx
  unfold MemoryBlock.inRange
  simp only
  refine ⟨by omega, ?_⟩
  rw [Nat.add_sub_cancel_left]
  exact hok.2 r0 hr0

/-- C1. For every sequence of `Allocator::allocate` / `Allocator::deallocate` calls on a
freshly constructed allocator in which every call returns, every `deallocate` passes a
pointer that a previous `allocate` returned and that is still live, with its size, and
the buffers obtained from `std::malloc` are pairwise disjoint (the runs of `runCalls`),
and for every ledger that meets `LedgerContract` (in particular it never grants a range
that meets a live one): any two live allocations whose pointers lie in the same
`MemoryBlock` occupy disjoint byte ranges `[p, p + size)`; and every live allocation
lies in some block. -/
theorem Allocator.live_allocations_disjoint (ops : MemorySlotsOps L)
    (live : L → List (Nat × Nat)) (hG : LedgerContract ops live) (fuel : Nat)
    (nested : Option (Allocator L)) (tracking : Nat) (calls : List Call) (a : Allocator L)
    (l : List (Nat × Nat))
    (hrun : runCalls ops fuel calls ((Allocator.construct nested tracking).1, []) = some (a, l)) :
    l.Pairwise (fun x y =>
      ∀ b ∈ allBlocks a.allocatorMemoryBlocks,
        b.inRange ops x.1 → b.inRange ops y.1 → rangesDisjoint x y) ∧
    ∀ x ∈ l, ∃ b ∈ allBlocks a.allocatorMemoryBlocks, b.inRange ops x.1 := by
  have hinit : liveInvariant ops live
      ((Allocator.construct nested tracking).1, ([] : List (Nat × Nat))).1.allocatorMemoryBlocks
      ((Allocator.construct nested tracking).1, ([] : List (Nat × Nat))).2 := by
    constructor
    · exact List.Perm.refl _
    · intro b hb
      simp [Allocator.construct, Allocator.allocatorMemoryBlocks, allBlocks] at hb
  obtain ⟨⟨hperm, hok⟩, _, hpw⟩ := runCalls_invariant ops live hG fuel calls _ (a, l) hinit hrun
  simp only at hperm hok hpw
  constructor
  · refine (List.Perm.pairwise_iff ?_ hperm).mpr ?_
    · intro x y hxy b hb hy hx
      exact rangesDisjoint_symm (hxy b hb hx hy)
    · unfold liveRangesOf
      rw [List.pairwise_flatMap]
      constructor
      · intro b hb
        unfold MemoryBlock.liveRanges
        rw [List.pairwise_map]
        exact List.Pairwise.imp (fun hr _ _ _ _ => rangesDisjoint_shift b.memory hr) (hok b hb).1
      · refine List.Pairwise.imp_of_mem ?_ hpw
        intro b1 b2 hb1 hb2 hapart x hx y hy b hb hbx hby
        have h1 := same_block_of_inRange ops x.1 _ hpw b hb b1 hb1 hbx
          (MemoryBlock.liveRanges_inRange ops live b1 (hok b1 hb1) x hx)
        have h2 := same_block_of_inRange ops y.1 _ hpw b hb b2 hb2 hby
          (MemoryBlock.liveRanges_inRange ops live b2 (hok b2 hb2) y hy)
        rw [← h1, ← h2] at hapart
        exact absurd hbx (MemoryBlock.apart_not_inRange ops b b x.1 hapart hbx)
  · intro x hx
    have hx1 := hperm.mem_iff.mp hx
    unfold liveRangesOf at hx1
    obtain ⟨b, hb, hxb⟩ := List.mem_flatMap.mp hx1
    exact ⟨b, hb, MemoryBlock.liveRanges_inRange ops live b (hok b hb) x hxb⟩

/-- C1, on the run `sampleCalls` of the default-constructed allocator: three
allocations are live at the end, all in the block at 1048576, and they are pairwise
disjoint. -/
theorem Allocator.live_allocations_disjoint_witness :
    runCalls SimpleSlots.ops 1 sampleCalls ((Allocator.construct none 0).1, []) =
      some (Allocator.mk none
        [some ⟨"ALLOCATOR_OBJECTS", 40960,
          [⟨1048576, ⟨40960, [(152, 200), (0, 20), (100, 50)], 0⟩⟩]⟩,
         some ⟨"ALLOCATOR_DATA", 20480, []⟩,
         some ⟨"ALLOCATOR_NODES", 5120, []⟩] 0 false,
        [(1048728, 200), (1048576, 20), (1048676, 50)]) ∧
    [((1048728 : Nat), (200 : Nat)), (1048576, 20), (1048676, 50)].Pairwise (fun x y =>
      ∀ b ∈ allBlocks (Allocator.mk none
          [some ⟨"ALLOCATOR_OBJECTS", 40960,
            [⟨1048576, ⟨40960, [(152, 200), (0, 20), (100, 50)], 0⟩⟩]⟩,
           some ⟨"ALLOCATOR_DATA", 20480, []⟩,
           some ⟨"ALLOCATOR_NODES", 5120, []⟩] 0 false).allocatorMemoryBlocks,
        b.inRange SimpleSlots.ops x.1 → b.inRange SimpleSlots.ops y.1 → rangesDisjoint x y) :=
  have hrun : runCalls SimpleSlots.ops 1 sampleCalls ((Allocator.construct none 0).1, []) =
      some (Allocator.mk none
        [some ⟨"ALLOCATOR_OBJECTS", 40960,
          [⟨1048576, ⟨40960, [(152, 200), (0, 20), (100, 50)], 0⟩⟩]⟩,
         some ⟨"ALLOCATOR_DATA", 20480, []⟩,
         some ⟨"ALLOCATOR_NODES", 5120, []⟩] 0 false,
        [(1048728, 200), (1048576, 20), (1048676, 50)]) := by
    rfl
  ⟨hrun,
    (Allocator.live_allocations_disjoint SimpleSlots.ops SimpleSlots.reserved
      SimpleSlots.contract 1 none 0 sampleCalls _ _ hrun).1⟩

/-! ## The number of blocks of a pool -/

/-- The loop of `MemoryBlocks::allocate` keeps the buffers of the blocks, in order. -/
theorem MemoryBlocks.allocateLoop_buffers (ops : MemorySlotsOps L) (size : Nat) :
    ∀ blocks : List (MemoryBlock L),
      (MemoryBlocks.allocateLoop ops blocks size).2.1.map (fun b => b.memory) =
        blocks.map (fun b => b.memory)
  | [] => rfl
  | block :: rest => by
    have ih := MemoryBlocks.allocateLoop_buffers ops size rest
    rw [MemoryBlocks.pool_allocateLoop_cons]
    by_cases h : (block.allocate ops size).1 ≠ 0
    · rw [if_pos h]
      simp [MemoryBlock.allocate_memory]
    · rw [if_neg h]
      simp [MemoryBlock.allocate_memory, ih]

/-- The loop of `MemoryBlocks::deallocate` keeps the buffers of the blocks, in order. -/
theorem MemoryBlocks.deallocateLoop_buffers (ops : MemorySlotsOps L) (ptr size : Nat) :
    ∀ blocks : List (MemoryBlock L),
      (MemoryBlocks.deallocateLoop ops blocks ptr size).2.1.map (fun b => b.memory) =
        blocks.map (fun b => b.memory)
  | [] => rfl
  | block :: rest => by
    have ih := MemoryBlocks.deallocateLoop_buffers ops ptr size rest
    rw [MemoryBlocks.pool_deallocateLoop_cons]
    by_cases h : block.inRange ops ptr
    · rw [if_pos h, MemoryBlock.deallocate_inRange ops block ptr size h]
      simp
    · rw [if_neg h]
      simp [ih]

theorem MemoryBlocks.allocate_buffers (ops : MemorySlotsOps L) (malloc : Nat → Nat)
    (parentTracking : Nat) (pool : MemoryBlocks L) (size : Nat) :
    (pool.allocate ops malloc parentTracking size).2.1.memoryBlocks.map (fun b => b.memory) =
      pool.memoryBlocks.map (fun b => b.memory) ++
        (if (MemoryBlocks.allocateLoop ops pool.memoryBlocks size).1 ≠ 0 then []
          else [malloc (max size pool.blockSize)]) := by
  rw [MemoryBlocks.pool_allocate_eq]
  by_cases h : (MemoryBlocks.allocateLoop ops pool.memoryBlocks size).1 ≠ 0
  · rw [if_pos h, if_pos h]
    simp [MemoryBlocks.allocateLoop_buffers]
  · rw [if_neg h, if_neg h]
    simp [MemoryBlocks.allocateLoop_buffers, MemoryBlock.allocate_memory,
      MemoryBlock.construct]

theorem MemoryBlocks.deallocate_buffers (ops : MemorySlotsOps L) (parentTracking : Nat)
    (pool : MemoryBlocks L) (ptr size : Nat) :
    (pool.deallocate ops parentTracking ptr size).2.1.memoryBlocks.map (fun b => b.memory) =
      pool.memoryBlocks.map (fun b => b.memory) := by
  rw [MemoryBlocks.pool_deallocate_eq]
  by_cases h : pool.claims ops ptr
  · rw [if_pos h]
    exact MemoryBlocks.deallocateLoop_buffers ops ptr size pool.memoryBlocks
  · rw [if_neg h]

/-- C15. Block count never decreases. For every pool and every call of
`MemoryBlocks::allocate` or `MemoryBlocks::deallocate` on it, whatever it returns: the
buffers of the blocks before the call are, in the same order, the first buffers of the
blocks after it (existing blocks keep their positions); `allocate` leaves the number of
blocks as it is or adds one block at the end; `deallocate` leaves the number of blocks
and their buffers as they are. -/
theorem MemoryBlocks.block_count_never_decreases (ops : MemorySlotsOps L) (malloc : Nat → Nat)
    (parentTracking : Nat) (pool : MemoryBlocks L) (size ptr : Nat) :
    (pool.memoryBlocks.map (fun b => b.memory) <+:
      (pool.allocate ops malloc parentTracking size).2.1.memoryBlocks.map (fun b => b.memory)) ∧
    pool.memoryBlocks.length ≤
      (pool.allocate ops malloc parentTracking size).2.1.memoryBlocks.length ∧
    (pool.allocate ops malloc parentTracking size).2.1.memoryBlocks.length ≤
      pool.memoryBlocks.length + 1 ∧
    (pool.deallocate ops parentTracking ptr size).2.1.memoryBlocks.map (fun b => b.memory) =
      pool.memoryBlocks.map (fun b => b.memory) ∧
    (pool.deallocate ops parentTracking ptr size).2.1.memoryBlocks.length =
      pool.memoryBlocks.length := by
  have ha := MemoryBlocks.allocate_buffers ops malloc parentTracking pool size
  have hd := MemoryBlocks.deallocate_buffers ops parentTracking pool ptr size
  have hal := congrArg List.length ha
  have hdl := congrArg List.length hd
  simp only [List.length_map, List.length_append] at hal hdl
  refine ⟨⟨_, ha.symm⟩, ?_, ?_, hd, hdl⟩
  · omega
  · rw [hal]
    split <;> simp

/-! ## What a block hands out -/

/-- On a block that has a buffer, `MemoryBlock::allocate(size)` returns null exactly
when the ledger refuses `reserve(size, 4)`; otherwise it returns `memory + offset`,
and when that offset is below `totalMemorySize()` the block it leaves has the pointer
in range, so that its `deallocate` returns `true`. -/
theorem MemoryBlock.allocate_with_buffer (ops : MemorySlotsOps L) (block : MemoryBlock L)
    (size : Nat) (hmem : block.memory ≠ 0) :
    ((block.allocate ops size).1 = 0 ↔ (ops.reserve block.memorySlots size 4).1.1 = false) ∧
    ((ops.reserve block.memorySlots size 4).1.1 = true →
      (block.allocate ops size).1 = block.memory + (ops.reserve block.memorySlots size 4).1.2) ∧
    ((ops.reserve block.memorySlots size 4).1.1 = true →
      (ops.reserve block.memorySlots size 4).1.2 <
        ops.totalMemorySize (ops.reserve block.memorySlots size 4).2 →
      ((block.allocate ops size).2.1.deallocate ops (block.allocate ops size).1 size).1 = true) := by
  refine ⟨⟨MemoryBlock.allocate_eq_zero ops block size hmem, ?_⟩, ?_, ?_⟩
  · intro h
    rw [MemoryBlock.block_allocate_eq]
    simp [h]
  · intro h
    rw [MemoryBlock.block_allocate_eq]
    simp [h]
  · intro h hlt
    have hin : (block.allocate ops size).2.1.inRange ops (block.allocate ops size).1 := by
      rw [MemoryBlock.block_allocate_eq]
      unfold MemoryBlock.inRange
      simp only [h, if_true]
      refine ⟨by omega, ?_⟩
      rw [Nat.add_sub_cancel_left]
      exact hlt
    rw [MemoryBlock.deallocate_inRange ops _ _ size hin]

/-- C18 (the code at the failing input). On a block without buffer (`memory` is null),
as left in a pool when `std::malloc` refused, with a fresh ledger of 128 bytes: the
ledger grants `reserve(16, 4)` at offset 0, and `MemoryBlock::allocate(16)` returns
`memory + 0`, which is null, although the ledger did not refuse; the 16 bytes stay
reserved. -/
theorem MemoryBlock.allocate_null_though_granted :
    (SimpleSlots.ops.reserve ⟨128, [], 0⟩ 16 4).1 = (true, 0) ∧
    MemoryBlock.allocate SimpleSlots.ops ⟨0, ⟨128, [], 0⟩⟩ 16 =
      (0, ⟨0, ⟨128, [(0, 16)], 0⟩⟩, [Event.reserve 0 16 4]) := by
  decide

/-! ## Diagnostic output -/

/-- For every ledger and whatever the tracking flags: when the block has `ptr` in range
and the ledger answers `false` to `release`, `MemoryBlock::deallocate` writes a line to
`std::cout`. -/
theorem MemoryBlock.deallocate_refused_logs (ops : MemorySlotsOps L) (block : MemoryBlock L)
    (ptr size : Nat) (hin : block.inRange ops ptr)
    (href : (ops.release block.memorySlots (ptr - block.memory) size).1 = false) :
    (block.deallocate ops ptr size).2.2 =
      [Event.release block.memory (ptr - block.memory) size,
        Event.cout ("Allocator::MemoryBlock::deallocate(" ++ toString ptr ++
          ") problem - couldn't release")] := by
  rw [MemoryBlock.deallocate_inRange ops block ptr size hin]
  simp [href]

/-- C12 (the code at the failing input). On the allocator `scenarioFreed`, whose
tracking flags are 0: `deallocate(1048576, 100)` of the range that is already free is
refused by the ledger, and the call writes one line to `std::cout`. -/
theorem Allocator.deallocate_logs_with_tracking_off :
    scenarioFreed.memoryTracking = 0 ∧
    reportActions scenarioFreed.memoryTracking = false ∧
    (scenarioFreed.deallocate SimpleSlots.ops 1048576 100).events? =
      some [Event.release 1048576 0 100,
        Event.cout "Allocator::MemoryBlock::deallocate(1048576) problem - couldn't release"] := by
  refine ⟨rfl, rfl, ?_⟩
  decide

/-! ## Category isolation -/

/-- C13. Category isolation, for a ledger whose granted offsets are below
`totalMemorySize()`. Whenever `Allocator::allocate(size, C)` returns a pointer `p`,
every pool other than the pool of `C` is what it was (its block list and every ledger
state), the nested allocator is what it was, and `p` lies in the address range of a
block that the pool of `C` owns after the call. The call does return when the mutex is
free and the pool of `C` gives a non-null pointer. -/
theorem Allocator.allocate_category_isolation (ops : MemorySlotsOps L) (malloc : Nat → Nat)
    (hrange : ∀ (s : L) (size : Nat), (ops.reserve s size 4).1.1 = true →
      (ops.reserve s size 4).1.2 < ops.totalMemorySize (ops.reserve s size 4).2)
    (fuel : Nat) (a : Allocator L) (size : Nat) (allocatorType : AllocatorType) :
    (∀ (p : Nat) (a1 : Allocator L) (t1 : List Event),
      a.allocate ops malloc fuel size allocatorType = Outcome.returned (p, a1, t1) →
      (∀ j : Nat, j ≠ allocatorType.toNat →
        a1.allocatorMemoryBlocks[j]? = a.allocatorMemoryBlocks[j]?) ∧
      a1.allocatorMemoryBlocks.length = a.allocatorMemoryBlocks.length ∧
      a1.nestedAllocator = a.nestedAllocator ∧
      ∃ (pool1 : MemoryBlocks L) (block : MemoryBlock L),
        a1.allocatorMemoryBlocks[allocatorType.toNat]? = some (some pool1) ∧
        block ∈ pool1.memoryBlocks ∧ block.inRange ops p) ∧
    (a.mutexLocked = false →
      ∀ pool : MemoryBlocks L,
        a.allocatorMemoryBlocks[allocatorType.toNat]? = some (some pool) →
        (pool.allocate ops malloc a.memoryTracking size).1 ≠ 0 →
        (a.allocate ops malloc (fuel + 1) size allocatorType).value? =
          some (pool.allocate ops malloc a.memoryTracking size).1) := by
  constructor
  · intro p a1 t1 halloc
    obtain ⟨_, pool, hidx, hp, hp0, ha1⟩ :=
      Allocator.allocate_returned ops malloc fuel a a1 size p allocatorType t1 halloc
    have hlt : allocatorType.toNat < a.allocatorMemoryBlocks.length :=
      (List.getElem?_eq_some.mp hidx).1
    rw [hp] at hp0
    obtain ⟨pre, post, base, s, _, hg, hptr, hblocks1, _⟩ :=
      MemoryBlocks.allocate_serving ops malloc a.memoryTracking pool size hp0
    subst ha1
    simp only [Allocator.allocatorMemoryBlocks, Allocator.nestedAllocator]
    refine ⟨?_, List.length_set _ _ _, trivial,
      (pool.allocate ops malloc a.memoryTracking size).2.1,
      ⟨base, (ops.reserve s size 4).2⟩, List.getElem?_set_self hlt, ?_, ?_⟩
    · intro j hj
      exact List.getElem?_set_ne (fun h => hj h.symm)
    · rw [hblocks1]
      simp
    · unfold MemoryBlock.inRange
      simp only
      rw [hp, hptr]
      refine ⟨by omega, ?_⟩
      rw [Nat.add_sub_cancel_left]
      exact hrange s size hg
  · intro hfree pool hidx hne
    cases a with
    | mk nested pools tracking locked =>
      simp only [Allocator.mutexLocked] at hfree
      subst hfree
      simp only [Allocator.allocatorMemoryBlocks, Allocator.memoryTracking] at hidx hne ⊢
      rw [Allocator.allocate_unlocked ops malloc nested pools tracking size allocatorType fuel
        (some pool) hidx]
      simp only [Allocator.poolAttempt]
      rw [if_pos hne]
      rfl

/-- C13, on the scenario: after 100 bytes under OBJECTS, 50 bytes are allocated under
DATA; the OBJECTS and NODES pools are unchanged and the pointer lies in a block of the
DATA pool, not in the block of the OBJECTS pool. -/
theorem Allocator.allocate_category_isolation_witness :
    Allocator.allocate SimpleSlots.ops (fun _ => 2097152) 1 scenarioLive 50
        AllocatorType.ALLOCATOR_DATA =
      Outcome.returned (2097152, scenarioTwoCategories,
        [Event.malloc 20480, Event.reserve 2097152 50 4]) ∧
    scenarioTwoCategories.allocatorMemoryBlocks[0]? = scenarioLive.allocatorMemoryBlocks[0]? ∧
    scenarioTwoCategories.allocatorMemoryBlocks[2]? = scenarioLive.allocatorMemoryBlocks[2]? ∧
    (∃ (pool1 : MemoryBlocks SimpleSlots) (block : MemoryBlock SimpleSlots),
      scenarioTwoCategories.allocatorMemoryBlocks[AllocatorType.ALLOCATOR_DATA.toNat]? =
        some (some pool1) ∧
      block ∈ pool1.memoryBlocks ∧ block.inRange SimpleSlots.ops 2097152) ∧
    ¬ MemoryBlock.inRange SimpleSlots.ops ⟨1048576, ⟨40960, [(0, 100)], 0⟩⟩ 2097152 := by
  have halloc : Allocator.allocate SimpleSlots.ops (fun _ => 2097152) 1 scenarioLive 50
      AllocatorType.ALLOCATOR_DATA =
      Outcome.returned (2097152, scenarioTwoCategories,
        [Event.malloc 20480, Event.reserve 2097152 50 4]) := rfl
  have h := (Allocator.allocate_category_isolation SimpleSlots.ops (fun _ => 2097152)
    SimpleSlots.granted_in_range 1 scenarioLive 50 AllocatorType.ALLOCATOR_DATA).1
    2097152 scenarioTwoCategories _ halloc
  exact ⟨halloc, h.1 0 (by decide), h.1 2 (by decide), h.2.2.2, by decide⟩

/-! ## The block whose ledger a deallocate calls -/

/-- A list with a block that has `ptr` in range splits at the first such block. -/
theorem MemoryBlocks.first_inRange_split (ops : MemorySlotsOps L) (ptr : Nat) :
    ∀ blocks : List (MemoryBlock L), (∃ b ∈ blocks, b.inRange ops ptr) →
      ∃ (pre : List (MemoryBlock L)) (b0 : MemoryBlock L) (post : List (MemoryBlock L)),
        blocks = pre ++ b0 :: post ∧ (∀ b ∈ pre, ¬ b.inRange ops ptr) ∧ b0.inRange ops ptr
  | [], h => by obtain ⟨b, hb, _⟩ := h; cases hb
  | x :: rest, h => by
    by_cases hx : x.inRange ops ptr
    · exact ⟨[], x, rest, rfl, fun y hy => absurd hy (List.not_mem_nil y), hx⟩
    · obtain ⟨b, hb, hin⟩ := h
      have hb1 : b ∈ rest := by
        rcases List.mem_cons.mp hb with h1 | h1
        · subst h1; exact absurd hin hx
        · exact h1
      obtain ⟨pre, b0, post, h1, h2, h3⟩ :=
        MemoryBlocks.first_inRange_split ops ptr rest ⟨b, hb1, hin⟩
      refine ⟨x :: pre, b0, post, by rw [h1]; rfl, ?_, h3⟩
      intro y hy
      rcases List.mem_cons.mp hy with h4 | h4
      · subst h4; exact hx
      · exact h2 y h4

theorem allBlocks_cons_none (post : List (Option (MemoryBlocks L))) :
    allBlocks (none :: post) = allBlocks post := by
  simp [allBlocks, List.flatMap_cons]

/-- A list of pools with a block that has `ptr` in range splits at the first pool that
owns such a block. -/
theorem first_claiming_pool_split (ops : MemorySlotsOps L) (ptr : Nat) :
    ∀ pools : List (Option (MemoryBlocks L)), (∃ b ∈ allBlocks pools, b.inRange ops ptr) →
      ∃ (poolsPre : List (Option (MemoryBlocks L))) (pool : MemoryBlocks L)
        (poolsPost : List (Option (MemoryBlocks L))),
        pools = poolsPre ++ some pool :: poolsPost ∧
          (∀ b ∈ allBlocks poolsPre, ¬ b.inRange ops ptr) ∧
          ∃ b ∈ pool.memoryBlocks, b.inRange ops ptr
  | [], h => by
    obtain ⟨b, hb, _⟩ := h
    simp [allBlocks] at hb
  | none :: rest, h => by
    rw [allBlocks_cons_none] at h
    obtain ⟨poolsPre, pool, poolsPost, h1, h2, h3⟩ := first_claiming_pool_split ops ptr rest h
    refine ⟨none :: poolsPre, pool, poolsPost, by rw [h1]; rfl, ?_, h3⟩
    rw [allBlocks_cons_none]
    exact h2
  | some x :: rest, h => by
    by_cases hx : ∃ b ∈ x.memoryBlocks, b.inRange ops ptr
    · refine ⟨[], x, rest, rfl, ?_, hx⟩
      intro b hb
      simp [allBlocks] at hb
    · have hrest : ∃ b ∈ allBlocks rest, b.inRange ops ptr := by
        obtain ⟨b, hb, hin⟩ := h
        rw [allBlocks_cons_some] at hb
        rcases List.mem_append.mp hb with h1 | h1
        · exact absurd ⟨b, h1, hin⟩ hx
        · exact ⟨b, h1, hin⟩
      obtain ⟨poolsPre, pool, poolsPost, h1, h2, h3⟩ :=
        first_claiming_pool_split ops ptr rest hrest
      refine ⟨some x :: poolsPre, pool, poolsPost, by rw [h1]; rfl, ?_, h3⟩
      intro b hb
      rw [allBlocks_cons_some] at hb
      rcases List.mem_append.mp hb with h4 | h4
      · exact fun hin => hx ⟨b, h4, hin⟩
      · exact h2 b h4

/-- The events of the loop of `Allocator::deallocate` over pools that do not claim
`ptr` come first and are diagnostic lines only. -/
theorem Allocator.deallocateLoop_append_events (ops : MemorySlotsOps L)
    (memoryTracking : Nat) (ptr size : Nat) (rest : List (Option (MemoryBlocks L))) :
    ∀ pre : List (Option (MemoryBlocks L)), ¬ poolsClaim ops pre ptr →
      (Allocator.deallocateLoop ops memoryTracking (pre ++ rest) ptr size).2.2 =
        (Allocator.deallocateLoop ops memoryTracking pre ptr size).2.2 ++
          (Allocator.deallocateLoop ops memoryTracking rest ptr size).2.2
  | [], _ => by simp [Allocator.deallocateLoop]
  | none :: pre, h => by
    have ih := Allocator.deallocateLoop_append_events ops memoryTracking ptr size rest pre
      (fun ⟨p, hp, hc⟩ => h ⟨p, List.mem_cons_of_mem _ hp, hc⟩)
    rw [List.cons_append, Allocator.deallocateLoop_cons_none, Allocator.deallocateLoop_cons_none]
    exact ih
  | some pool :: pre, h => by
    have ih := Allocator.deallocateLoop_append_events ops memoryTracking ptr size rest pre
      (fun ⟨p, hp, hc⟩ => h ⟨p, List.mem_cons_of_mem _ hp, hc⟩)
    have hpool : ¬ pool.claims ops ptr :=
      fun hc => h ⟨some pool, List.mem_cons_self _ _, pool, rfl, hc⟩
    rw [List.cons_append, Allocator.deallocateLoop_cons_some, if_neg hpool,
      Allocator.deallocateLoop_cons_some, if_neg hpool]
    simp only [ih, List.append_assoc]

/-- The calls of the ledger made by the loop of `Allocator::deallocate` when the first
block that has `ptr` in range is known: the single `release` on that block. -/
theorem Allocator.deallocateLoop_ledger_calls (ops : MemorySlotsOps L) (tracking : Nat)
    (poolsPre poolsPost : List (Option (MemoryBlocks L)))
    (pool : MemoryBlocks L) (pre post : List (MemoryBlock L)) (b0 : MemoryBlock L)
    (ptr size : Nat) (hblocks : pool.memoryBlocks = pre ++ b0 :: post)
    (hin : b0.inRange ops ptr)
    (hA : ∀ b ∈ allBlocks poolsPre, ¬ b.inRange ops ptr)
    (hpre : ∀ b ∈ pre, ¬ b.inRange ops ptr) :
    (Allocator.deallocateLoop ops tracking (poolsPre ++ some pool :: poolsPost)
        ptr size).2.2.filter (fun e => !e.isCout) =
      [Event.release b0.memory (ptr - b0.memory) size] := by
  have hpoolsPre : ¬ poolsClaim ops poolsPre ptr := poolsClaim_of_allBlocks ops poolsPre ptr hA
  have hclaims : pool.claims ops ptr := by
    unfold MemoryBlocks.claims
    rw [hblocks]
    exact ⟨b0, by simp, hin⟩
  have hnone := Allocator.deallocateLoop_none ops tracking ptr size poolsPre hpoolsPre
  have hprefix : (Allocator.deallocateLoop ops tracking poolsPre ptr size).2.2.filter
      (fun e => !e.isCout) = [] := by
    rw [List.filter_eq_nil_iff]
    intro e he
    simp [hnone.2.2.1 e he]
  rw [Allocator.deallocateLoop_append_events ops tracking ptr size _ poolsPre hpoolsPre,
    List.filter_append, hprefix, Allocator.deallocateLoop_cons_some, if_pos hclaims,
    MemoryBlocks.pool_deallocate_eq, if_pos hclaims]
  simp only
  rw [hblocks, MemoryBlocks.pool_deallocateLoop_first ops ptr size b0 post hin pre hpre,
    MemoryBlock.deallocate_inRange ops b0 ptr size hin]
  by_cases hrel : (ops.release b0.memorySlots (ptr - b0.memory) size).1 = true <;>
    by_cases ht : reportActions tracking = true <;>
    simp [hrel, ht, Event.isCout]

theorem filter_isRelease_of_cout (t : List Event) (h : ∀ e ∈ t, e.isCout = true) :
    t.filter Event.isRelease = [] := by
  rw [List.filter_eq_nil_iff]
  intro e he
  have h1 := h e he
  cases e <;> simp [Event.isCout, Event.isRelease] at h1 ⊢

theorem filter_isRelease_of_ledger_calls (t : List Event) (e0 : Event)
    (h : t.filter (fun e => !e.isCout) = [e0]) : (t.filter Event.isRelease).length ≤ 1 := by
  have h1 : t.filter Event.isRelease = (t.filter (fun e => !e.isCout)).filter Event.isRelease := by
    rw [List.filter_filter]
    congr 1
    funext e
    cases e <;> simp [Event.isCout, Event.isRelease]
  rw [h1, h]
  by_cases h0 : e0.isRelease = true <;> simp [h0]

/-- A returned `Allocator::deallocate` made at most one call of `release`, the nested
allocators included. -/
theorem Allocator.deallocate_release_count (ops : MemorySlotsOps L) (ptr size : Nat) :
    ∀ (a a1 : Allocator L) (r : Bool) (t : List Event),
      a.deallocate ops ptr size = Outcome.returned (r, a1, t) →
      (t.filter Event.isRelease).length ≤ 1
  | Allocator.mk nested pools tracking locked, a1, r, t, h => by
    cases locked with
    | true => simp [Allocator.deallocate] at h
    | false =>
      rw [Allocator.deallocate_eq] at h
      by_cases hc : poolsClaim ops pools ptr
      · rw [if_pos hc] at h
        simp only [Outcome.returned.injEq, Prod.mk.injEq] at h
        obtain ⟨_, _, ht⟩ := h
        subst ht
        obtain ⟨b, hb, hin⟩ : ∃ b ∈ allBlocks pools, b.inRange ops ptr := by
          obtain ⟨p, hp, pool, rfl, b, hb, hin⟩ := hc
          exact ⟨b, List.mem_flatMap.mpr ⟨some pool, hp, hb⟩, hin⟩
        obtain ⟨poolsPre, pool, poolsPost, h1, h2, h3⟩ :=
          first_claiming_pool_split ops ptr pools ⟨b, hb, hin⟩
        obtain ⟨pre, b0, post, h4, h5, h6⟩ :=
          MemoryBlocks.first_inRange_split ops ptr pool.memoryBlocks h3
        rw [h1]
        exact filter_isRelease_of_ledger_calls _ _
          (Allocator.deallocateLoop_ledger_calls ops tracking poolsPre poolsPost pool pre post b0
            ptr size h4 h6 h2 h5)
      · rw [if_neg hc] at h
        have hnone := Allocator.deallocateLoop_none ops tracking ptr size pools hc
        have h0 := filter_isRelease_of_cout _ hnone.2.2.1
        cases nested with
        | none =>
          simp only [Outcome.returned.injEq, Prod.mk.injEq] at h
          obtain ⟨_, _, ht⟩ := h
          subst ht
          rw [h0]
          simp
        | some b =>
          simp only at h
          cases hb : Allocator.deallocate ops b ptr size with
          | returned x =>
            rcases x with ⟨rb, b1, tb⟩
            rw [hb] at h
            simp only [Outcome.map, Outcome.returned.injEq, Prod.mk.injEq] at h
            obtain ⟨_, _, ht⟩ := h
            subst ht
            rw [List.filter_append, h0, List.nil_append]
            exact Allocator.deallocate_release_count ops ptr size b b1 rb tb hb
          | blocked => rw [hb] at h; simp [Outcome.map] at h
          | undefined => rw [hb] at h; simp [Outcome.map] at h
          | outOfFuel => rw [hb] at h; simp [Outcome.map] at h

/-- C19. One `Allocator::deallocate(ptr, size)` on an allocator whose mutex is free.
If no block of its pools has `ptr` in range, the loop over its pools calls no ledger
and every call that returns leaves its pools as they were. If some block has `ptr` in
range, the blocks split at the first such block, in category order and then block
creation order; the call returns `true`; the only call of a ledger is
`release(ptr - base, size)` on that block (the blocks searched before it are rejected
without any call of their ledger, the blocks after it are not visited); and every other
block of every pool, and the nested allocator, are left unchanged. In every case at
most one `release` is called, the nested allocators included. -/
theorem Allocator.deallocate_single_release (ops : MemorySlotsOps L) (a : Allocator L)
    (ptr size : Nat) (hfree : a.mutexLocked = false) :
    ((∀ b ∈ allBlocks a.allocatorMemoryBlocks, ¬ b.inRange ops ptr) →
      (Allocator.deallocateLoop ops a.memoryTracking a.allocatorMemoryBlocks
        ptr size).2.2.filter (fun e => !e.isCout) = [] ∧
      ∀ (r : Bool) (a1 : Allocator L) (t : List Event),
        a.deallocate ops ptr size = Outcome.returned (r, a1, t) →
        a1.allocatorMemoryBlocks = a.allocatorMemoryBlocks) ∧
    ((∃ b ∈ allBlocks a.allocatorMemoryBlocks, b.inRange ops ptr) →
      ∃ (poolsPre poolsPost : List (Option (MemoryBlocks L))) (pool : MemoryBlocks L)
        (pre post : List (MemoryBlock L)) (b0 : MemoryBlock L) (t : List Event),
        a.allocatorMemoryBlocks = poolsPre ++ some pool :: poolsPost ∧
        pool.memoryBlocks = pre ++ b0 :: post ∧
        (∀ b ∈ allBlocks poolsPre, ¬ b.inRange ops ptr) ∧
        (∀ b ∈ pre, ¬ b.inRange ops ptr) ∧
        b0.inRange ops ptr ∧
        a.deallocate ops ptr size =
          Outcome.returned (true,
            Allocator.mk a.nestedAllocator
              (poolsPre ++
                some ⟨pool.name, pool.blockSize,
                  pre ++ ⟨b0.memory, (ops.release b0.memorySlots (ptr - b0.memory) size).2⟩ ::
                    post⟩ :: poolsPost)
              a.memoryTracking false, t) ∧
        t.filter (fun e => !e.isCout) = [Event.release b0.memory (ptr - b0.memory) size]) ∧
    (∀ (r : Bool) (a1 : Allocator L) (t : List Event),
      a.deallocate ops ptr size = Outcome.returned (r, a1, t) →
      (t.filter Event.isRelease).length ≤ 1) := by
  cases a with
  | mk nested pools tracking locked =>
    simp only [Allocator.mutexLocked] at hfree
    subst hfree
    simp only [Allocator.allocatorMemoryBlocks, Allocator.memoryTracking,
      Allocator.nestedAllocator]
    refine ⟨?_, ?_, ?_⟩
    · intro hno
      have hnc := poolsClaim_of_allBlocks ops pools ptr hno
      have hnone := Allocator.deallocateLoop_none ops tracking ptr size pools hnc
      constructor
      · rw [List.filter_eq_nil_iff]
        intro e he
        simp [hnone.2.2.1 e he]
      · intro r a1 t h
        rw [Allocator.deallocate_eq, if_neg hnc] at h
        cases nested with
        | none =>
          simp only [Outcome.returned.injEq, Prod.mk.injEq] at h
          rw [← h.2.1]
        | some b =>
          simp only at h
          cases hb : Allocator.deallocate ops b ptr size with
          | returned x =>
            rw [hb] at h
            simp only [Outcome.map, Outcome.returned.injEq, Prod.mk.injEq] at h
            rw [← h.2.1]
          | blocked => rw [hb] at h; simp [Outcome.map] at h
          | undefined => rw [hb] at h; simp [Outcome.map] at h
          | outOfFuel => rw [hb] at h; simp [Outcome.map] at h
    · intro hyes
      obtain ⟨poolsPre, pool, poolsPost, h1, h2, h3⟩ :=
        first_claiming_pool_split ops ptr pools hyes
      obtain ⟨pre, b0, post, h4, h5, h6⟩ :=
        MemoryBlocks.first_inRange_split ops ptr pool.memoryBlocks h3
      obtain ⟨t, ht⟩ := Allocator.deallocate_at ops nested tracking poolsPre poolsPost pool
        pre post b0 ptr size h4 h6 h2 h5
      have hcalls := Allocator.deallocateLoop_ledger_calls ops tracking poolsPre poolsPost pool
        pre post b0 ptr size h4 h6 h2 h5
      have hclaim : poolsClaim ops (poolsPre ++ some pool :: poolsPost) ptr :=
        ⟨some pool, by simp, pool, rfl, h3⟩
      have ht2 := ht
      rw [Allocator.deallocate_eq, if_pos hclaim] at ht2
      simp only [Outcome.returned.injEq, Prod.mk.injEq, true_and] at ht2
      refine ⟨poolsPre, poolsPost, pool, pre, post, b0, t, h1, h4, h2, h5, h6, ?_, ?_⟩
      · rw [h1]; exact ht
      · rw [← ht2.2]; exact hcalls
    · intro r a1 t h
      exact Allocator.deallocate_release_count ops ptr size _ a1 r t h

/-- C19, on `outerAllocator`: `deallocate(70000, 32)` is served by the block of the
DATA pool; its only call of a ledger is `release(0, 32)` on that block. -/
theorem Allocator.deallocate_single_release_witness :
    outerAllocator.mutexLocked = false ∧
    (∃ b ∈ allBlocks outerAllocator.allocatorMemoryBlocks, b.inRange SimpleSlots.ops 70000) ∧
    (∀ (r : Bool) (a1 : Allocator SimpleSlots) (t : List Event),
      outerAllocator.deallocate SimpleSlots.ops 70000 32 = Outcome.returned (r, a1, t) →
      (t.filter Event.isRelease).length ≤ 1) ∧
    (outerAllocator.deallocate SimpleSlots.ops 70000 32).events? =
      some [Event.release 70000 0 32] :=
  ⟨rfl, by decide,
    (Allocator.deallocate_single_release SimpleSlots.ops outerAllocator 70000 32 rfl).2.2,
    by decide⟩

/-! ## A pointer released twice: what the second call does -/

/-- C14. Reporting is read-only. On an allocator whose mutex is free, `Allocator::report`
returns and leaves the allocator exactly as it was (every pool, every block list, every
ledger state: the ledgers are only read, through `totalReservedSize()` and
`maximumAvailableSpace()`), and performs no event; so a second `report` made right
after it writes the same text, from the same state. -/
theorem Allocator.report_read_only (ops : MemorySlotsOps L) (a : Allocator L)
    (hfree : a.mutexLocked = false) :
    ∃ text : List OutItem,
      a.report ops = Outcome.returned (text, a, []) ∧
      ∀ a1 : Allocator L, (a.report ops).state? = some a1 →
        a1 = a ∧ a1.report ops = Outcome.returned (text, a1, []) ∧
        (allBlocks a1.allocatorMemoryBlocks).map
            (fun b => (ops.totalReservedSize b.memorySlots,
              ops.maximumAvailableSpace b.memorySlots)) =
          (allBlocks a.allocatorMemoryBlocks).map
            (fun b => (ops.totalReservedSize b.memorySlots,
              ops.maximumAvailableSpace b.memorySlots)) := by
  cases a with
  | mk nested pools tracking locked =>
    simp only [Allocator.mutexLocked] at hfree
    subst hfree
    refine ⟨_, rfl, ?_⟩
    intro a1 h1
    simp only [Allocator.report, Bool.false_eq_true, if_false, Outcome.state?,
      Option.some.injEq] at h1
    subst h1
    exact ⟨rfl, rfl, rfl⟩

/-- C14, on `scenarioTwoCategories`: the report leaves the state as it is and a second
report writes the same text. -/
theorem Allocator.report_read_only_witness :
    scenarioTwoCategories.mutexLocked = false ∧
    ∃ text : List OutItem,
      scenarioTwoCategories.report SimpleSlots.ops =
        Outcome.returned (text, scenarioTwoCategories, []) ∧
      ∀ a1 : Allocator SimpleSlots,
        (scenarioTwoCategories.report SimpleSlots.ops).state? = some a1 →
        a1 = scenarioTwoCategories ∧
        a1.report SimpleSlots.ops = Outcome.returned (text, a1, []) ∧
        (allBlocks a1.allocatorMemoryBlocks).map
            (fun b => (SimpleSlots.ops.totalReservedSize b.memorySlots,
              SimpleSlots.ops.maximumAvailableSpace b.memorySlots)) =
          (allBlocks scenarioTwoCategories.allocatorMemoryBlocks).map
            (fun b => (SimpleSlots.ops.totalReservedSize b.memorySlots,
              SimpleSlots.ops.maximumAvailableSpace b.memorySlots)) :=
  ⟨rfl, Allocator.report_read_only SimpleSlots.ops scenarioTwoCategories rfl⟩

/-- The inner loop of `Allocator::report` writes one bracketed pair per block, in
order. -/
theorem Allocator.reportBlocks_eq (ops : MemorySlotsOps L) :
    ∀ blocks : List (MemoryBlock L),
      Allocator.reportBlocks ops blocks =
        blocks.flatMap (fun b =>
          [OutItem.text ", [", OutItem.number (ops.totalReservedSize b.memorySlots),
            OutItem.text ", ", OutItem.number (ops.maximumAvailableSpace b.memorySlots),
            OutItem.text "]"])
  | [] => rfl
  | b :: rest => by
    rw [Allocator.reportBlocks, Allocator.reportBlocks_eq ops rest, List.flatMap_cons]

/-- The outer loop of `Allocator::report` writes one line per non-null pool, in
order. -/
theorem Allocator.reportPools_eq (ops : MemorySlotsOps L) :
    ∀ pools : List (Option (MemoryBlocks L)),
      Allocator.reportPools ops pools =
        (pools.filterMap id).flatMap (fun pool =>
          [OutItem.text "    ", OutItem.text pool.name] ++
            Allocator.reportBlocks ops pool.memoryBlocks ++ [OutItem.endl])
  | [] => rfl
  | none :: rest => by
    rw [Allocator.reportPools, Allocator.reportPools_eq ops rest]
    rfl
  | some pool :: rest => by
    rw [Allocator.reportPools, Allocator.reportPools_eq ops rest]
    simp [List.filterMap_cons, List.flatMap_cons]

theorem Allocator.reportBlocks_count (ops : MemorySlotsOps L) :
    ∀ blocks : List (MemoryBlock L),
      (Allocator.reportBlocks ops blocks).count OutItem.endl = 0 ∧
      (Allocator.reportBlocks ops blocks).count (OutItem.text ", [") = blocks.length ∧
      (Allocator.reportBlocks ops blocks).count (OutItem.text "]") = blocks.length
  | [] => ⟨rfl, rfl, rfl⟩
  | b :: rest => by
    obtain ⟨h1, h2, h3⟩ := Allocator.reportBlocks_count ops rest
    rw [Allocator.reportBlocks]
    simp only [List.count_append, h1, h2, h3, List.length_cons]
    refine ⟨?_, ?_, ?_⟩
    · simp [List.count_cons]
    · simp [List.count_cons]
      omega
    · simp [List.count_cons]
      omega

theorem Allocator.reportPools_lines (ops : MemorySlotsOps L) :
    ∀ pools : List (Option (MemoryBlocks L)),
      (Allocator.reportPools ops pools).count OutItem.endl = (pools.filterMap id).length
  | [] => rfl
  | none :: rest => by
    rw [Allocator.reportPools, Allocator.reportPools_lines ops rest]
    rfl
  | some pool :: rest => by
    rw [Allocator.reportPools]
    simp only [List.count_append, Allocator.reportPools_lines ops rest,
      (Allocator.reportBlocks_count ops pool.memoryBlocks).1]
    simp [List.count_cons]
    omega

/-- C16. Report structure. On an allocator whose mutex is free, the text written by
`Allocator::report` is a header line (`Allocator::report() ` and the number of entries
of `allocatorMemoryBlocks`) followed by exactly one line per pool (non-null entry), in
category order; the line of a pool is its name followed by exactly one bracketed pair
`[totalReservedSize, maximumAvailableSpace]` per block of the pool, in block creation
order, and ends with `std::endl`. So the text has one `std::endl` per pool after the one
of the header, and the pairs of a pool hold no `std::endl` and as many opening and
closing brackets as the pool has blocks. -/
theorem Allocator.report_structure (ops : MemorySlotsOps L) (a : Allocator L)
    (hfree : a.mutexLocked = false) :
    (a.report ops).value? =
      some ([OutItem.text "Allocator::report() ", OutItem.number a.allocatorMemoryBlocks.length,
          OutItem.endl] ++
        (a.allocatorMemoryBlocks.filterMap id).flatMap (fun pool =>
          [OutItem.text "    ", OutItem.text pool.name] ++
            pool.memoryBlocks.flatMap (fun b =>
              [OutItem.text ", [", OutItem.number (ops.totalReservedSize b.memorySlots),
                OutItem.text ", ", OutItem.number (ops.maximumAvailableSpace b.memorySlots),
                OutItem.text "]"]) ++
            [OutItem.endl])) ∧
    (a.report ops).value?.map (fun text => text.count OutItem.endl) =
      some (1 + (a.allocatorMemoryBlocks.filterMap id).length) ∧
    ∀ blocks : List (MemoryBlock L),
      (blocks.flatMap (fun b =>
        [OutItem.text ", [", OutItem.number (ops.totalReservedSize b.memorySlots),
          OutItem.text ", ", OutItem.number (ops.maximumAvailableSpace b.memorySlots),
          OutItem.text "]"])).count OutItem.endl = 0 ∧
      (blocks.flatMap (fun b =>
        [OutItem.text ", [", OutItem.number (ops.totalReservedSize b.memorySlots),
          OutItem.text ", ", OutItem.number (ops.maximumAvailableSpace b.memorySlots),
          OutItem.text "]"])).count (OutItem.text ", [") = blocks.length ∧
      (blocks.flatMap (fun b =>
        [OutItem.text ", [", OutItem.number (ops.totalReservedSize b.memorySlots),
          OutItem.text ", ", OutItem.number (ops.maximumAvailableSpace b.memorySlots),
          OutItem.text "]"])).count (OutItem.text "]") = blocks.length := by
  cases a with
  | mk nested pools tracking locked =>
    simp only [Allocator.mutexLocked] at hfree
    subst hfree
    simp only [Allocator.allocatorMemoryBlocks]
    refine ⟨?_, ?_, ?_⟩
    · simp only [Allocator.report, Bool.false_eq_true, if_false, Outcome.value?]
      rw [Allocator.reportPools_eq]
      simp only [Allocator.reportBlocks_eq]
    · simp only [Allocator.report, Bool.false_eq_true, if_false, Outcome.value?, Option.map_some',
        List.count_append, Allocator.reportPools_lines]
      simp [List.count_cons]
    · intro blocks
      have h := Allocator.reportBlocks_count ops blocks
      rw [Allocator.reportBlocks_eq] at h
      exact h

/-- C16, on `scenarioTwoCategories`: a header line and three lines, the first two with
one pair each, the third with none. -/
theorem Allocator.report_structure_witness :
    scenarioTwoCategories.mutexLocked = false ∧
    (scenarioTwoCategories.report SimpleSlots.ops).value? =
      some [OutItem.text "Allocator::report() ", OutItem.number 3, OutItem.endl,
        OutItem.text "    ", OutItem.text "ALLOCATOR_OBJECTS",
        OutItem.text ", [", OutItem.number 100, OutItem.text ", ", OutItem.number 40860,
        OutItem.text "]", OutItem.endl,
        OutItem.text "    ", OutItem.text "ALLOCATOR_DATA",
        OutItem.text ", [", OutItem.number 50, OutItem.text ", ", OutItem.number 20430,
        OutItem.text "]", OutItem.endl,
        OutItem.text "    ", OutItem.text "ALLOCATOR_NODES", OutItem.endl] ∧
    (scenarioTwoCategories.report SimpleSlots.ops).value?.map
        (fun text => text.count OutItem.endl) = some 4 := by
  have h := Allocator.report_structure SimpleSlots.ops scenarioTwoCategories rfl
  refine ⟨rfl, ?_, ?_⟩
  · rw [h.1]
    decide
  · rw [h.2.1]
    rfl

/-! ## ComputePipeline::Implementation::create -/

/-- C20. `ComputePipeline::Implementation::create` returns an error result with code
`VK_ERROR_INVALID_EXTERNAL_HANDLE` without calling `vkCreateComputePipelines` if and
only if at least one of `device`, `pipelineLayout`, `shaderStage` is null. When none is
null it calls `vkCreateComputePipelines` exactly once, for the handle of the device and
a create info that holds the handle of the layout, and it returns a pipeline
implementation (holding the pipeline handle the call wrote) exactly when the call
reports `VK_SUCCESS`, and an error result carrying the `VkResult` of the call in every
other case. -/
theorem ComputePipeline.create_result
    (vkCreateComputePipelines :
      Nat → ComputePipeline.VkComputePipelineCreateInfo → Option Nat → Int × Nat)
    (device : Option ComputePipeline.Device)
    (pipelineLayout : Option ComputePipeline.PipelineLayout)
    (shaderStage : Option ComputePipeline.ShaderStage) (allocator : Option Nat) :
    (((ComputePipeline.create vkCreateComputePipelines device pipelineLayout shaderStage
          allocator).1.code? = some ComputePipeline.VK_ERROR_INVALID_EXTERNAL_HANDLE ∧
        (ComputePipeline.create vkCreateComputePipelines device pipelineLayout shaderStage
          allocator).2 = []) ↔
      (device = none ∨ pipelineLayout = none ∨ shaderStage = none)) ∧
    (∀ (dev : ComputePipeline.Device) (layout : ComputePipeline.PipelineLayout)
        (stage : ComputePipeline.ShaderStage),
      device = some dev → pipelineLayout = some layout → shaderStage = some stage →
      ∃ info : ComputePipeline.VkComputePipelineCreateInfo,
        (ComputePipeline.create vkCreateComputePipelines device pipelineLayout shaderStage
          allocator).2 = [info] ∧
        info.layout = layout.handle ∧
        ((ComputePipeline.create vkCreateComputePipelines device pipelineLayout shaderStage
            allocator).1.isValue = true ↔
          (vkCreateComputePipelines dev.handle info allocator).1 =
            ComputePipeline.VK_SUCCESS) ∧
        ((vkCreateComputePipelines dev.handle info allocator).1 =
            ComputePipeline.VK_SUCCESS →
          ∃ impl : ComputePipeline.Implementation,
            (ComputePipeline.create vkCreateComputePipelines device pipelineLayout shaderStage
              allocator).1 = ComputePipeline.Result.value impl ∧
            impl._pipeline = (vkCreateComputePipelines dev.handle info allocator).2) ∧
        ((vkCreateComputePipelines dev.handle info allocator).1 ≠
            ComputePipeline.VK_SUCCESS →
          (ComputePipeline.create vkCreateComputePipelines device pipelineLayout shaderStage
            allocator).1.code? =
            some (vkCreateComputePipelines dev.handle info allocator).1)) := by
  constructor
  · cases device with
    | none => simp [ComputePipeline.create, ComputePipeline.Result.code?]
    | some dev =>
      cases pipelineLayout with
      | none => simp [ComputePipeline.create, ComputePipeline.Result.code?]
      | some layout =>
        cases shaderStage with
        | none => simp [ComputePipeline.create, ComputePipeline.Result.code?]
        | some stage =>
          simp only [ComputePipeline.create, reduceCtorEq, or_self, iff_false, not_and]
          intro _
          split <;> simp
  · intro dev layout stage hd hl hs
    subst hd hl hs
    simp only [ComputePipeline.create]
    generalize hinfo : (⟨ComputePipeline.VK_STRUCTURE_TYPE_COMPUTE_PIPELINE_CREATE_INFO, 0, 0,
      (match stage.getSpecializationMapEntries.isEmpty, stage.getSpecializationData with
        | false, some data =>
          (stage.apply (ComputePipeline.emptyStageInfo.setNext 0)).setSpecializationInfo
            ⟨stage.getSpecializationMapEntries.length, stage.getSpecializationMapEntries,
              data.dataSize, data.dataPointer⟩
        | _, _ => stage.apply (ComputePipeline.emptyStageInfo.setNext 0)),
      layout.handle, ComputePipeline.VK_NULL_HANDLE, 0⟩ :
        ComputePipeline.VkComputePipelineCreateInfo) = info
    have hlay : info.layout = layout.handle := by rw [← hinfo]
    refine ⟨info, ?_, hlay, ?_, ?_, ?_⟩
    · split <;> rfl
    · by_cases h : (vkCreateComputePipelines dev.handle info allocator).1 =
          ComputePipeline.VK_SUCCESS
      · simp [h, ComputePipeline.Result.isValue]
      · simp [h, ComputePipeline.Result.isValue]
    · intro h
      simp [h]
    · intro h
      simp [h, ComputePipeline.Result.code?]

/-! ## The mutex -/

/-- A call of `Allocator::allocate`, `Allocator::deallocate` or `Allocator::report` made
while the mutex is held does not proceed: it waits for the mutex. -/
theorem Allocator.locked_call_waits (ops : MemorySlotsOps L) (malloc : Nat → Nat)
    (nested : Option (Allocator L)) (pools : List (Option (MemoryBlocks L)))
    (tracking size ptr fuel : Nat) (allocatorType : AllocatorType) :
    Allocator.allocate ops malloc (fuel + 1) (Allocator.mk nested pools tracking true) size
        allocatorType = Outcome.blocked ∧
    Allocator.deallocate ops (Allocator.mk nested pools tracking true) ptr size =
      Outcome.blocked ∧
    Allocator.report ops (Allocator.mk nested pools tracking true) = Outcome.blocked := by
  refine ⟨?_, ?_, ?_⟩
  · rw [Allocator.allocate_locked]
    simp
  · simp [Allocator.deallocate]
  · simp [Allocator.report]

/-- C17 (the code at the failing input). On the default-constructed allocator, whose
mutex is free and which has no nested allocator, a request of 100 bytes under OBJECTS
for which `std::malloc` refuses the buffer: the pool gives null, its state after the
attempt is the one written below, and the call `Allocator::allocate(size,
allocatorType)` that `Allocator::allocate` then makes on that state finds the mutex
held by the caller itself and waits for it, so the outer call waits as well. -/
theorem Allocator.allocate_waits_for_own_mutex :
    defaultAllocator.mutexLocked = false ∧
    defaultAllocator.nestedAllocator = none ∧
    Allocator.poolAttempt SimpleSlots.ops (fun _ => 0) defaultAllocator.allocatorMemoryBlocks
        0 100 AllocatorType.ALLOCATOR_OBJECTS (some ⟨"ALLOCATOR_OBJECTS", 4096 * 10, []⟩) =
      (0,
        [some ⟨"ALLOCATOR_OBJECTS", 40960, [⟨0, ⟨40960, [(0, 100)], 0⟩⟩]⟩,
         some ⟨"ALLOCATOR_DATA", 20480, []⟩,
         some ⟨"ALLOCATOR_NODES", 5120, []⟩],
        [Event.malloc 40960, Event.reserve 0 100 4]) ∧
    Allocator.allocate SimpleSlots.ops (fun _ => 0) 1
        (Allocator.mk none
          [some ⟨"ALLOCATOR_OBJECTS", 40960, [⟨0, ⟨40960, [(0, 100)], 0⟩⟩]⟩,
           some ⟨"ALLOCATOR_DATA", 20480, []⟩,
           some ⟨"ALLOCATOR_NODES", 5120, []⟩] 0 true)
        100 AllocatorType.ALLOCATOR_OBJECTS = Outcome.blocked ∧
    Allocator.allocate SimpleSlots.ops (fun _ => 0) 2 defaultAllocator 100
        AllocatorType.ALLOCATOR_OBJECTS = Outcome.blocked := by
  refine ⟨rfl, rfl, ?_, rfl, rfl⟩
  decide

/-! ## Tracking flags are observational -/

theorem externalCalls_append (t1 t2 : List Event) :
    externalCalls (t1 ++ t2) = externalCalls t1 ++ externalCalls t2 := by
  simp [externalCalls]

theorem externalCalls_gated (c : Bool) (line : String) :
    externalCalls (if c then [Event.cout line] else []) = [] := by
  cases c <;> simp [externalCalls, Event.isCout]

theorem MemoryBlock.construct_calls (ops : MemorySlotsOps L) (malloc : Nat → Nat)
    (blockSize memoryTracking : Nat) :
    externalCalls (MemoryBlock.construct ops malloc blockSize memoryTracking).2 =
      [Event.malloc blockSize] := by
  unfold MemoryBlock.construct externalCalls
  by_cases h : reportActions (ops.memoryTracking (ops.create blockSize memoryTracking)) = true <;>
    simp [h, Event.isCout]

theorem MemoryBlock.block_allocate_agree (ops : MemorySlotsOps L) (same : L → L → Prop)
    (hT : TrackingIndependent ops same) (b1 b2 : MemoryBlock L) (size : Nat)
    (h : b1.sameButTracking same b2) :
    (b1.allocate ops size).1 = (b2.allocate ops size).1 ∧
      (b1.allocate ops size).2.1.sameButTracking same (b2.allocate ops size).2.1 ∧
      (b1.allocate ops size).2.2 = (b2.allocate ops size).2.2 := by
  obtain ⟨hm, hs⟩ := h
  obtain ⟨hr, hs1⟩ := hT.reserve b1.memorySlots b2.memorySlots size 4 hs
  rw [MemoryBlock.block_allocate_eq, MemoryBlock.block_allocate_eq, hr, hm]
  exact ⟨rfl, ⟨rfl, hs1⟩, rfl⟩

theorem MemoryBlock.inRange_agree (ops : MemorySlotsOps L) (same : L → L → Prop)
    (hT : TrackingIndependent ops same) (b1 b2 : MemoryBlock L) (ptr : Nat)
    (h : b1.sameButTracking same b2) : b1.inRange ops ptr ↔ b2.inRange ops ptr := by
  obtain ⟨hm, hs⟩ := h
  unfold MemoryBlock.inRange
  rw [hm, hT.totalMemorySize _ _ hs]

theorem MemoryBlock.block_deallocate_agree (ops : MemorySlotsOps L) (same : L → L → Prop)
    (hT : TrackingIndependent ops same) (b1 b2 : MemoryBlock L) (ptr size : Nat)
    (h : b1.sameButTracking same b2) :
    (b1.deallocate ops ptr size).1 = (b2.deallocate ops ptr size).1 ∧
      (b1.deallocate ops ptr size).2.1.sameButTracking same (b2.deallocate ops ptr size).2.1 ∧
      (b1.deallocate ops ptr size).2.2 = (b2.deallocate ops ptr size).2.2 := by
  have hiff := MemoryBlock.inRange_agree ops same hT b1 b2 ptr h
  obtain ⟨hm, hs⟩ := h
  by_cases hin : b1.inRange ops ptr
  · obtain ⟨hr, hs1⟩ := hT.release b1.memorySlots b2.memorySlots (ptr - b1.memory) size hs
    rw [MemoryBlock.deallocate_inRange ops b1 ptr size hin,
      MemoryBlock.deallocate_inRange ops b2 ptr size (hiff.mp hin), ← hm, ← hr]
    exact ⟨rfl, ⟨rfl, hs1⟩, rfl⟩
  · rw [MemoryBlock.deallocate_not_inRange ops b1 ptr size hin,
      MemoryBlock.deallocate_not_inRange ops b2 ptr size (fun h2 => hin (hiff.mpr h2))]
    exact ⟨rfl, ⟨hm, hs⟩, rfl⟩

theorem MemoryBlocks.allocateLoop_agree (ops : MemorySlotsOps L) (same : L → L → Prop)
    (hT : TrackingIndependent ops same) (size : Nat) (blocks1 blocks2 : List (MemoryBlock L))
    (h : List.Forall₂ (MemoryBlock.sameButTracking same) blocks1 blocks2) :
    (MemoryBlocks.allocateLoop ops blocks1 size).1 =
        (MemoryBlocks.allocateLoop ops blocks2 size).1 ∧
      List.Forall₂ (MemoryBlock.sameButTracking same)
        (MemoryBlocks.allocateLoop ops blocks1 size).2.1
        (MemoryBlocks.allocateLoop ops blocks2 size).2.1 ∧
      (MemoryBlocks.allocateLoop ops blocks1 size).2.2 =
        (MemoryBlocks.allocateLoop ops blocks2 size).2.2 := by
  induction h with
  | nil => exact ⟨rfl, List.Forall₂.nil, rfl⟩
  | cons hb _ ih =>
    rename_i b1 b2 rest1 rest2 hrest
    obtain ⟨hp, hb1, _⟩ := MemoryBlock.block_allocate_agree ops same hT b1 b2 size hb
    obtain ⟨ih1, ih2, ih3⟩ := ih
    rw [MemoryBlocks.pool_allocateLoop_cons, MemoryBlocks.pool_allocateLoop_cons, hp, hb.1]
    by_cases h0 : (b2.allocate ops size).1 ≠ 0
    · rw [if_pos h0, if_pos h0]
      exact ⟨rfl, List.Forall₂.cons hb1 hrest, rfl⟩
    · rw [if_neg h0, if_neg h0]
      exact ⟨ih1, List.Forall₂.cons hb1 ih2, by rw [ih3]⟩

theorem MemoryBlocks.pool_deallocateLoop_agree (ops : MemorySlotsOps L) (same : L → L → Prop)
    (hT : TrackingIndependent ops same) (ptr size : Nat)
    (blocks1 blocks2 : List (MemoryBlock L))
    (h : List.Forall₂ (MemoryBlock.sameButTracking same) blocks1 blocks2) :
    (MemoryBlocks.deallocateLoop ops blocks1 ptr size).1 =
        (MemoryBlocks.deallocateLoop ops blocks2 ptr size).1 ∧
      List.Forall₂ (MemoryBlock.sameButTracking same)
        (MemoryBlocks.deallocateLoop ops blocks1 ptr size).2.1
        (MemoryBlocks.deallocateLoop ops blocks2 ptr size).2.1 ∧
      (MemoryBlocks.deallocateLoop ops blocks1 ptr size).2.2 =
        (MemoryBlocks.deallocateLoop ops blocks2 ptr size).2.2 := by
  induction h with
  | nil => exact ⟨rfl, List.Forall₂.nil, rfl⟩
  | cons hb _ ih =>
    rename_i b1 b2 rest1 rest2 hrest
    have hiff := MemoryBlock.inRange_agree ops same hT b1 b2 ptr hb
    obtain ⟨_, hb1, hev⟩ := MemoryBlock.block_deallocate_agree ops same hT b1 b2 ptr size hb
    obtain ⟨ih1, ih2, ih3⟩ := ih
    rw [MemoryBlocks.pool_deallocateLoop_cons, MemoryBlocks.pool_deallocateLoop_cons]
    by_cases hin : b1.inRange ops ptr
    · rw [if_pos hin, if_pos (hiff.mp hin)]
      exact ⟨rfl, List.Forall₂.cons hb1 hrest, hev⟩
    · rw [if_neg hin, if_neg (fun h2 => hin (hiff.mpr h2))]
      exact ⟨ih1, List.Forall₂.cons hb ih2, ih3⟩

theorem MemoryBlocks.claims_agree (ops : MemorySlotsOps L) (same : L → L → Prop)
    (hT : TrackingIndependent ops same) (ptr : Nat) (p1 p2 : MemoryBlocks L)
    (h : p1.sameButTracking same p2) : p1.claims ops ptr ↔ p2.claims ops ptr := by
  have h1 := (MemoryBlocks.pool_deallocateLoop_agree ops same hT ptr 0 _ _ h.2.2).1
  unfold MemoryBlocks.claims
  rw [← MemoryBlocks.pool_deallocateLoop_true_iff ops ptr 0 p1.memoryBlocks,
    ← MemoryBlocks.pool_deallocateLoop_true_iff ops ptr 0 p2.memoryBlocks, h1]

theorem MemoryBlocks.pool_allocate_agree (ops : MemorySlotsOps L) (same : L → L → Prop)
    (hT : TrackingIndependent ops same) (malloc : Nat → Nat) (t1 t2 size : Nat)
    (p1 p2 : MemoryBlocks L) (h : p1.sameButTracking same p2) :
    (p1.allocate ops malloc t1 size).1 = (p2.allocate ops malloc t2 size).1 ∧
      (p1.allocate ops malloc t1 size).2.1.sameButTracking same
        (p2.allocate ops malloc t2 size).2.1 ∧
      externalCalls (p1.allocate ops malloc t1 size).2.2 =
        externalCalls (p2.allocate ops malloc t2 size).2.2 := by
  obtain ⟨hname, hsize, hblocks⟩ := h
  obtain ⟨hl1, hl2, hl3⟩ := MemoryBlocks.allocateLoop_agree ops same hT size _ _ hblocks
  rw [MemoryBlocks.pool_allocate_eq, MemoryBlocks.pool_allocate_eq, hl1, hl3, hname, hsize]
  by_cases h0 : (MemoryBlocks.allocateLoop ops p2.memoryBlocks size).1 ≠ 0
  · rw [if_pos h0, if_pos h0]
    exact ⟨rfl, ⟨rfl, rfl, hl2⟩, rfl⟩
  · rw [if_neg h0, if_neg h0]
    have hnew : MemoryBlock.sameButTracking same
        (MemoryBlock.construct ops malloc (max size p2.blockSize) t1).1
        (MemoryBlock.construct ops malloc (max size p2.blockSize) t2).1 :=
      ⟨rfl, hT.create _ t1 t2⟩
    obtain ⟨ha1, ha2, ha3⟩ := MemoryBlock.block_allocate_agree ops same hT _ _ size hnew
    refine ⟨ha1, ⟨rfl, rfl, ?_⟩, ?_⟩
    · exact List.rel_append hl2 (List.Forall₂.cons ha2 List.Forall₂.nil)
    · simp only [externalCalls_append, ha3, MemoryBlock.construct_calls]

theorem MemoryBlocks.pool_deallocate_agree (ops : MemorySlotsOps L) (same : L → L → Prop)
    (hT : TrackingIndependent ops same) (t1 t2 ptr size : Nat)
    (p1 p2 : MemoryBlocks L) (h : p1.sameButTracking same p2) :
    (p1.deallocate ops t1 ptr size).1 = (p2.deallocate ops t2 ptr size).1 ∧
      (p1.deallocate ops t1 ptr size).2.1.sameButTracking same
        (p2.deallocate ops t2 ptr size).2.1 ∧
      externalCalls (p1.deallocate ops t1 ptr size).2.2 =
        externalCalls (p2.deallocate ops t2 ptr size).2.2 := by
  have hiff := MemoryBlocks.claims_agree ops same hT ptr p1 p2 h
  obtain ⟨hname, hsize, hblocks⟩ := h
  obtain ⟨_, hl2, hl3⟩ := MemoryBlocks.pool_deallocateLoop_agree ops same hT ptr size _ _ hblocks
  rw [MemoryBlocks.pool_deallocate_eq, MemoryBlocks.pool_deallocate_eq]
  by_cases hc : p1.claims ops ptr
  · rw [if_pos hc, if_pos (hiff.mp hc), hl3, hname, hsize]
    exact ⟨rfl, ⟨rfl, rfl, hl2⟩, rfl⟩
  · rw [if_neg hc, if_neg (fun h2 => hc (hiff.mpr h2))]
    refine ⟨rfl, ⟨hname, hsize, hblocks⟩, ?_⟩
    simp only [externalCalls_gated]

theorem Allocator.deallocateLoop_agree (ops : MemorySlotsOps L) (same : L → L → Prop)
    (hT : TrackingIndependent ops same) (t1 t2 ptr size : Nat)
    (pools1 pools2 : List (Option (MemoryBlocks L)))
    (h : List.Forall₂ (poolEntrySame same) pools1 pools2) :
    (Allocator.deallocateLoop ops t1 pools1 ptr size).1 =
        (Allocator.deallocateLoop ops t2 pools2 ptr size).1 ∧
      List.Forall₂ (poolEntrySame same)
        (Allocator.deallocateLoop ops t1 pools1 ptr size).2.1
        (Allocator.deallocateLoop ops t2 pools2 ptr size).2.1 ∧
      externalCalls (Allocator.deallocateLoop ops t1 pools1 ptr size).2.2 =
        externalCalls (Allocator.deallocateLoop ops t2 pools2 ptr size).2.2 := by
  induction h with
  | nil => exact ⟨rfl, List.Forall₂.nil, rfl⟩
  | cons hp _ ih =>
    rename_i e1 e2 rest1 rest2 hrest
    obtain ⟨ih1, ih2, ih3⟩ := ih
    cases e1 with
    | none =>
      cases e2 with
      | none =>
        rw [Allocator.deallocateLoop_cons_none, Allocator.deallocateLoop_cons_none]
        exact ⟨ih1, List.Forall₂.cons hp ih2, ih3⟩
      | some p2 => exact absurd hp (by simp [poolEntrySame])
    | some p1 =>
      cases e2 with
      | none => exact absurd hp (by simp [poolEntrySame])
      | some p2 =>
        have hp' : p1.sameButTracking same p2 := hp
        have hiff := MemoryBlocks.claims_agree ops same hT ptr p1 p2 hp'
        obtain ⟨_, hd2, hd3⟩ := MemoryBlocks.pool_deallocate_agree ops same hT t1 t2 ptr size p1 p2 hp'
        rw [Allocator.deallocateLoop_cons_some, Allocator.deallocateLoop_cons_some]
        by_cases hc : p1.claims ops ptr
        · rw [if_pos hc, if_pos (hiff.mp hc)]
          refine ⟨rfl, List.Forall₂.cons hd2 hrest, ?_⟩
          simp only [externalCalls_append, externalCalls_gated, hd3]
        · rw [if_neg hc, if_neg (fun h2 => hc (hiff.mpr h2))]
          refine ⟨ih1, List.Forall₂.cons hp ih2, ?_⟩
          simp only [externalCalls_append, hd3, ih3]

theorem Allocator.poolsClaim_agree (ops : MemorySlotsOps L) (same : L → L → Prop)
    (hT : TrackingIndependent ops same) (ptr : Nat)
    (pools1 pools2 : List (Option (MemoryBlocks L)))
    (h : List.Forall₂ (poolEntrySame same) pools1 pools2) :
    poolsClaim ops pools1 ptr ↔ poolsClaim ops pools2 ptr := by
  rw [← Allocator.deallocateLoop_true_iff ops 0 ptr 0 pools1,
    ← Allocator.deallocateLoop_true_iff ops 0 ptr 0 pools2,
    (Allocator.deallocateLoop_agree ops same hT 0 0 ptr 0 pools1 pools2 h).1]

/-- `Allocator::deallocate` on two allocators that are equal up to tracking flags: the
outcomes agree. -/
theorem Allocator.deallocate_agree (ops : MemorySlotsOps L) (same : L → L → Prop)
    (hT : TrackingIndependent ops same) (ptr size : Nat) (a b : Allocator L)
    (h : Allocator.SameButTracking same a b) :
    outcomesAgree same (a.deallocate ops ptr size) (b.deallocate ops ptr size) := by
  induction h with
  | leaf pools1 pools2 t1 t2 locked hpools =>
    cases locked with
    | true => simp [Allocator.deallocate, outcomesAgree]
    | false =>
      have hiff := Allocator.poolsClaim_agree ops same hT ptr pools1 pools2 hpools
      obtain ⟨_, hl2, hl3⟩ :=
        Allocator.deallocateLoop_agree ops same hT t1 t2 ptr size pools1 pools2 hpools
      rw [Allocator.deallocate_eq, Allocator.deallocate_eq]
      by_cases hc : poolsClaim ops pools1 ptr
      · rw [if_pos hc, if_pos (hiff.mp hc)]
        exact ⟨rfl, Allocator.SameButTracking.leaf _ _ t1 t2 false hl2, hl3⟩
      · rw [if_neg hc, if_neg (fun h2 => hc (hiff.mpr h2))]
        exact ⟨rfl, Allocator.SameButTracking.leaf _ _ t1 t2 false hpools, hl3⟩
  | wrap b1 b2 pools1 pools2 t1 t2 locked hnested hpools ih =>
    cases locked with
    | true => simp [Allocator.deallocate, outcomesAgree]
    | false =>
      have hiff := Allocator.poolsClaim_agree ops same hT ptr pools1 pools2 hpools
      obtain ⟨_, hl2, hl3⟩ :=
        Allocator.deallocateLoop_agree ops same hT t1 t2 ptr size pools1 pools2 hpools
      rw [Allocator.deallocate_eq, Allocator.deallocate_eq]
      by_cases hc : poolsClaim ops pools1 ptr
      · rw [if_pos hc, if_pos (hiff.mp hc)]
        exact ⟨rfl, Allocator.SameButTracking.wrap b1 b2 _ _ t1 t2 false hnested hl2, hl3⟩
      · rw [if_neg hc, if_neg (fun h2 => hc (hiff.mpr h2))]
        simp only
        cases hb1 : Allocator.deallocate ops b1 ptr size with
        | returned x =>
          cases hb2 : Allocator.deallocate ops b2 ptr size with
          | returned y =>
            rw [hb1, hb2] at ih
            obtain ⟨i1, i2, i3⟩ := ih
            simp only [Outcome.map, outcomesAgree]
            exact ⟨i1, Allocator.SameButTracking.wrap _ _ _ _ t1 t2 false i2 hpools,
              by simp only [externalCalls_append, hl3, i3]⟩
          | blocked => rw [hb1, hb2] at ih; exact absurd ih (by simp [outcomesAgree])
          | undefined => rw [hb1, hb2] at ih; exact absurd ih (by simp [outcomesAgree])
          | outOfFuel => rw [hb1, hb2] at ih; exact absurd ih (by simp [outcomesAgree])
        | blocked =>
          cases hb2 : Allocator.deallocate ops b2 ptr size with
          | returned y => rw [hb1, hb2] at ih; exact absurd ih (by simp [outcomesAgree])
          | blocked => simp [Outcome.map, outcomesAgree]
          | undefined => rw [hb1, hb2] at ih; exact absurd ih (by simp [outcomesAgree])
          | outOfFuel => rw [hb1, hb2] at ih; exact absurd ih (by simp [outcomesAgree])
        | undefined =>
          cases hb2 : Allocator.deallocate ops b2 ptr size with
          | returned y => rw [hb1, hb2] at ih; exact absurd ih (by simp [outcomesAgree])
          | blocked => rw [hb1, hb2] at ih; exact absurd ih (by simp [outcomesAgree])
          | undefined => simp [Outcome.map, outcomesAgree]
          | outOfFuel => rw [hb1, hb2] at ih; exact absurd ih (by simp [outcomesAgree])
        | outOfFuel =>
          cases hb2 : Allocator.deallocate ops b2 ptr size with
          | returned y => rw [hb1, hb2] at ih; exact absurd ih (by simp [outcomesAgree])
          | blocked => rw [hb1, hb2] at ih; exact absurd ih (by simp [outcomesAgree])
          | undefined => rw [hb1, hb2] at ih; exact absurd ih (by simp [outcomesAgree])
          | outOfFuel => simp [Outcome.map, outcomesAgree]

theorem forall₂_getElem? {α β : Type} {R : α → β → Prop} {l1 : List α} {l2 : List β}
    (h : List.Forall₂ R l1 l2) :
    ∀ i : Nat, (l1[i]? = none ∧ l2[i]? = none) ∨
      ∃ (x : α) (y : β), l1[i]? = some x ∧ l2[i]? = some y ∧ R x y := by
  induction h with
  | nil => intro i; exact Or.inl ⟨rfl, rfl⟩
  | cons hxy _ ih =>
    intro i
    cases i with
    | zero => exact Or.inr ⟨_, _, by simp, by simp, hxy⟩
    | succ n => simpa using ih n

theorem forall₂_set {α β : Type} {R : α → β → Prop} {l1 : List α} {l2 : List β}
    (h : List.Forall₂ R l1 l2) (x : α) (y : β) (hxy : R x y) :
    ∀ i : Nat, List.Forall₂ R (l1.set i x) (l2.set i y) := by
  induction h with
  | nil => intro i; exact List.Forall₂.nil
  | cons hab hrest ih =>
    intro i
    cases i with
    | zero => exact List.Forall₂.cons hxy hrest
    | succ n => exact List.Forall₂.cons hab (ih n)

theorem Allocator.SameButTracking.parts (same : L → L → Prop)
    (n1 n2 : Option (Allocator L)) (p1 p2 : List (Option (MemoryBlocks L)))
    (t1 t2 : Nat) (l1 l2 : Bool)
    (h : Allocator.SameButTracking same (Allocator.mk n1 p1 t1 l1) (Allocator.mk n2 p2 t2 l2)) :
    List.Forall₂ (poolEntrySame same) p1 p2 ∧ l1 = l2 ∧
      ∀ (q1 q2 : List (Option (MemoryBlocks L))) (l : Bool),
        List.Forall₂ (poolEntrySame same) q1 q2 →
        Allocator.SameButTracking same (Allocator.mk n1 q1 t1 l) (Allocator.mk n2 q2 t2 l) := by
  cases h with
  | leaf _ _ _ _ _ hpools =>
    exact ⟨hpools, rfl, fun q1 q2 l hq => Allocator.SameButTracking.leaf q1 q2 t1 t2 l hq⟩
  | wrap b1 b2 _ _ _ _ _ hnested hpools =>
    exact ⟨hpools, rfl,
      fun q1 q2 l hq => Allocator.SameButTracking.wrap b1 b2 q1 q2 t1 t2 l hnested hq⟩

/-- `Allocator::allocate` on two allocators that are equal up to tracking flags: the
outcomes agree. -/
theorem Allocator.allocate_agree (ops : MemorySlotsOps L) (same : L → L → Prop)
    (hT : TrackingIndependent ops same) (malloc : Nat → Nat) (fuel size : Nat)
    (allocatorType : AllocatorType) (a b : Allocator L)
    (h : Allocator.SameButTracking same a b) :
    outcomesAgree same (a.allocate ops malloc fuel size allocatorType)
      (b.allocate ops malloc fuel size allocatorType) := by
  cases a with
  | mk n1 p1 t1 l1 =>
    cases b with
    | mk n2 p2 t2 l2 =>
      obtain ⟨hpools, hl, hmk⟩ := Allocator.SameButTracking.parts same n1 n2 p1 p2 t1 t2 l1 l2 h
      subst hl
      cases fuel with
      | zero => simp [Allocator.allocate, outcomesAgree]
      | succ n =>
        cases l1 with
        | true =>
          rw [Allocator.allocate_locked, Allocator.allocate_locked]
          simp [outcomesAgree]
        | false =>
          rcases forall₂_getElem? hpools allocatorType.toNat with ⟨h1, h2⟩ | ⟨x, y, h1, h2, hxy⟩
          · simp [Allocator.allocate, h1, h2, outcomesAgree]
          · rw [Allocator.allocate_unlocked ops malloc n1 p1 t1 size allocatorType n x h1,
              Allocator.allocate_unlocked ops malloc n2 p2 t2 size allocatorType n y h2]
            have hattempt :
                (Allocator.poolAttempt ops malloc p1 t1 size allocatorType x).1 =
                  (Allocator.poolAttempt ops malloc p2 t2 size allocatorType y).1 ∧
                List.Forall₂ (poolEntrySame same)
                  (Allocator.poolAttempt ops malloc p1 t1 size allocatorType x).2.1
                  (Allocator.poolAttempt ops malloc p2 t2 size allocatorType y).2.1 ∧
                externalCalls (Allocator.poolAttempt ops malloc p1 t1 size allocatorType x).2.2 =
                  externalCalls
                    (Allocator.poolAttempt ops malloc p2 t2 size allocatorType y).2.2 := by
              cases x with
              | none =>
                cases y with
                | none => exact ⟨rfl, hpools, rfl⟩
                | some q2 => exact absurd hxy (by simp [poolEntrySame])
              | some q1 =>
                cases y with
                | none => exact absurd hxy (by simp [poolEntrySame])
                | some q2 =>
                  have hq : q1.sameButTracking same q2 := hxy
                  obtain ⟨a1, a2, a3⟩ :=
                    MemoryBlocks.pool_allocate_agree ops same hT malloc t1 t2 size q1 q2 hq
                  have a2' : poolEntrySame same
                      (some (MemoryBlocks.allocate ops malloc t1 q1 size).2.1)
                      (some (MemoryBlocks.allocate ops malloc t2 q2 size).2.1) := a2
                  exact ⟨a1, forall₂_set hpools _ _ a2' _, a3⟩
            obtain ⟨hp, hst, hev⟩ := hattempt
            rw [hp]
            by_cases h0 : (Allocator.poolAttempt ops malloc p2 t2 size allocatorType y).1 ≠ 0
            · rw [if_pos h0, if_pos h0]
              refine ⟨rfl, hmk _ _ false hst, ?_⟩
              simp only [externalCalls_append, externalCalls_gated, hev]
            · rw [if_neg h0, if_neg h0]
              cases n <;> simp [outcomesAgree]

/-- Running the same calls on two allocators that are equal up to tracking flags: the
outcomes agree. -/
theorem execCalls_agree (ops : MemorySlotsOps L) (same : L → L → Prop)
    (hT : TrackingIndependent ops same) (fuel : Nat) :
    ∀ (calls : List Call) (a b : Allocator L), Allocator.SameButTracking same a b →
      outcomesAgree same (execCalls ops fuel calls a) (execCalls ops fuel calls b)
  | [], a, b, h => ⟨rfl, h, rfl⟩
  | Call.allocate size allocatorType malloc :: rest, a, b, h => by
    have hstep := Allocator.allocate_agree ops same hT malloc fuel size allocatorType a b h
    rw [execCalls, execCalls]
    cases h1 : a.allocate ops malloc fuel size allocatorType with
    | returned x =>
      cases h2 : b.allocate ops malloc fuel size allocatorType with
      | returned y =>
        rw [h1, h2] at hstep
        obtain ⟨s1, s2, s3⟩ := hstep
        have ih := execCalls_agree ops same hT fuel rest x.2.1 y.2.1 s2
        simp only
        cases h3 : execCalls ops fuel rest x.2.1 with
        | returned u =>
          cases h4 : execCalls ops fuel rest y.2.1 with
          | returned v =>
            rw [h3, h4] at ih
            obtain ⟨i1, i2, i3⟩ := ih
            simp only [Outcome.map, outcomesAgree]
            exact ⟨by rw [s1, i1], i2, by simp only [externalCalls_append, s3, i3]⟩
          | blocked => rw [h3, h4] at ih; exact absurd ih (by simp [outcomesAgree])
          | undefined => rw [h3, h4] at ih; exact absurd ih (by simp [outcomesAgree])
          | outOfFuel => rw [h3, h4] at ih; exact absurd ih (by simp [outcomesAgree])
        | blocked =>
          cases h4 : execCalls ops fuel rest y.2.1 with
          | returned v => rw [h3, h4] at ih; exact absurd ih (by simp [outcomesAgree])
          | blocked => simp [Outcome.map, outcomesAgree]
          | undefined => rw [h3, h4] at ih; exact absurd ih (by simp [outcomesAgree])
          | outOfFuel => rw [h3, h4] at ih; exact absurd ih (by simp [outcomesAgree])
        | undefined =>
          cases h4 : execCalls ops fuel rest y.2.1 with
          | returned v => rw [h3, h4] at ih; exact absurd ih (by simp [outcomesAgree])
          | blocked => rw [h3, h4] at ih; exact absurd ih (by simp [outcomesAgree])
          | undefined => simp [Outcome.map, outcomesAgree]
          | outOfFuel => rw [h3, h4] at ih; exact absurd ih (by simp [outcomesAgree])
        | outOfFuel =>
          cases h4 : execCalls ops fuel rest y.2.1 with
          | returned v => rw [h3, h4] at ih; exact absurd ih (by simp [outcomesAgree])
          | blocked => rw [h3, h4] at ih; exact absurd ih (by simp [outcomesAgree])
          | undefined => rw [h3, h4] at ih; exact absurd ih (by simp [outcomesAgree])
          | outOfFuel => simp [Outcome.map, outcomesAgree]
      | blocked => rw [h1, h2] at hstep; exact absurd hstep (by simp [outcomesAgree])
      | undefined => rw [h1, h2] at hstep; exact absurd hstep (by simp [outcomesAgree])
      | outOfFuel => rw [h1, h2] at hstep; exact absurd hstep (by simp [outcomesAgree])
    | blocked =>
      cases h2 : b.allocate ops malloc fuel size allocatorType with
      | returned y => rw [h1, h2] at hstep; exact absurd hstep (by simp [outcomesAgree])
      | blocked => simp [outcomesAgree]
      | undefined => rw [h1, h2] at hstep; exact absurd hstep (by simp [outcomesAgree])
      | outOfFuel => rw [h1, h2] at hstep; exact absurd hstep (by simp [outcomesAgree])
    | undefined =>
      cases h2 : b.allocate ops malloc fuel size allocatorType with
      | returned y => rw [h1, h2] at hstep; exact absurd hstep (by simp [outcomesAgree])
      | blocked => rw [h1, h2] at hstep; exact absurd hstep (by simp [outcomesAgree])
      | undefined => simp [outcomesAgree]
      | outOfFuel => rw [h1, h2] at hstep; exact absurd hstep (by simp [outcomesAgree])
    | outOfFuel =>
      cases h2 : b.allocate ops malloc fuel size allocatorType with
      | returned y => rw [h1, h2] at hstep; exact absurd hstep (by simp [outcomesAgree])
      | blocked => rw [h1, h2] at hstep; exact absurd hstep (by simp [outcomesAgree])
      | undefined => rw [h1, h2] at hstep; exact absurd hstep (by simp [outcomesAgree])
      | outOfFuel => simp [outcomesAgree]
  | Call.deallocate ptr size :: rest, a, b, h => by
    have hstep := Allocator.deallocate_agree ops same hT ptr size a b h
    rw [execCalls, execCalls]
    cases h1 : a.deallocate ops ptr size with
    | returned x =>
      cases h2 : b.deallocate ops ptr size with
      | returned y =>
        rw [h1, h2] at hstep
        obtain ⟨s1, s2, s3⟩ := hstep
        have ih := execCalls_agree ops same hT fuel rest x.2.1 y.2.1 s2
        simp only
        cases h3 : execCalls ops fuel rest x.2.1 with
        | returned u =>
          cases h4 : execCalls ops fuel rest y.2.1 with
          | returned v =>
            rw [h3, h4] at ih
            obtain ⟨i1, i2, i3⟩ := ih
            simp only [Outcome.map, outcomesAgree]
            exact ⟨by rw [s1, i1], i2, by simp only [externalCalls_append, s3, i3]⟩
          | blocked => rw [h3, h4] at ih; exact absurd ih (by simp [outcomesAgree])
          | undefined => rw [h3, h4] at ih; exact absurd ih (by simp [outcomesAgree])
          | outOfFuel => rw [h3, h4] at ih; exact absurd ih (by simp [outcomesAgree])
        | blocked =>
          cases h4 : execCalls ops fuel rest y.2.1 with
          | returned v => rw [h3, h4] at ih; exact absurd ih (by simp [outcomesAgree])
          | blocked => simp [Outcome.map, outcomesAgree]
          | undefined => rw [h3, h4] at ih; exact absurd ih (by simp [outcomesAgree])
          | outOfFuel => rw [h3, h4] at ih; exact absurd ih (by simp [outcomesAgree])
        | undefined =>
          cases h4 : execCalls ops fuel rest y.2.1 with
          | returned v => rw [h3, h4] at ih; exact absurd ih (by simp [outcomesAgree])
          | blocked => rw [h3, h4] at ih; exact absurd ih (by simp [outcomesAgree])
          | undefined => simp [Outcome.map, outcomesAgree]
          | outOfFuel => rw [h3, h4] at ih; exact absurd ih (by simp [outcomesAgree])
        | outOfFuel =>
          cases h4 : execCalls ops fuel rest y.2.1 with
          | returned v => rw [h3, h4] at ih; exact absurd ih (by simp [outcomesAgree])
          | blocked => rw [h3, h4] at ih; exact absurd ih (by simp [outcomesAgree])
          | undefined => rw [h3, h4] at ih; exact absurd ih (by simp [outcomesAgree])
          | outOfFuel => simp [Outcome.map, outcomesAgree]
      | blocked => rw [h1, h2] at hstep; exact absurd hstep (by simp [outcomesAgree])
      | undefined => rw [h1, h2] at hstep; exact absurd hstep (by simp [outcomesAgree])
      | outOfFuel => rw [h1, h2] at hstep; exact absurd hstep (by simp [outcomesAgree])
    | blocked =>
      cases h2 : b.deallocate ops ptr size with
      | returned y => rw [h1, h2] at hstep; exact absurd hstep (by simp [outcomesAgree])
      | blocked => simp [outcomesAgree]
      | undefined => rw [h1, h2] at hstep; exact absurd hstep (by simp [outcomesAgree])
      | outOfFuel => rw [h1, h2] at hstep; exact absurd hstep (by simp [outcomesAgree])
    | undefined =>
      cases h2 : b.deallocate ops ptr size with
      | returned y => rw [h1, h2] at hstep; exact absurd hstep (by simp [outcomesAgree])
      | blocked => rw [h1, h2] at hstep; exact absurd hstep (by simp [outcomesAgree])
      | undefined => simp [outcomesAgree]
      | outOfFuel => rw [h1, h2] at hstep; exact absurd hstep (by simp [outcomesAgree])
    | outOfFuel =>
      cases h2 : b.deallocate ops ptr size with
      | returned y => rw [h1, h2] at hstep; exact absurd hstep (by simp [outcomesAgree])
      | blocked => rw [h1, h2] at hstep; exact absurd hstep (by simp [outcomesAgree])
      | undefined => rw [h1, h2] at hstep; exact absurd hstep (by simp [outcomesAgree])
      | outOfFuel => simp [outcomesAgree]

theorem MemoryBlocks.sameButTracking_refl (same : L → L → Prop) (hrefl : ∀ s : L, same s s)
    (p : MemoryBlocks L) : p.sameButTracking same p :=
  ⟨rfl, rfl, List.forall₂_same.mpr (fun b _ => ⟨rfl, hrefl b.memorySlots⟩)⟩

theorem poolEntrySame_refl (same : L → L → Prop) (hrefl : ∀ s : L, same s s)
    (pools : List (Option (MemoryBlocks L))) :
    List.Forall₂ (poolEntrySame same) pools pools := by
  refine List.forall₂_same.mpr (fun e _ => ?_)
  cases e with
  | none => trivial
  | some p => exact MemoryBlocks.sameButTracking_refl same hrefl p

/-- Two allocators that differ in their tracking flags only are equal up to tracking
flags. -/
theorem Allocator.sameButTracking_of_flags (same : L → L → Prop) (hrefl : ∀ s : L, same s s) :
    ∀ (nested : Option (Allocator L)) (pools : List (Option (MemoryBlocks L)))
      (t1 t2 : Nat) (locked : Bool),
      Allocator.SameButTracking same (Allocator.mk nested pools t1 locked)
        (Allocator.mk nested pools t2 locked)
  | none, pools, t1, t2, locked =>
    Allocator.SameButTracking.leaf pools pools t1 t2 locked (poolEntrySame_refl same hrefl pools)
  | some (Allocator.mk n p t l), pools, t1, t2, locked =>
    Allocator.SameButTracking.wrap _ _ pools pools t1 t2 locked
      (Allocator.sameButTracking_of_flags same hrefl n p t t l)
      (poolEntrySame_refl same hrefl pools)

/-- C11. Tracking flags are observational, for a ledger whose answers do not depend on
its tracking flags (`TrackingIndependent`). For any two allocators that differ only in
their `memoryTracking` bitmask and any sequence of `allocate` / `deallocate` calls (with
the same answers of `std::malloc`), the two runs agree: either both run to the end,
return the same pointers and the same booleans, leave pools, blocks and ledgers that are
equal up to tracking flags, and made the same calls of the ledgers and of `std::malloc`;
or both stop at the same call for the same reason. -/
theorem Allocator.tracking_flags_observational (ops : MemorySlotsOps L)
    (same : L → L → Prop) (hT : TrackingIndependent ops same) (fuel : Nat)
    (nested : Option (Allocator L)) (pools : List (Option (MemoryBlocks L)))
    (t1 t2 : Nat) (locked : Bool) (calls : List Call) :
    outcomesAgree same
      (execCalls ops fuel calls (Allocator.mk nested pools t1 locked))
      (execCalls ops fuel calls (Allocator.mk nested pools t2 locked)) :=
  execCalls_agree ops same hT fuel calls _ _
    (Allocator.sameButTracking_of_flags same hT.refl nested pools t1 t2 locked)

/-- The answers of the ledger `SimpleSlots` do not depend on its tracking flags. -/
theorem SimpleSlots.trackingIndependent :
    TrackingIndependent SimpleSlots.ops SimpleSlots.sameButTracking where
  refl := fun _ => ⟨rfl, rfl⟩
  create := fun _ _ _ => ⟨rfl, rfl⟩
  reserve := fun s1 s2 size alignment h => by
    rcases s1 with ⟨c1, r1, t1⟩
    rcases s2 with ⟨c2, r2, t2⟩
    obtain ⟨hc, hr⟩ := h
    simp only at hc hr
    subst hc hr
    have hfits : SimpleSlots.fits ⟨c1, r1, t1⟩ size = SimpleSlots.fits ⟨c1, r1, t2⟩ size := rfl
    have hcand : SimpleSlots.candidates ⟨c1, r1, t1⟩ alignment =
        SimpleSlots.candidates ⟨c1, r1, t2⟩ alignment := rfl
    show (SimpleSlots.reserve ⟨c1, r1, t1⟩ size alignment).1 =
        (SimpleSlots.reserve ⟨c1, r1, t2⟩ size alignment).1 ∧
      SimpleSlots.sameButTracking (SimpleSlots.reserve ⟨c1, r1, t1⟩ size alignment).2
        (SimpleSlots.reserve ⟨c1, r1, t2⟩ size alignment).2
    unfold SimpleSlots.reserve
    rw [hfits, hcand]
    cases (SimpleSlots.candidates ⟨c1, r1, t2⟩ alignment).find?
        (SimpleSlots.fits ⟨c1, r1, t2⟩ size) with
    | none => exact ⟨rfl, rfl, rfl⟩
    | some offset => exact ⟨rfl, rfl, rfl⟩
  release := fun s1 s2 offset size h => by
    rcases s1 with ⟨c1, r1, t1⟩
    rcases s2 with ⟨c2, r2, t2⟩
    obtain ⟨hc, hr⟩ := h
    simp only at hc hr
    subst hc hr
    show (SimpleSlots.release ⟨c1, r1, t1⟩ offset size).1 =
        (SimpleSlots.release ⟨c1, r1, t2⟩ offset size).1 ∧
      SimpleSlots.sameButTracking (SimpleSlots.release ⟨c1, r1, t1⟩ offset size).2
        (SimpleSlots.release ⟨c1, r1, t2⟩ offset size).2
    unfold SimpleSlots.release
    by_cases hm : (offset, size) ∈ r1
    · rw [if_pos hm, if_pos hm]
      exact ⟨rfl, rfl, rfl⟩
    · rw [if_neg hm, if_neg hm]
      exact ⟨rfl, rfl, rfl⟩
  totalMemorySize := fun _ _ h => h.1

/-- C11, on the default-constructed allocator with tracking flags 0 and 1 and the calls
`sampleCalls`: both runs return the same pointers and booleans. -/
theorem Allocator.tracking_flags_observational_witness :
    outcomesAgree SimpleSlots.sameButTracking
      (execCalls SimpleSlots.ops 1 sampleCalls (Allocator.construct none 0).1)
      (execCalls SimpleSlots.ops 1 sampleCalls (Allocator.construct none 1).1) ∧
    (execCalls SimpleSlots.ops 1 sampleCalls (Allocator.construct none 0).1).value? =
      some [CallResult.pointer 1048576, CallResult.pointer 1048676, CallResult.status true,
        CallResult.pointer 1048576, CallResult.pointer 1048728] ∧
    (execCalls SimpleSlots.ops 1 sampleCalls (Allocator.construct none 1).1).value? =
      some [CallResult.pointer 1048576, CallResult.pointer 1048676, CallResult.status true,
        CallResult.pointer 1048576, CallResult.pointer 1048728] :=
  ⟨Allocator.tracking_flags_observational SimpleSlots.ops SimpleSlots.sameButTracking
      SimpleSlots.trackingIndependent 1 none _ 0 1 false sampleCalls,
    by decide, by decide⟩

end vsg
